import Mathlib

/-!
# Exam marker (SYSC4001 A3P2): shallow embedding and verification

The repository holds two variants of one program, `src/A/src/marker.cpp`
(no synchronisation) and `src/B/src/marker.cpp` (POSIX semaphores).  A parent
process loads exams into a shared memory area and N teaching-assistant (TA)
processes review a rubric and mark the questions of the current exam.

Conventions of the embedding.

* A C `char` is an `Int` holding the value the program sees (`'A'` is 65); a
  file is the list of the `char`s that `fgets` would store for it.  `char` is
  taken to be signed and 8 bits wide, as on x86-64 Linux; `to_char` is the
  conversion from `int`.
* A C `int` is an `Int`.  The only arithmetic on `int`s is `log_counter++`,
  `exam_index++` and `i + 1` on small values; signed overflow is undefined in
  C and is not reached by the properties studied here.  The one place where
  a value of any size meets an `int` is the conversion `%d` of `sscanf`: it is
  rendered as glibc does it on x86-64 Linux (`strtol` into a 64-bit `long`,
  then the cast to a 32-bit `int`), see `scan_d`.
* A C array of length `n` is a function on `Fin n`.
* A line of the log is kept as its `[G%05d][...]` prefix.  In variant B each
  process has its own `stdio` buffer for `stdout`, and what reaches the file
  descriptor is a list of its own; see `B.Sys`.
-/

namespace Marker

/-! ## Shared memory -/

/-- The constant `NUM_QUESTIONS` of both variants. -/
abbrev NUM_QUESTIONS : Nat := 5

/-- The plain-data fields of `struct SharedArea`.  Flags are C `int`s: zero is
false, anything else is true.  The four semaphores of variant B are not data:
the three mutexes are rendered by the atomicity of the steps they bracket and
`exam_ready` is a counter of the system state. -/
structure SharedArea where
  rubric : Fin NUM_QUESTIONS → Int
  question_state : Fin NUM_QUESTIONS → Int
  student_id : Fin 5 → Int
  exam_done : Int
  terminate : Int
  rubric_dirty : Int
  log_counter : Int

/-- The area after `std::memset(sh, 0, sizeof(*sh))`. -/
def SharedArea.zeroed : SharedArea where
  rubric := fun _ => 0
  question_state := fun _ => 0
  student_id := fun _ => 0
  exam_done := 0
  terminate := 0
  rubric_dirty := 0
  log_counter := 0

/-- The assignment `a[i] = v` for a C `int` index `i`. -/
def array_write {n : Nat} (a : Fin n → Int) (i : Int) (v : Int) : Fin n → Int :=
  fun j => if (j.val : Int) = i then v else a j

/-- Conversion of an `int` to a signed 8-bit `char`. -/
def to_char (x : Int) : Int := (x + 128) % 256 - 128

/-- One printed log prefix: the sequence number and the role
(`none` for `[PARENT]`, `some i` for `[TA i]`). -/
structure LogLine where
  id : Int
  who : Option Int
deriving DecidableEq, Repr

/-! ## C library -/

/-- The characters of an ASCII string literal. -/
def cstr (s : String) : List Int := s.toList.map (fun c => (c.toNat : Int))

/-- The C string held by a buffer: the characters before the first NUL. -/
def c_str : List Int → List Int
  | [] => []
  | c :: cs => if c = 0 then [] else c :: c_str cs

/-- The body of `fgets` once the stream is known not to be at end of file:
read at most `n` characters, stopping after a newline.  Returns the
characters stored and the rest of the stream. -/
def fgets_aux : Nat → List Int → List Int × List Int
  | 0, f => ([], f)
  | _ + 1, [] => ([], [])
  | n + 1, c :: cs =>
    if c = 10 then ([c], cs)
    else ((fgets_aux n cs).1.cons c, (fgets_aux n cs).2)

/-- The call `fgets(line, size, f)` on a stream with `f` left to read: `none`
is the NULL returned at end of file. -/
def fgets (size : Nat) (f : List Int) : Option (List Int × List Int) :=
  match f with
  | [] => none
  | _ :: _ => some (fgets_aux (size - 1) f)

/-- The predicate `isspace` in the C locale. -/
def isspace (c : Int) : Bool := c = 32 || (9 ≤ c && c ≤ 13)

/-- The predicate `isdigit`. -/
def isdigit (c : Int) : Bool := 48 ≤ c && c ≤ 57

/-- Skipping of white space by a `scanf` directive. -/
def skip_space : List Int → List Int
  | [] => []
  | c :: cs => if isspace c then skip_space cs else c :: cs

/-- Conversion of a `long` to an `int`: 32 bits, two's complement. -/
def to_int (x : Int) : Int := (x + 2147483648) % 4294967296 - 2147483648

/-- The value `strtol` returns for a text whose exact decimal value is `x`:
`x` itself when it fits a 64-bit `long`, else `LONG_MAX` or `LONG_MIN`. -/
def strtol_clamp (x : Int) : Int :=
  if x > 9223372036854775807 then 9223372036854775807
  else if x < -9223372036854775808 then -9223372036854775808
  else x

/-- The run of decimal digits that `%d` collects, most significant first:
the exact decimal value of the digits taken (what `strtol` then brings into
the range of `long`, see `scan_d`) and the characters left. -/
def scan_digits (acc : Int) : List Int → Int × List Int
  | [] => (acc, [])
  | c :: cs => if isdigit c then scan_digits (acc * 10 + (c - 48)) cs else (acc, c :: cs)

/-- The number part of `%d`, after white space and sign: at least one digit. -/
def scan_number : List Int → Option (Int × List Int)
  | [] => none
  | c :: cs => if isdigit c then some (scan_digits 0 (c :: cs)) else none

/-- The conversion `%d` into an `int`: skip white space, take an optional
sign and a non-empty run of digits.  The C standard leaves the result
undefined when the number does not fit an `int`; glibc on x86-64 Linux
converts the text with `strtol`, which saturates at `LONG_MIN` and
`LONG_MAX`, and stores the `long` cast to `int`, so that `4294967297` is
stored as 1.  Returns the `int` stored and the characters left. -/
def scan_d (s : List Int) : Option (Int × List Int) :=
  match skip_space s with
  | [] => none
  | c :: cs =>
    if c = 45 then (scan_number cs).map (fun p => (to_int (strtol_clamp (-p.1)), p.2))
    else if c = 43 then (scan_number cs).map (fun p => (to_int (strtol_clamp p.1), p.2))
    else (scan_number (c :: cs)).map (fun p => (to_int (strtol_clamp p.1), p.2))

/-- The directives that occur in the formats of `load_rubric`. -/
inductive Directive where
  | d
  | c
  | space
  | lit (ch : Int)
deriving DecidableEq, Repr

/-- The call `sscanf(s, fmt, ...)`: the values assigned, in order.  The C
return value is the length of this list when a conversion completed; the
program only compares it with 2. -/
def sscanf : List Directive → List Int → List Int
  | [], _ => []
  | Directive.space :: ds, s => sscanf ds (skip_space s)
  | Directive.lit ch :: ds, s =>
    match s with
    | [] => []
    | c :: cs => if c = ch then sscanf ds cs else []
  | Directive.c :: ds, s =>
    match s with
    | [] => []
    | c :: cs => c :: sscanf ds cs
  | Directive.d :: ds, s =>
    match scan_d s with
    | none => []
    | some (v, r) => v :: sscanf ds r

/-- The format `"%d , %c"`. -/
def fmt_spaced : List Directive :=
  [Directive.d, Directive.space, Directive.lit 44, Directive.space, Directive.c]

/-- The format `"%d,%c"`. -/
def fmt_tight : List Directive := [Directive.d, Directive.lit 44, Directive.c]

/-- The two `sscanf` calls of `load_rubric` on one line: `some (qnum, letter)`
when one of them returns 2, the first being tried first. -/
def scan_rubric_line (line : List Int) : Option (Int × Int) :=
  match sscanf fmt_spaced (c_str line) with
  | [qnum, letter] => some (qnum, letter)
  | _ =>
    match sscanf fmt_tight (c_str line) with
    | [qnum, letter] => some (qnum, letter)
    | _ => none

/-- The conversion `%d` of `fprintf` on a non-negative value. -/
def print_d (n : Nat) : List Int := (Nat.toDigits 10 n).map (fun c => (c.toNat : Int))

/-- The comparison `strncmp(a, b, n) == 0` on NUL-terminated buffers. -/
def strncmp_eq : Nat → List Int → List Int → Bool
  | 0, _, _ => true
  | _ + 1, [], [] => true
  | _ + 1, [], _ :: _ => false
  | _ + 1, _ :: _, [] => false
  | n + 1, a :: as, b :: bs => if a = b then (if a = 0 then true else strncmp_eq n as bs) else false

/-! ## Rubric file (identical in both variants) -/

/-- The `for` loop of `load_rubric` with `n` iterations left, on the stream
`f`.  Returns the C return value and the area, which keeps the letters
stored before a failure. -/
def load_rubric_loop : Nat → List Int → SharedArea → Int × SharedArea
  | 0, _, sh => (0, sh)
  | n + 1, f, sh =>
    match fgets 256 f with
    | none => (-1, sh)
    | some (line, rest) =>
      match scan_rubric_line line with
      | none => (-1, sh)
      | some (qnum, letter) =>
        if qnum < 1 ∨ qnum > NUM_QUESTIONS then (-1, sh)
        else load_rubric_loop n rest
          { sh with rubric := array_write sh.rubric (qnum - 1) letter }

/-- The function `load_rubric`; `file` is `none` when `fopen` fails. -/
def load_rubric (file : Option (List Int)) (sh : SharedArea) : Int × SharedArea :=
  match file with
  | none => (-1, sh)
  | some f => load_rubric_loop NUM_QUESTIONS f sh

/-- The line written by `fprintf(f, "%d, %c\n", i + 1, sh->rubric[i])`. -/
def rubric_line (rubric : Fin NUM_QUESTIONS → Int) (i : Fin NUM_QUESTIONS) : List Int :=
  print_d (i.val + 1) ++ [44, 32, rubric i, 10]

/-- The contents written by the loop of `save_rubric`. -/
def rubric_text (rubric : Fin NUM_QUESTIONS → Int) : List Int :=
  ((List.finRange NUM_QUESTIONS).map (rubric_line rubric)).flatten

/-- The function `save_rubric`: `writable` tells whether `fopen(path, "w")`
succeeds; when it fails the file stays as it was.  Returns the C return
value and the file.  The function does not look at the results of `fprintf`
and `fclose`; a write that fails after a successful `fopen` is outside this
model. -/
def save_rubric (writable : Bool) (file : Option (List Int)) (sh : SharedArea) :
    Int × Option (List Int) :=
  if writable then (0, some (rubric_text sh.rubric)) else (-1, file)

/-! ## Critical sections of the teaching assistants -/

/-- The rubric correction `newc = old + 1; if (newc > 'Z') newc = 'A'` of
`ta_process` (both variants). -/
def next_letter (old : Int) : Int :=
  if to_char (old + 1) > 90 then 65 else to_char (old + 1)

/-- The critical section of variant B that corrects the rubric entry `q`
(lines 228-236): store the next letter and raise `rubric_dirty`. -/
def correct_rubric (q : Fin NUM_QUESTIONS) (sh : SharedArea) : SharedArea :=
  { sh with rubric := Function.update sh.rubric q (next_letter (sh.rubric q)), rubric_dirty := 1 }

/-- The `for` loop of the scan-and-claim critical section of variant B over
the indices still to visit, with the current value of `all_done`.  Returns
`q_to_mark` (`none` for -1), `all_done` and the question states. -/
def scan_questions (qs : Fin NUM_QUESTIONS → Int) :
    List (Fin NUM_QUESTIONS) → Bool → Option (Fin NUM_QUESTIONS) × Bool × (Fin NUM_QUESTIONS → Int)
  | [], all_done => (none, all_done, qs)
  | i :: rest, all_done =>
    if qs i = 0 then (some i, false, Function.update qs i 1)
    else scan_questions qs rest (if qs i ≠ 2 then false else all_done)

/-- The scan-and-claim critical section of variant B (lines 264-285).
Returns `q_to_mark`, `all_done` and the area. -/
def claim_section (sh : SharedArea) : Option (Fin NUM_QUESTIONS) × Bool × SharedArea :=
  let r := scan_questions sh.question_state (List.finRange NUM_QUESTIONS) true
  (r.1, r.2.1,
    { sh with question_state := r.2.2,
              exam_done := if r.1 = none ∧ r.2.1 = true then 1 else sh.exam_done })

/-! ## Exam files -/

/-- What the parent process finds outside the shared area. -/
structure Env where
  /-- The value of `num_TAs`. -/
  num_TAs : Nat
  /-- The rubric file at start-up (`none`: it cannot be opened). -/
  rubric_file : Option (List Int)
  /-- The file `exam%02d.txt` of the exam directory, by index. -/
  exam_dir : Int → Option (List Int)
  /-- The indeterminate contents of the local buffer `line` of `load_exam`
  when exam `idx` is loaded. -/
  line_garbage : Int → Nat → Int
  /-- Standard output is a terminal: `stdio` then buffers it by lines.  When
  it is a pipe or a file, `stdio` buffers it in full. -/
  stdout_tty : Bool

/-- The local buffer `char line[256]` after a successful `fgets` that stored
`line`: the characters, the terminating NUL, and beyond it whatever the
buffer held. -/
def line_buffer (garbage : Nat → Int) (line : List Int) (i : Nat) : Int :=
  if i < line.length then line.getD i 0
  else if i = line.length then 0
  else garbage i

/-- The two statements `memcpy(sh->student_id, line, 4)` and
`sh->student_id[4] = 0`. -/
def copy_student_id (buf : Nat → Int) : Fin 5 → Int :=
  fun j => if j.val < 4 then buf j.val else 0

/-- The test `strncmp(sh->student_id, "9999", 4) == 0`. -/
def is_sentinel (student_id : Fin 5 → Int) : Bool :=
  strncmp_eq 4 (List.ofFn student_id) [57, 57, 57, 57, 0]

namespace A

/-- The statement pair `log_id = sh->log_counter++; printf("[G%05d][PARENT] ...")`
of variant A, executed without interruption; `out` is the list of the lines
handed to `printf` so far. -/
def log_parent (sh : SharedArea) (out : List LogLine) : SharedArea × List LogLine :=
  ({ sh with log_counter := sh.log_counter + 1 }, out ++ [⟨sh.log_counter, none⟩])

/-- The function `load_exam` of variant A, executed without interruption.
Returns the C return value, the area and the lines printed. -/
def load_exam (env : Env) (idx : Int) (sh : SharedArea) (out : List LogLine) :
    Int × SharedArea × List LogLine :=
  match env.exam_dir idx with
  | none => (-1, { sh with terminate := 1 }, out)
  | some f =>
    match fgets 256 f with
    | none => (-1, { sh with terminate := 1 }, out)
    | some (line, _) =>
      let sh1 := { sh with student_id := copy_student_id (line_buffer (env.line_garbage idx) line) }
      let (sh2, out2) := log_parent sh1 out
      let sh3 := { sh2 with question_state := fun _ => 0 }
      let sh4 := { sh3 with exam_done := 0 }
      if is_sentinel sh4.student_id then
        let (sh5, out5) := log_parent sh4 out2
        (0, { sh5 with terminate := 1 }, out5)
      else (0, sh4, out2)

/-! ### The processes of variant A

Nothing is guarded, so every access to the shared area is a step of its own:
each read of a flag or of one array element and each write.  A log statement
`log_id = sh->log_counter++; printf(...)` is two steps, the read of the
counter and the write-back with the print.  Only `load_exam` is kept as one
step.  Sleeps take no step.  Every `fork` is taken to succeed. -/

/-- The control points of `ta_process` in variant A; each names the
statement about to be executed. -/
inductive TaPc where
  /-- Line 160, `if (sh->terminate)` at the head of the outer loop. -/
  | top
  /-- A log statement that continues at `next`; `pending` is the value read
  from `log_counter` once the read has been done. -/
  | log (pending : Option Int) (next : TaPc)
  /-- Line 173, read of `rubric[q]`. -/
  | review_read (q : Fin NUM_QUESTIONS)
  /-- Lines 180-184, the sleep and the draw of `change`. -/
  | review_draw (q : Fin NUM_QUESTIONS)
  /-- Line 185, `old = sh->rubric[q]`. -/
  | edit_read (q : Fin NUM_QUESTIONS)
  /-- Lines 186-190, `sh->rubric[q] = newc` with the value read. -/
  | edit_write (q : Fin NUM_QUESTIONS) (old : Int)
  /-- Line 191, `sh->rubric_dirty = 1`. -/
  | edit_dirty (q : Fin NUM_QUESTIONS)
  /-- Line 204. -/
  | after_rubric
  /-- Line 213, head of the marking loop. -/
  | mark_top
  /-- Line 224, read of `question_state[i]` in the search loop. -/
  | scan (i : Fin NUM_QUESTIONS)
  /-- Line 232, `sh->exam_done = 1`. -/
  | set_exam_done
  /-- Line 241, second read of `question_state[q_to_mark]`. -/
  | recheck (q : Fin NUM_QUESTIONS)
  /-- Line 246, `sh->question_state[q_to_mark] = 1`. -/
  | claim (q : Fin NUM_QUESTIONS)
  /-- Line 256, `sh->question_state[q_to_mark] = 2`. -/
  | set_done (q : Fin NUM_QUESTIONS)
  /-- Line 268, read of `terminate` in the polling loop. -/
  | poll_terminate
  /-- Line 268, read of `exam_done` in the polling loop. -/
  | poll_exam_done
  /-- After the loop: the process has exited. -/
  | exited
deriving DecidableEq, Repr

/-- The control points of the parent loop of `main` in variant A. -/
inductive ParentPc where
  /-- Line 353, `while (!sh->terminate)`. -/
  | loop_top
  /-- Line 355, read of `exam_done`. -/
  | check_exam_done
  /-- Line 355, read of `terminate`. -/
  | check_terminate
  /-- Lines 356-357. -/
  | load
  /-- Line 361. -/
  | reset_exam_done
  /-- Line 365. -/
  | check_dirty
  /-- A log statement on standard output that continues at `next`. -/
  | log (pending : Option Int) (next : ParentPc)
  /-- The log statement of lines 369-370, printed on standard error. -/
  | log_stderr (pending : Option Int) (next : ParentPc)
  /-- Line 81 in `save_rubric`, `fopen(rubric_path, "w")`. -/
  | save_open
  /-- Lines 87-91 in `save_rubric`: the loop variable and the text written
  so far; `fclose` when the loop is over. -/
  | save_write (i : Nat) (text : List Int)
  /-- Line 372, `sh->rubric_dirty = 0`. -/
  | clear_dirty
  /-- Line 375. -/
  | sleep
  /-- Lines 382-384. -/
  | wait_children
  /-- After line 387. -/
  | finished
deriving DecidableEq, Repr

/-- A state of the whole system of variant A. -/
structure Sys where
  sh : SharedArea
  /-- The rubric file on disk. -/
  rubric_file : Option (List Int)
  /-- The lines handed to `printf` so far by all processes, in the order of
  the calls.  This is what standard output shows on a terminal, where every
  line is written as soon as it is printed; the `stdio` buffers that
  variant B is given below are left out of variant A, of which nothing is
  stated about the order of the output. -/
  out : List LogLine
  exam_index : Int
  parent : ParentPc
  /-- The control point of each teaching assistant. -/
  ta : Nat → TaPc

/-- What the scheduler and the environment decide for one step: which process
runs, and the outcome of the one external event that step may meet (whether
`fopen(rubric_path, "w")` succeeds; the value of `rand() % 2`). -/
inductive Label where
  | parent (writable : Bool)
  | ta (i : Nat) (change : Bool)
deriving DecidableEq, Repr

/-- The control point after the body of the rubric loop for question `q`:
`q++` and the loop test. -/
def next_review (q : Fin NUM_QUESTIONS) : TaPc :=
  if h : q.val + 1 < NUM_QUESTIONS then TaPc.review_read ⟨q.val + 1, h⟩ else TaPc.after_rubric

/-- The control point after the body of the search loop for index `i`:
`i++` and the loop test, then line 230 with `q_to_mark == -1`. -/
def next_scan (i : Fin NUM_QUESTIONS) : TaPc :=
  if h : i.val + 1 < NUM_QUESTIONS then TaPc.scan ⟨i.val + 1, h⟩ else TaPc.set_exam_done

/-- A move of assistant `i` to `pc` that leaves the shared area alone. -/
def Sys.goto (s : Sys) (i : Nat) (pc : TaPc) : Sys :=
  { s with ta := Function.update s.ta i pc }

/-- One step of `ta_process(i, sh)`; `none` when the process has exited. -/
def ta_step (i : Nat) (change : Bool) (s : Sys) : Option Sys :=
  match s.ta i with
  | TaPc.top =>
    some (s.goto i (if s.sh.terminate ≠ 0 then TaPc.log none TaPc.exited
                    else TaPc.log none (TaPc.review_read 0)))
  | TaPc.log none next => some (s.goto i (TaPc.log (some s.sh.log_counter) next))
  | TaPc.log (some id) next =>
    some { s with sh := { s.sh with log_counter := id + 1 }, out := s.out ++ [⟨id, some i⟩],
                  ta := Function.update s.ta i next }
  | TaPc.review_read q => some (s.goto i (TaPc.log none (TaPc.review_draw q)))
  | TaPc.review_draw q =>
    some (s.goto i (if change then TaPc.edit_read q else TaPc.log none (next_review q)))
  | TaPc.edit_read q => some (s.goto i (TaPc.edit_write q (s.sh.rubric q)))
  | TaPc.edit_write q old =>
    some { s with sh := { s.sh with rubric := Function.update s.sh.rubric q (next_letter old) },
                  ta := Function.update s.ta i (TaPc.edit_dirty q) }
  | TaPc.edit_dirty q =>
    some { s with sh := { s.sh with rubric_dirty := 1 },
                  ta := Function.update s.ta i (TaPc.log none (next_review q)) }
  | TaPc.after_rubric =>
    some (s.goto i (if s.sh.terminate ≠ 0 then TaPc.log none TaPc.exited else TaPc.mark_top))
  | TaPc.mark_top =>
    some (s.goto i (if s.sh.terminate ≠ 0 then TaPc.log none TaPc.exited else TaPc.scan 0))
  | TaPc.scan j =>
    some (s.goto i (if s.sh.question_state j ≠ 2 then TaPc.recheck j else next_scan j))
  | TaPc.set_exam_done =>
    some { s with sh := { s.sh with exam_done := 1 },
                  ta := Function.update s.ta i (TaPc.log none (TaPc.log none TaPc.poll_terminate)) }
  | TaPc.recheck q =>
    some (s.goto i (if s.sh.question_state q = 2 then TaPc.mark_top else TaPc.claim q))
  | TaPc.claim q =>
    some { s with sh := { s.sh with question_state := Function.update s.sh.question_state q 1 },
                  ta := Function.update s.ta i (TaPc.log none (TaPc.set_done q)) }
  | TaPc.set_done q =>
    some { s with sh := { s.sh with question_state := Function.update s.sh.question_state q 2 },
                  ta := Function.update s.ta i (TaPc.log none TaPc.mark_top) }
  | TaPc.poll_terminate =>
    some (s.goto i (if s.sh.terminate ≠ 0 then TaPc.top else TaPc.poll_exam_done))
  | TaPc.poll_exam_done =>
    some (s.goto i (if s.sh.exam_done ≠ 0 then TaPc.poll_terminate else TaPc.top))
  | TaPc.exited => none

/-- One step of the parent loop of `main`; `none` when the parent is blocked
in `wait` or has finished. -/
def parent_step (env : Env) (writable : Bool) (s : Sys) : Option Sys :=
  match s.parent with
  | ParentPc.loop_top =>
    some { s with parent := if s.sh.terminate ≠ 0 then ParentPc.log none ParentPc.wait_children
                            else ParentPc.check_exam_done }
  | ParentPc.check_exam_done =>
    some { s with parent := if s.sh.exam_done ≠ 0 then ParentPc.check_terminate
                            else ParentPc.check_dirty }
  | ParentPc.check_terminate =>
    some { s with parent := if s.sh.terminate = 0 then ParentPc.load else ParentPc.check_dirty }
  | ParentPc.load =>
    some { s with exam_index := s.exam_index + 1,
                  sh := (load_exam env (s.exam_index + 1) s.sh s.out).2.1,
                  out := (load_exam env (s.exam_index + 1) s.sh s.out).2.2,
                  parent := if (load_exam env (s.exam_index + 1) s.sh s.out).1 ≠ 0
                            then ParentPc.log none ParentPc.wait_children
                            else ParentPc.reset_exam_done }
  | ParentPc.reset_exam_done =>
    some { s with sh := { s.sh with exam_done := 0 }, parent := ParentPc.check_dirty }
  | ParentPc.check_dirty =>
    some { s with parent := if s.sh.rubric_dirty ≠ 0 then ParentPc.log none ParentPc.save_open
                            else ParentPc.sleep }
  | ParentPc.log none next => some { s with parent := ParentPc.log (some s.sh.log_counter) next }
  | ParentPc.log (some id) next =>
    some { s with sh := { s.sh with log_counter := id + 1 }, out := s.out ++ [⟨id, none⟩],
                  parent := next }
  | ParentPc.log_stderr none next =>
    some { s with parent := ParentPc.log_stderr (some s.sh.log_counter) next }
  | ParentPc.log_stderr (some id) next =>
    some { s with sh := { s.sh with log_counter := id + 1 }, parent := next }
  | ParentPc.save_open =>
    if writable then some { s with rubric_file := some [], parent := ParentPc.save_write 0 [] }
    else some { s with parent := ParentPc.log_stderr none ParentPc.clear_dirty }
  | ParentPc.save_write j text =>
    if h : j < NUM_QUESTIONS then
      some { s with parent := ParentPc.save_write (j + 1) (text ++ rubric_line s.sh.rubric ⟨j, h⟩) }
    else some { s with rubric_file := some text, parent := ParentPc.clear_dirty }
  | ParentPc.clear_dirty =>
    some { s with sh := { s.sh with rubric_dirty := 0 }, parent := ParentPc.sleep }
  | ParentPc.sleep => some { s with parent := ParentPc.loop_top }
  | ParentPc.wait_children =>
    if (List.range env.num_TAs).all (fun i => decide (s.ta i = TaPc.exited)) then
      some { s with parent := ParentPc.log none ParentPc.finished }
    else none
  | ParentPc.finished => none

/-- One step of the system under a scheduling decision; `none` when the
chosen process cannot move. -/
def step (env : Env) (s : Sys) : Label → Option Sys
  | Label.parent writable => parent_step env writable s
  | Label.ta i change => if i < env.num_TAs then ta_step i change s else none

/-- The run of a schedule; a decision that cannot be taken is skipped. -/
def exec (env : Env) (s : Sys) : List Label → Sys
  | [] => s
  | l :: ls => exec env ((step env s l).getD s) ls

/-- The state of `main` in variant A when the parent loop is entered (lines
306-351): the area zeroed, rubric and first exam loaded, the assistants
forked. -/
def init (env : Env) : Sys where
  sh := (load_exam env 1 (load_rubric env.rubric_file SharedArea.zeroed).2 []).2.1
  rubric_file := env.rubric_file
  out := (load_exam env 1 (load_rubric env.rubric_file SharedArea.zeroed).2 []).2.2
  exam_index := 1
  parent := ParentPc.loop_top
  ta := fun _ => TaPc.top

/-- The checks of `main` before the parent loop: `num_TAs >= 2`, and
`load_rubric` and the first `load_exam` return 0. -/
def startup_ok (env : Env) : Bool :=
  decide (2 ≤ env.num_TAs) &&
  decide ((load_rubric env.rubric_file SharedArea.zeroed).1 = 0) &&
  decide ((load_exam env 1 (load_rubric env.rubric_file SharedArea.zeroed).2 []).1 = 0)

end A

namespace B

/-- The function `log_parent` of variant B: under `mutex_log`, take the next
sequence number and `printf` the line.  The three `printf` calls put the
line into the `stdio` buffer `buf` that the calling process keeps for
standard output; nothing in the program flushes it, and when it is written
to the file descriptor is up to `stdio` (`stdio_line`, and the exit of the
process).  Returns the area and the buffer. -/
def log_parent (sh : SharedArea) (buf : List LogLine) : SharedArea × List LogLine :=
  ({ sh with log_counter := sh.log_counter + 1 }, buf ++ [⟨sh.log_counter, none⟩])

/-- The function `log_ta` of variant B, on the `stdio` buffer `buf` of the
calling assistant. -/
def log_ta (ta_id : Int) (sh : SharedArea) (buf : List LogLine) : SharedArea × List LogLine :=
  ({ sh with log_counter := sh.log_counter + 1 }, buf ++ [⟨sh.log_counter, some ta_id⟩])

/-- What `stdio` does at the end of a `printf` that ended a line, with the
buffer `buf` of the process and the lines `out` already written to the file
descriptor of standard output: a line-buffered stream writes the buffer, a
fully buffered one keeps it.  Returns the buffer and the lines written.  A
fully buffered stream also writes once its buffer is full (4096 bytes and
more in glibc); this is left out, so that with full buffering the model
follows the program only as long as each process prints less than that. -/
def stdio_line (line_buffered : Bool) (buf out : List LogLine) :
    List LogLine × List LogLine :=
  if line_buffered then ([], out ++ buf) else (buf, out)

/-- The function `load_exam` of variant B, as one atomic step, on the `stdio`
buffer `out` of the parent.  Returns the C return value, the area and the
buffer. -/
def load_exam (env : Env) (idx : Int) (sh : SharedArea) (out : List LogLine) :
    Int × SharedArea × List LogLine :=
  match env.exam_dir idx with
  | none => (-1, { sh with terminate := 1 }, out)
  | some f =>
    match fgets 256 f with
    | none => (-1, { sh with terminate := 1 }, out)
    | some (line, _) =>
      let sh1 := { sh with student_id := copy_student_id (line_buffer (env.line_garbage idx) line) }
      let (sh2, out2) := log_parent sh1 out
      let sh3 := { sh2 with question_state := fun _ => 0 }
      let sh4 := { sh3 with exam_done := 0 }
      if is_sentinel sh4.student_id then
        let (sh5, out5) := log_parent sh4 out2
        (0, { sh5 with terminate := 1 }, out5)
      else (0, sh4, out2)

/-! ### The processes of variant B

Every critical section bracketed by `sem_wait`/`sem_post` on one of the three
mutexes, every call of `log_ta`/`log_parent`, every unguarded read of
`terminate`, every call of `load_exam` and the exit of a process, which
writes its `stdio` buffer, is one atomic step.  Sleeps and purely local
statements take no step of their own.  Every `fork` is taken to succeed. -/

/-- The control points of `ta_process` in variant B; each names the
statement about to be executed. -/
inductive TaPc where
  /-- Line 206, `if (sh->terminate)` at the head of the outer loop. -/
  | top
  /-- Line 207. -/
  | log_exit_before
  /-- Line 211. -/
  | log_start
  /-- Lines 216-218, read of `rubric[q]`. -/
  | review_read (q : Fin NUM_QUESTIONS)
  /-- Line 220, followed by the sleep and the draw of `change`. -/
  | review_log (q : Fin NUM_QUESTIONS)
  /-- Lines 228-236. -/
  | review_edit (q : Fin NUM_QUESTIONS)
  /-- Line 238. -/
  | log_correct (q : Fin NUM_QUESTIONS)
  /-- Lines 242-244. -/
  | review_still (q : Fin NUM_QUESTIONS)
  /-- Line 246. -/
  | log_unchanged (q : Fin NUM_QUESTIONS)
  /-- Line 252. -/
  | after_rubric
  /-- Line 253. -/
  | log_exit_after
  /-- Line 259, head of the marking loop. -/
  | mark_top
  /-- Line 260. -/
  | log_exit_marking
  /-- Lines 264-285, the scan-and-claim critical section. -/
  | scan
  /-- Line 289. -/
  | log_all_done
  /-- Lines 301-303, with `q_to_mark = q`. -/
  | read_rubric (q : Fin NUM_QUESTIONS)
  /-- Line 305. -/
  | log_marking (q : Fin NUM_QUESTIONS)
  /-- Lines 313-315. -/
  | set_done (q : Fin NUM_QUESTIONS)
  /-- Line 317. -/
  | log_finished (q : Fin NUM_QUESTIONS)
  /-- Line 323. -/
  | log_waiting
  /-- Line 326, `sem_wait(&sh->exam_ready)`. -/
  | wait
  /-- Line 327. -/
  | woken
  /-- Line 328. -/
  | log_exit_woken
  /-- Line 417 of `main`, after the return of `ta_process`:
  `std::exit(EXIT_SUCCESS)`, which writes the `stdio` buffer. -/
  | exit
  /-- The process has exited. -/
  | exited
deriving DecidableEq, Repr

/-- The control points of the parent loop of `main` in variant B. -/
inductive ParentPc where
  /-- Line 425, `while (!sh->terminate)`. -/
  | loop_top
  /-- Lines 429-431. -/
  | read_exam_done
  /-- Line 433, with the value of `exam_done_copy`. -/
  | check_advance (exam_done_copy : Bool)
  /-- Lines 434-435. -/
  | load
  /-- Lines 441-443. -/
  | reset_exam_done
  /-- Lines 446-448, with the loop variable. -/
  | post_ready (i : Nat)
  /-- Lines 452-457. -/
  | check_dirty
  /-- Line 460. -/
  | log_detected
  /-- Lines 461-468. -/
  | save
  /-- Line 464. -/
  | log_save_failed
  /-- Line 471. -/
  | sleep
  /-- Lines 475-477, with the loop variable. -/
  | drain (i : Nat)
  /-- Line 479. -/
  | log_termination
  /-- Lines 483-485. -/
  | wait_children
  /-- Line 487. -/
  | log_all_done
  /-- Lines 489-499: the semaphores are destroyed, the area is detached and
  `main` returns, which writes the `stdio` buffer. -/
  | finished
  /-- The process has exited. -/
  | exited
deriving DecidableEq, Repr

/-- A state of the whole system of variant B. -/
structure Sys where
  sh : SharedArea
  /-- The value of the semaphore `exam_ready`. -/
  exam_ready : Nat
  /-- The rubric file on disk. -/
  rubric_file : Option (List Int)
  /-- Standard output is line buffered (a terminal), not fully buffered; the
  same in every process and throughout the run. -/
  stdout_tty : Bool
  /-- The `stdio` buffer of standard output in the parent: the lines printed
  and not yet written. -/
  stdio_parent : List LogLine
  /-- The `stdio` buffer of standard output in each assistant. -/
  stdio_ta : Nat → List LogLine
  /-- The lines written so far to the file descriptor of standard output,
  which all processes share: what a reader of the output sees. -/
  out : List LogLine
  exam_index : Int
  parent : ParentPc
  /-- The control point of each teaching assistant. -/
  ta : Nat → TaPc

/-- What the scheduler and the environment decide for one step: which process
runs, and the outcome of the one external event that step may meet (whether
`fopen(rubric_path, "w")` succeeds; the value of `rand() % 2`). -/
inductive Label where
  | parent (writable : Bool)
  | ta (i : Nat) (change : Bool)
deriving DecidableEq, Repr

/-- The control point after the body of the rubric loop for question `q`:
`q++` and the loop test. -/
def next_review (q : Fin NUM_QUESTIONS) : TaPc :=
  if h : q.val + 1 < NUM_QUESTIONS then TaPc.review_read ⟨q.val + 1, h⟩ else TaPc.after_rubric

/-- The control point after the scan-and-claim critical section (lines
287-298), from `q_to_mark` and `all_done`. -/
def after_scan : Option (Fin NUM_QUESTIONS) → Bool → TaPc
  | some q, _ => TaPc.read_rubric q
  | none, true => TaPc.log_all_done
  | none, false => TaPc.mark_top

/-- A call of `log_ta` by assistant `i`, continuing at `pc`. -/
def Sys.log_ta (s : Sys) (i : Nat) (pc : TaPc) : Sys :=
  { s with sh := (B.log_ta i s.sh (s.stdio_ta i)).1,
           stdio_ta := Function.update s.stdio_ta i
             (stdio_line s.stdout_tty (B.log_ta i s.sh (s.stdio_ta i)).2 s.out).1,
           out := (stdio_line s.stdout_tty (B.log_ta i s.sh (s.stdio_ta i)).2 s.out).2,
           ta := Function.update s.ta i pc }

/-- A move of assistant `i` to `pc` that leaves the shared area alone. -/
def Sys.goto (s : Sys) (i : Nat) (pc : TaPc) : Sys :=
  { s with ta := Function.update s.ta i pc }

/-- A call of `log_parent`, continuing at `pc`. -/
def Sys.log_parent (s : Sys) (pc : ParentPc) : Sys :=
  { s with sh := (B.log_parent s.sh s.stdio_parent).1,
           stdio_parent := (stdio_line s.stdout_tty (B.log_parent s.sh s.stdio_parent).2 s.out).1,
           out := (stdio_line s.stdout_tty (B.log_parent s.sh s.stdio_parent).2 s.out).2,
           parent := pc }

/-- One step of `ta_process(i, sh)`; `none` when the process is blocked or
has exited. -/
def ta_step (i : Nat) (change : Bool) (s : Sys) : Option Sys :=
  match s.ta i with
  | TaPc.top =>
    some (s.goto i (if s.sh.terminate ≠ 0 then TaPc.log_exit_before else TaPc.log_start))
  | TaPc.log_exit_before => some (s.log_ta i TaPc.exit)
  | TaPc.log_start => some (s.log_ta i (TaPc.review_read 0))
  | TaPc.review_read q => some (s.goto i (TaPc.review_log q))
  | TaPc.review_log q =>
    some (s.log_ta i (if change then TaPc.review_edit q else TaPc.review_still q))
  | TaPc.review_edit q =>
    some { s with sh := correct_rubric q s.sh, ta := Function.update s.ta i (TaPc.log_correct q) }
  | TaPc.log_correct q => some (s.log_ta i (next_review q))
  | TaPc.review_still q => some (s.goto i (TaPc.log_unchanged q))
  | TaPc.log_unchanged q => some (s.log_ta i (next_review q))
  | TaPc.after_rubric =>
    some (s.goto i (if s.sh.terminate ≠ 0 then TaPc.log_exit_after else TaPc.mark_top))
  | TaPc.log_exit_after => some (s.log_ta i TaPc.exit)
  | TaPc.mark_top =>
    some (s.goto i (if s.sh.terminate ≠ 0 then TaPc.log_exit_marking else TaPc.scan))
  | TaPc.log_exit_marking => some (s.log_ta i TaPc.exit)
  | TaPc.scan =>
    some { s with sh := (claim_section s.sh).2.2,
                  ta := Function.update s.ta i
                    (after_scan (claim_section s.sh).1 (claim_section s.sh).2.1) }
  | TaPc.log_all_done => some (s.log_ta i TaPc.log_waiting)
  | TaPc.read_rubric q => some (s.goto i (TaPc.log_marking q))
  | TaPc.log_marking q => some (s.log_ta i (TaPc.set_done q))
  | TaPc.set_done q =>
    some { s with sh := { s.sh with question_state := Function.update s.sh.question_state q 2 },
                  ta := Function.update s.ta i (TaPc.log_finished q) }
  | TaPc.log_finished _ => some (s.log_ta i TaPc.mark_top)
  | TaPc.log_waiting => some (s.log_ta i TaPc.wait)
  | TaPc.wait =>
    if 0 < s.exam_ready then
      some { s with exam_ready := s.exam_ready - 1, ta := Function.update s.ta i TaPc.woken }
    else none
  | TaPc.woken =>
    some (s.goto i (if s.sh.terminate ≠ 0 then TaPc.log_exit_woken else TaPc.top))
  | TaPc.log_exit_woken => some (s.log_ta i TaPc.exit)
  | TaPc.exit =>
    some { s with out := s.out ++ s.stdio_ta i, stdio_ta := Function.update s.stdio_ta i [],
                  ta := Function.update s.ta i TaPc.exited }
  | TaPc.exited => none

/-- One step of the parent loop of `main`; `none` when the parent is blocked
in `wait` or has finished. -/
def parent_step (env : Env) (writable : Bool) (s : Sys) : Option Sys :=
  match s.parent with
  | ParentPc.loop_top =>
    some { s with parent := if s.sh.terminate ≠ 0 then ParentPc.drain 0 else ParentPc.read_exam_done }
  | ParentPc.read_exam_done =>
    some { s with parent := ParentPc.check_advance (decide (s.sh.exam_done ≠ 0)) }
  | ParentPc.check_advance exam_done_copy =>
    some { s with parent :=
      if exam_done_copy = true ∧ s.sh.terminate = 0 then ParentPc.load else ParentPc.check_dirty }
  | ParentPc.load =>
    some { s with exam_index := s.exam_index + 1,
                  sh := (load_exam env (s.exam_index + 1) s.sh s.stdio_parent).2.1,
                  stdio_parent := (stdio_line s.stdout_tty
                    (load_exam env (s.exam_index + 1) s.sh s.stdio_parent).2.2 s.out).1,
                  out := (stdio_line s.stdout_tty
                    (load_exam env (s.exam_index + 1) s.sh s.stdio_parent).2.2 s.out).2,
                  parent := if (load_exam env (s.exam_index + 1) s.sh s.stdio_parent).1 ≠ 0
                            then ParentPc.drain 0 else ParentPc.reset_exam_done }
  | ParentPc.reset_exam_done =>
    some { s with sh := { s.sh with exam_done := 0 }, parent := ParentPc.post_ready 0 }
  | ParentPc.post_ready i =>
    if i < env.num_TAs then
      some { s with exam_ready := s.exam_ready + 1, parent := ParentPc.post_ready (i + 1) }
    else some { s with parent := ParentPc.check_dirty }
  | ParentPc.check_dirty =>
    some { s with parent := if s.sh.rubric_dirty ≠ 0 then ParentPc.log_detected else ParentPc.sleep }
  | ParentPc.log_detected => some (s.log_parent ParentPc.save)
  | ParentPc.save =>
    if (save_rubric writable s.rubric_file s.sh).1 ≠ 0 then
      some { s with rubric_file := (save_rubric writable s.rubric_file s.sh).2,
                    parent := ParentPc.log_save_failed }
    else
      some { s with rubric_file := (save_rubric writable s.rubric_file s.sh).2,
                    sh := { s.sh with rubric_dirty := 0 }, parent := ParentPc.sleep }
  | ParentPc.log_save_failed => some (s.log_parent ParentPc.sleep)
  | ParentPc.sleep => some { s with parent := ParentPc.loop_top }
  | ParentPc.drain i =>
    if i < env.num_TAs then
      some { s with exam_ready := s.exam_ready + 1, parent := ParentPc.drain (i + 1) }
    else some { s with parent := ParentPc.log_termination }
  | ParentPc.log_termination => some (s.log_parent ParentPc.wait_children)
  | ParentPc.wait_children =>
    if (List.range env.num_TAs).all (fun i => decide (s.ta i = TaPc.exited)) then
      some { s with parent := ParentPc.log_all_done }
    else none
  | ParentPc.log_all_done => some (s.log_parent ParentPc.finished)
  | ParentPc.finished =>
    some { s with out := s.out ++ s.stdio_parent, stdio_parent := [],
                  parent := ParentPc.exited }
  | ParentPc.exited => none

/-- One step of the system under a scheduling decision; `none` when the
chosen process cannot move. -/
def step (env : Env) (s : Sys) : Label → Option Sys
  | Label.parent writable => parent_step env writable s
  | Label.ta i change => if i < env.num_TAs then ta_step i change s else none

/-- The run of a schedule; a decision that cannot be taken is skipped. -/
def exec (env : Env) (s : Sys) : List Label → Sys
  | [] => s
  | l :: ls => exec env ((step env s l).getD s) ls

/-- The state of `main` in variant B when the parent loop is entered (lines
367-423): the area zeroed, rubric and first exam loaded, the assistants
forked.  The first exam is loaded, and its lines are printed, before the
`fork` calls, and `fork` gives each assistant a copy of the memory of the
parent: what the buffer of the parent then holds is in the buffer of each
assistant too. -/
def init (env : Env) : Sys where
  sh := (load_exam env 1 (load_rubric env.rubric_file SharedArea.zeroed).2 []).2.1
  exam_ready := 0
  rubric_file := env.rubric_file
  stdout_tty := env.stdout_tty
  stdio_parent := (stdio_line env.stdout_tty
    (load_exam env 1 (load_rubric env.rubric_file SharedArea.zeroed).2 []).2.2 []).1
  stdio_ta := fun _ => (stdio_line env.stdout_tty
    (load_exam env 1 (load_rubric env.rubric_file SharedArea.zeroed).2 []).2.2 []).1
  out := (stdio_line env.stdout_tty
    (load_exam env 1 (load_rubric env.rubric_file SharedArea.zeroed).2 []).2.2 []).2
  exam_index := 1
  parent := ParentPc.loop_top
  ta := fun _ => TaPc.top

/-- The checks of `main` before the parent loop: `num_TAs >= 2`, and
`load_rubric` and the first `load_exam` return 0. -/
def startup_ok (env : Env) : Bool :=
  decide (2 ≤ env.num_TAs) &&
  decide ((load_rubric env.rubric_file SharedArea.zeroed).1 = 0) &&
  decide ((load_exam env 1 (load_rubric env.rubric_file SharedArea.zeroed).2 []).1 = 0)

/-- Assistant `i` has claimed question `q` and not yet marked it done: it is
between the scan-and-claim critical section and the end of the one that
stores 2. -/
def holds (s : Sys) (i : Nat) (q : Fin NUM_QUESTIONS) : Prop :=
  s.ta i = TaPc.read_rubric q ∨ s.ta i = TaPc.log_marking q ∨ s.ta i = TaPc.set_done q

instance (s : Sys) (i : Nat) (q : Fin NUM_QUESTIONS) : Decidable (holds s i q) := by
  unfold holds; infer_instance

/-- The step taken from `s` under `l` is a scan-and-claim critical section in
which the assistant claims question `q`. -/
def is_claim (env : Env) (s : Sys) (l : Label) (q : Fin NUM_QUESTIONS) : Bool :=
  match l with
  | Label.parent _ => false
  | Label.ta i _ =>
    decide (i < env.num_TAs) && decide (s.ta i = TaPc.scan) &&
      decide ((claim_section s.sh).1 = some q)

/-- The step taken from `s` under `l` is a call of `load_exam`. -/
def is_load (s : Sys) (l : Label) : Bool :=
  match l with
  | Label.parent _ => decide (s.parent = ParentPc.load)
  | Label.ta _ _ => false

/-- The number of times question `q` is claimed in the run of a schedule from
`s`, up to the next call of `load_exam`. -/
def claims_before_load (env : Env) (q : Fin NUM_QUESTIONS) : Sys → List Label → Nat
  | _, [] => 0
  | s, l :: ls =>
    if is_load s l then 0
    else (if is_claim env s l q then 1 else 0) +
      claims_before_load env q ((step env s l).getD s) ls

end B

/-! ## Vocabulary of the specification -/

/-- The first line of a file: its characters up to and including the first
newline, or all of them when there is none. -/
def first_line : List Int → List Int
  | [] => []
  | c :: cs => if c = 10 then [c] else c :: first_line cs

/-- What is left of a file after its first line. -/
def rest_after_line : List Int → List Int
  | [] => []
  | c :: cs => if c = 10 then cs else rest_after_line cs

/-- The first `n` lines of a file, fewer when the file has fewer; a line
includes its newline.  A file has fewer than `n` lines when this list is
shorter than `n`. -/
def first_lines : Nat → List Int → List (List Int)
  | 0, _ => []
  | _ + 1, [] => []
  | n + 1, c :: cs => first_line (c :: cs) :: first_lines n (rest_after_line (c :: cs))

/-- The text of an integer: an optional sign and at least one digit. -/
def is_integer_text (num : List Int) : Prop :=
  ∃ sign ds, num = sign ++ ds ∧ (sign = [] ∨ sign = [43] ∨ sign = [45]) ∧ ds ≠ [] ∧
    ∀ x ∈ ds, isdigit x = true

/-- The exact value of a run of decimal digits. -/
def decimal_value (ds : List Int) : Int := ds.foldl (fun acc d => acc * 10 + (d - 48)) 0

/-- The question number that the text of an integer stands for in the
program, an `int`: the decimal value with its sign, replaced by the nearest
bound of the 64-bit range when it lies outside it, and then reduced modulo
2^32 into the range of `int`.  For a text of at most nine digits it is the
decimal value. -/
def int_value (num : List Int) : Int :=
  match num with
  | [] => 0
  | c :: ds =>
    if c = 45 then to_int (strtol_clamp (-decimal_value ds))
    else if c = 43 then to_int (strtol_clamp (decimal_value ds))
    else to_int (strtol_clamp (decimal_value (c :: ds)))

/-- The string starts, after optional white space, with the text of an
integer that no further digit follows, and `q` is the question number the
text stands for. -/
def starts_with_number (s : List Int) (q : Int) : Prop :=
  ∃ ws num rest, s = ws ++ num ++ rest ∧ (∀ x ∈ ws, isspace x = true) ∧
    is_integer_text num ∧ (∀ x ∈ rest.head?, isdigit x = false) ∧ q = int_value num

/-- The string starts with an integer (after optional white space, as `%d`
reads it), a comma optionally surrounded by white space, and a character. -/
def parses_as_rubric_line (s : List Int) : Prop :=
  ∃ ws1 num ws2 ws3 c rest, s = ws1 ++ num ++ ws2 ++ [44] ++ ws3 ++ c :: rest ∧
    (∀ x ∈ ws1, isspace x = true) ∧ is_integer_text num ∧
    (∀ x ∈ ws2, isspace x = true) ∧ (∀ x ∈ ws3, isspace x = true)

/-- What the first `n` calls of `fgets(line, 256, f)` store, fewer when end
of file comes first. -/
def chunks : Nat → List Int → List (List Int)
  | 0, _ => []
  | n + 1, f =>
    match fgets 256 f with
    | none => []
    | some (line, rest) => line :: chunks n rest

/-- The array `a` holds the string `s`: its characters, then a NUL. -/
def holds_string (a : Fin 5 → Int) (s : List Int) : Prop :=
  s.length ≤ 4 ∧ (∀ j : Fin 5, j.val < s.length → a j = s.getD j.val 0) ∧
    (∀ j : Fin 5, j.val = s.length → a j = 0)

/-- The sentinel student number `"9999"`. -/
def sentinel : List Int := [57, 57, 57, 57]

/-- The area `sh1` is `sh` with a freshly loaded exam whose record is `rec`:
every question not started, `exam_done` false, `student_id` holding the first
four characters of the first line, rubric and `rubric_dirty` untouched. -/
def exam_loaded (sh sh1 : SharedArea) (rec : List Int) : Prop :=
  (∀ q, sh1.question_state q = 0) ∧ sh1.exam_done = 0 ∧
    holds_string sh1.student_id ((first_line rec).take 4) ∧
    sh1.rubric = sh.rubric ∧ sh1.rubric_dirty = sh.rubric_dirty

/-- The areas `sh` and `sh1` differ at most in `terminate`. -/
def same_but_terminate (sh sh1 : SharedArea) : Prop :=
  sh1.student_id = sh.student_id ∧ sh1.question_state = sh.question_state ∧
    sh1.exam_done = sh.exam_done ∧ sh1.rubric = sh.rubric ∧
    sh1.rubric_dirty = sh.rubric_dirty ∧ sh1.log_counter = sh.log_counter

/-- While `rubric_dirty` is false the rubric file holds the text of the
rubric in memory. -/
def B.file_current (s : B.Sys) : Prop :=
  s.sh.rubric_dirty = 0 → s.rubric_file = some (rubric_text s.sh.rubric)

/-- The invariant behind the claim protocol of variant B: an assistant holds
only a question in progress, no two assistants hold the same question, and
once `exam_done` is raised, or the parent has seen it raised and is about to
load, every question is done. -/
def B.claim_inv (s : B.Sys) : Prop :=
  (∀ i q, B.holds s i q → s.sh.question_state q = 1) ∧
  (∀ i j q, B.holds s i q → B.holds s j q → i = j) ∧
  ((s.sh.exam_done ≠ 0 ∨ s.parent = B.ParentPc.check_advance true ∨ s.parent = B.ParentPc.load) →
    ∀ q, s.sh.question_state q = 2)

/-- The log is in order: the sequence numbers of the lines `out` are 0, 1,
... in the order of the list, and `log_counter` is the number of lines. -/
def log_ok (sh : SharedArea) (out : List LogLine) : Prop :=
  out.map LogLine.id = (List.range out.length).map (fun n => (n : Int)) ∧
    sh.log_counter = out.length

/-- Standard output is line buffered, every line printed has been written
to it (no `stdio` buffer holds a line) and the lines written are in order. -/
def B.log_inv (s : B.Sys) : Prop :=
  s.stdout_tty = true ∧ s.stdio_parent = [] ∧ (∀ i, s.stdio_ta i = []) ∧ log_ok s.sh s.out

/-- The state `s` after assistant `i` of variant A, running alone, has come to
`pc` with the area `sh` and the output `out`. -/
def A.Sys.moved (s : A.Sys) (i : Nat) (pc : A.TaPc) (sh : SharedArea) (out : List LogLine) :
    A.Sys :=
  { s with sh := sh, out := out, ta := Function.update s.ta i pc }

/-- The letter on the last of the lines numbered `n`, for a list of the
number and letter read from each line; `none` when no line is numbered `n`. -/
def last_letter (n : Int) : List (Int × Int) → Option Int
  | [] => none
  | (q, c) :: rest =>
    match last_letter n rest with
    | some x => some x
    | none => if q = n then some c else none

/-- The string reads as question number `q` and letter `c`: it starts with
the text of an integer that stands for `q`, a comma optionally surrounded by
white space, and then the character `c`, where `c` is the first character
after the comma that is not white space or, when the comma comes right after
the integer and only white space follows it, the character right after the
comma. -/
def line_reads (s : List Int) (q c : Int) : Prop :=
  ∃ ws1 num ws2 ws3 rest, s = ws1 ++ num ++ ws2 ++ [44] ++ ws3 ++ c :: rest ∧
    (∀ x ∈ ws1, isspace x = true) ∧ is_integer_text num ∧ q = int_value num ∧
    (∀ x ∈ ws2, isspace x = true) ∧ (∀ x ∈ ws3, isspace x = true) ∧
    (isspace c = false ∨
      (ws2 = [] ∧ ws3 = [] ∧ isspace c = true ∧ ∀ x ∈ rest, isspace x = true))

/-- The list `parsed` gives, line by line, a question number in 1..5 and a
letter that the line reads as, a line being taken up to its first NUL
character when it has one. -/
def lines_read (lines : List (List Int)) (parsed : List (Int × Int)) : Prop :=
  List.Forall₂ (fun l p => line_reads (c_str l) p.1 p.2 ∧ 1 ≤ p.1 ∧ p.1 ≤ 5) lines parsed

/-! ## Concrete inputs -/

/-- A rubric file in the format `save_rubric` writes. -/
def rubric_abcde : List Int := cstr "1, A\n2, B\n3, C\n4, D\n5, E\n"

/-- Two assistants, exam 1 of student 0001, exam 2 of the sentinel student,
exam 3 an empty file, no further exam. -/
def env_two : Env where
  num_TAs := 2
  rubric_file := some rubric_abcde
  exam_dir := fun i =>
    if i = 1 then some (cstr "0001\nQ1 answer\n")
    else if i = 2 then some (cstr "9999\n")
    else if i = 3 then some []
    else none
  line_garbage := fun _ _ => 0
  stdout_tty := true

/-- A file of a single line of 1275 characters and no newline: five times
`1,A` followed by 252 spaces. -/
def rubric_one_long_line : List Int :=
  (List.replicate 5 (cstr "1,A" ++ List.replicate 252 32)).flatten

/-- A rubric file of four lines. -/
def rubric_four_lines : List Int := cstr "1, A\n2, B\n3, C\n4, D\n"

/-- A rubric file of five lines whose third line has letter and number
exchanged. -/
def rubric_swapped_line : List Int := cstr "1, A\n2, B\nC, 3\n4, D\n5, E\n"

/-- A rubric file of five lines whose last line numbers a sixth question. -/
def rubric_sixth_question : List Int := cstr "1, A\n2, B\n3, C\n4, D\n6, E\n"

/-- An area whose rubric is `A`, `B`, `C`, `D`, `Z`. -/
def area_abcdz : SharedArea :=
  { SharedArea.zeroed with rubric := fun i => if i.val = 4 then 90 else 65 + i.val }

/-- Two assistants and a single exam, that of the sentinel student. -/
def env_last : Env where
  num_TAs := 2
  rubric_file := some rubric_abcde
  exam_dir := fun i => if i = 1 then some (cstr "9999\n") else none
  line_garbage := fun _ _ => 0
  stdout_tty := true

/-- The setting `env_last` with standard output sent to a pipe or a file. -/
def env_piped : Env := { env_last with stdout_tty := false }

/-- A whole run of variant B on a single exam, that of the sentinel student:
each of the two assistants finds `terminate` raised, logs that it exits and
exits (three steps each), then the parent leaves its loop, wakes the
assistants, logs, waits for them, logs and returns (eight steps). -/
def sched_shutdown : List B.Label :=
  List.replicate 3 (B.Label.ta 0 false) ++ List.replicate 3 (B.Label.ta 1 false) ++
    List.replicate 8 (B.Label.parent true)

/-- Assistant 0 of variant A alone, from the head of its loop through the
correction of rubric entry 1: ten steps, `change` drawn as 1. -/
def sched_edit : List A.Label := List.replicate 10 (A.Label.ta 0 true)

/-- The parent of variant A alone, from the head of its loop through one
iteration in which `fopen(rubric_path, "w")` fails: nine steps. -/
def sched_failed_save : List A.Label := List.replicate 9 (A.Label.parent false)

/-- Assistant 0 of variant B alone, from the head of its loop through a
rubric review without correction to the claim of question 1: 25 steps. -/
def sched_claim : List B.Label := List.replicate 25 (B.Label.ta 0 false)

/-- Assistant 0 of variant B corrects rubric entry 1 (five steps), then the
parent runs one loop iteration in which the save succeeds (six steps). -/
def sched_edit_save : List B.Label :=
  List.replicate 5 (B.Label.ta 0 true) ++ List.replicate 6 (B.Label.parent true)

/-- The setting `env_two` with three assistants. -/
def env_three : Env := { env_two with num_TAs := 3 }

/-- The parent and two assistants of variant B in turn, eight rounds. -/
def sched_log : List B.Label :=
  (List.replicate 8 [B.Label.ta 0 false, B.Label.ta 1 true, B.Label.parent true]).flatten

/-- Assistant `i` of variant A alone, from the head of its loop through a
rubric review without correction to the first read of the search loop: 35
steps. -/
def sched_to_scan (i : Nat) : List A.Label := List.replicate 35 (A.Label.ta i false)

/-- Assistants 0 and 1 of variant A, one after the other, each up to the
first read of the search loop. -/
def sched_both_at_scan : List A.Label := sched_to_scan 0 ++ sched_to_scan 1

/-- The state of variant A with three assistants after `sched_both_at_scan`
and then `more`; the parent takes no step, so no exam is loaded on the way. -/
def race_state (more : List A.Label) : A.Sys :=
  A.exec env_three (A.init env_three) (sched_both_at_scan ++ more)

/-- Assistant 1 of variant A marks questions 1 to 4 and claims question 5 (84
steps), then assistant 0 comes to the head of its marking loop (34 steps). -/
def sched_hold_last : List A.Label :=
  List.replicate 84 (A.Label.ta 1 false) ++ List.replicate 34 (A.Label.ta 0 false)

/-- Assistant 1 of variant A claims question 1 (38 steps), then assistant 0
comes to the head of its marking loop (34 steps). -/
def sched_hold_first : List A.Label :=
  List.replicate 38 (A.Label.ta 1 false) ++ List.replicate 34 (A.Label.ta 0 false)

/-- The state of variant A with two assistants after `sched` and then
`more`. -/
def hold_state (sched more : List A.Label) : A.Sys :=
  A.exec env_two (A.init env_two) (sched ++ more)

/-- An area whose question states are done, in progress, not started, not
started, done. -/
def area_mixed : SharedArea :=
  { SharedArea.zeroed with
    question_state := fun i => if i.val = 0 ∨ i.val = 4 then 2 else if i.val = 1 then 1 else 0 }

/-- A rubric file of five lines whose first line has only a space after the
comma. -/
def rubric_blank_letter : List Int := cstr "1, \n2, B\n3, C\n4, D\n5, E\n"

/-- A rubric file of five lines whose first line starts with an integer
that does not fit an `int`: 4294967297 is 2^32 + 1. -/
def rubric_wide_number : List Int := cstr "4294967297, A\n2, B\n3, C\n4, D\n5, E\n"

/-- A rubric file of four lines whose first line is 260 characters long:
`1,A`, 252 spaces and `2,B`, then a newline. -/
def rubric_long_first_line : List Int :=
  cstr "1,A" ++ List.replicate 252 32 ++ cstr "2,B\n3,C\n4,D\n5,E\n"

/-- A rubric file of five lines whose first line holds a NUL character: `1`,
a comma, a space, NUL, `A` and a newline. -/
def rubric_nul_line : List Int := [49, 44, 32, 0, 65, 10] ++ cstr "2, B\n3, C\n4, D\n5, E\n"

/-- A rubric file of five lines in which question 1 is numbered twice and
question 3 not at all. -/
def rubric_twice_first : List Int := cstr "1, A\n2, B\n1, C\n4, D\n5, E\n"

/-! ## Loading an exam -/

theorem fgets_aux_fst (n : Nat) (f : List Int) :
    (fgets_aux n f).1 = (first_line f).take n := by
  induction n generalizing f with
  | zero => simp [fgets_aux]
  | succ n ih =>
    cases f with
    | nil => simp [fgets_aux, first_line]
    | cons c cs =>
      by_cases hc : c = 10
      · simp [fgets_aux, first_line, hc]
      · simp [fgets_aux, first_line, hc, ih]

theorem first_line_ne_nil {f : List Int} (h : f ≠ []) : first_line f ≠ [] := by
  cases f with
  | nil => exact absurd rfl h
  | cons c cs =>
    by_cases hc : c = 10 <;> simp [first_line, hc]

theorem fgets_some {f : List Int} (h : f ≠ []) :
    fgets 256 f = some ((first_line f).take 255, (fgets_aux 255 f).2) := by
  cases f with
  | nil => exact absurd rfl h
  | cons c cs =>
    simp only [fgets]
    rw [← fgets_aux_fst]

theorem take_four_take (l : List Int) : (l.take 255).take 4 = l.take 4 := by
  rw [List.take_take]; simp

/-- The first four characters of the file are those of its first line unless
a newline comes among them. -/
theorem take_first_line_sentinel (f : List Int) :
    (first_line f).take 4 = sentinel ↔ f.take 4 = sentinel := by
  unfold sentinel
  rcases f with _ | ⟨a, _ | ⟨b, _ | ⟨c, _ | ⟨d, r⟩⟩⟩⟩ <;> simp [first_line] <;>
    (try split) <;> (try split) <;> (try split) <;> (try split) <;> simp_all

theorem copy_student_id_holds (g : Nat → Int) (line : List Int) :
    holds_string (copy_student_id (line_buffer g line)) (line.take 4) := by
  unfold holds_string
  rcases line with _ | ⟨a, _ | ⟨b, _ | ⟨c, _ | ⟨d, r⟩⟩⟩⟩
  all_goals
    refine ⟨by simp, ?_, ?_⟩
    all_goals
      intro j hj
      fin_cases j <;> simp [copy_student_id, line_buffer] at hj ⊢

/-- The sentinel test succeeds exactly when the four characters copied are
all `'9'`. -/
theorem is_sentinel_iff (a : Fin 5 → Int) :
    is_sentinel a = true ↔ ∀ j : Fin 5, j.val < 4 → a j = 57 := by
  constructor
  · intro h j hj
    simp [is_sentinel, List.ofFn, strncmp_eq] at h
    fin_cases j <;> simp at hj ⊢ <;> omega
  · intro h
    have h0 := h ⟨0, by decide⟩ (by decide)
    have h1 := h ⟨1, by decide⟩ (by decide)
    have h2 := h ⟨2, by decide⟩ (by decide)
    have h3 := h ⟨3, by decide⟩ (by decide)
    simp at h0 h1 h2 h3
    simp [is_sentinel, List.ofFn, strncmp_eq, h0, h1, h2, h3]

theorem copy_student_id_sentinel (g : Nat → Int) (line : List Int) :
    is_sentinel (copy_student_id (line_buffer g line)) = true ↔ line.take 4 = sentinel := by
  rw [is_sentinel_iff]
  unfold sentinel
  rcases line with _ | ⟨a, _ | ⟨b, _ | ⟨c, _ | ⟨d, r⟩⟩⟩⟩
  all_goals
    constructor
    · intro h
      have h0 := h ⟨0, by decide⟩ (by decide)
      have h1 := h ⟨1, by decide⟩ (by decide)
      have h2 := h ⟨2, by decide⟩ (by decide)
      have h3 := h ⟨3, by decide⟩ (by decide)
      simp [copy_student_id, line_buffer] at h0 h1 h2 h3 ⊢
      try simp_all
    · intro h j hj
      simp at h
      try (fin_cases j <;> simp [copy_student_id, line_buffer] at hj ⊢ <;> simp_all)

theorem load_exam_found_A (env : Env) (idx : Int) (sh : SharedArea) (out : List LogLine)
    (rec : List Int) (hrec : env.exam_dir idx = some rec) (hne : rec ≠ []) :
    (A.load_exam env idx sh out).1 = 0 ∧
    exam_loaded sh (A.load_exam env idx sh out).2.1 rec ∧
    ((A.load_exam env idx sh out).2.1.terminate =
      if rec.take 4 = sentinel then 1 else sh.terminate) ∧
    (is_sentinel (A.load_exam env idx sh out).2.1.student_id = true ↔ rec.take 4 = sentinel) := by
  have hs := copy_student_id_sentinel (env.line_garbage idx) ((first_line rec).take 255)
  have hh := copy_student_id_holds (env.line_garbage idx) ((first_line rec).take 255)
  rw [take_four_take] at hs hh
  rw [take_first_line_sentinel] at hs
  by_cases h9 : rec.take 4 = sentinel
  · have h9b := hs.2 h9
    simp [A.load_exam, hrec, fgets_some hne, A.log_parent, exam_loaded, h9, h9b, hh]
  · have h9b : ¬ is_sentinel (copy_student_id (line_buffer (env.line_garbage idx)
        ((first_line rec).take 255))) = true := fun h => h9 (hs.1 h)
    simp [A.load_exam, hrec, fgets_some hne, A.log_parent, exam_loaded, h9, h9b, hh]

theorem load_exam_found_B (env : Env) (idx : Int) (sh : SharedArea) (out : List LogLine)
    (rec : List Int) (hrec : env.exam_dir idx = some rec) (hne : rec ≠ []) :
    (B.load_exam env idx sh out).1 = 0 ∧
    exam_loaded sh (B.load_exam env idx sh out).2.1 rec ∧
    ((B.load_exam env idx sh out).2.1.terminate =
      if rec.take 4 = sentinel then 1 else sh.terminate) ∧
    (is_sentinel (B.load_exam env idx sh out).2.1.student_id = true ↔ rec.take 4 = sentinel) := by
  have hs := copy_student_id_sentinel (env.line_garbage idx) ((first_line rec).take 255)
  have hh := copy_student_id_holds (env.line_garbage idx) ((first_line rec).take 255)
  rw [take_four_take] at hs hh
  rw [take_first_line_sentinel] at hs
  by_cases h9 : rec.take 4 = sentinel
  · have h9b := hs.2 h9
    simp [B.load_exam, hrec, fgets_some hne, B.log_parent, exam_loaded, h9, h9b, hh]
  · have h9b : ¬ is_sentinel (copy_student_id (line_buffer (env.line_garbage idx)
        ((first_line rec).take 255))) = true := fun h => h9 (hs.1 h)
    simp [B.load_exam, hrec, fgets_some hne, B.log_parent, exam_loaded, h9, h9b, hh]

theorem load_exam_missing_A (env : Env) (idx : Int) (sh : SharedArea) (out : List LogLine)
    (h : env.exam_dir idx = none ∨ env.exam_dir idx = some []) :
    A.load_exam env idx sh out = (-1, { sh with terminate := 1 }, out) := by
  rcases h with h | h <;> simp [A.load_exam, h, fgets]

theorem load_exam_missing_B (env : Env) (idx : Int) (sh : SharedArea) (out : List LogLine)
    (h : env.exam_dir idx = none ∨ env.exam_dir idx = some []) :
    B.load_exam env idx sh out = (-1, { sh with terminate := 1 }, out) := by
  rcases h with h | h <;> simp [B.load_exam, h, fgets]

/-- C3. For every shared area and every exam record that is not empty,
`load_exam` (either variant) returns 0 and leaves every `question_state` slot
0, `exam_done` 0, `student_id` holding the first four characters of the
record's first line followed by NUL, and `rubric` and `rubric_dirty` as they
were. -/
theorem load_exam_resets (env : Env) (idx : Int) (sh : SharedArea) (out : List LogLine)
    (rec : List Int) (hrec : env.exam_dir idx = some rec) (hne : rec ≠ []) :
    ((A.load_exam env idx sh out).1 = 0 ∧ exam_loaded sh (A.load_exam env idx sh out).2.1 rec) ∧
    ((B.load_exam env idx sh out).1 = 0 ∧ exam_loaded sh (B.load_exam env idx sh out).2.1 rec) :=
  ⟨⟨(load_exam_found_A env idx sh out rec hrec hne).1,
    (load_exam_found_A env idx sh out rec hrec hne).2.1⟩,
   ⟨(load_exam_found_B env idx sh out rec hrec hne).1,
    (load_exam_found_B env idx sh out rec hrec hne).2.1⟩⟩

theorem load_exam_resets_witness :
    env_two.exam_dir 1 = some (cstr "0001\nQ1 answer\n") ∧ cstr "0001\nQ1 answer\n" ≠ [] ∧
    ((A.load_exam env_two 1 SharedArea.zeroed []).1 = 0 ∧
      exam_loaded SharedArea.zeroed (A.load_exam env_two 1 SharedArea.zeroed []).2.1
        (cstr "0001\nQ1 answer\n")) ∧
    ((B.load_exam env_two 1 SharedArea.zeroed []).1 = 0 ∧
      exam_loaded SharedArea.zeroed (B.load_exam env_two 1 SharedArea.zeroed []).2.1
        (cstr "0001\nQ1 answer\n")) :=
  ⟨by decide, by decide,
    load_exam_resets env_two 1 SharedArea.zeroed [] (cstr "0001\nQ1 answer\n")
      (by decide) (by decide)⟩

/-- C4. After a successful `load_exam` (either variant) `terminate` is true
exactly when it was true before or the student number loaded, the first four
characters of the record, is `"9999"`; and when it is `"9999"` the call still
returns 0 with the exam loaded: every question slot 0 and `exam_done` 0. -/
theorem load_exam_sentinel (env : Env) (idx : Int) (sh : SharedArea) (out : List LogLine)
    (rec : List Int) (hrec : env.exam_dir idx = some rec) (hne : rec ≠ []) :
    (((A.load_exam env idx sh out).2.1.terminate ≠ 0 ↔
        (sh.terminate ≠ 0 ∨ rec.take 4 = sentinel)) ∧
      (is_sentinel (A.load_exam env idx sh out).2.1.student_id = true ↔ rec.take 4 = sentinel) ∧
      (rec.take 4 = sentinel → (A.load_exam env idx sh out).1 = 0 ∧
        exam_loaded sh (A.load_exam env idx sh out).2.1 rec)) ∧
    (((B.load_exam env idx sh out).2.1.terminate ≠ 0 ↔
        (sh.terminate ≠ 0 ∨ rec.take 4 = sentinel)) ∧
      (is_sentinel (B.load_exam env idx sh out).2.1.student_id = true ↔ rec.take 4 = sentinel) ∧
      (rec.take 4 = sentinel → (B.load_exam env idx sh out).1 = 0 ∧
        exam_loaded sh (B.load_exam env idx sh out).2.1 rec)) := by
  obtain ⟨a1, a2, a3, a4⟩ := load_exam_found_A env idx sh out rec hrec hne
  obtain ⟨b1, b2, b3, b4⟩ := load_exam_found_B env idx sh out rec hrec hne
  refine ⟨⟨?_, a4, fun _ => ⟨a1, a2⟩⟩, ⟨?_, b4, fun _ => ⟨b1, b2⟩⟩⟩
  · rw [a3]; by_cases h9 : rec.take 4 = sentinel <;> simp [h9]
  · rw [b3]; by_cases h9 : rec.take 4 = sentinel <;> simp [h9]

theorem load_exam_sentinel_witness :
    env_two.exam_dir 2 = some (cstr "9999\n") ∧ cstr "9999\n" ≠ [] ∧
    (((A.load_exam env_two 2 SharedArea.zeroed []).2.1.terminate ≠ 0 ↔
        (SharedArea.zeroed.terminate ≠ 0 ∨ (cstr "9999\n").take 4 = sentinel)) ∧
      (is_sentinel (A.load_exam env_two 2 SharedArea.zeroed []).2.1.student_id = true ↔
        (cstr "9999\n").take 4 = sentinel) ∧
      ((cstr "9999\n").take 4 = sentinel → (A.load_exam env_two 2 SharedArea.zeroed []).1 = 0 ∧
        exam_loaded SharedArea.zeroed (A.load_exam env_two 2 SharedArea.zeroed []).2.1
          (cstr "9999\n"))) ∧
    (((B.load_exam env_two 2 SharedArea.zeroed []).2.1.terminate ≠ 0 ↔
        (SharedArea.zeroed.terminate ≠ 0 ∨ (cstr "9999\n").take 4 = sentinel)) ∧
      (is_sentinel (B.load_exam env_two 2 SharedArea.zeroed []).2.1.student_id = true ↔
        (cstr "9999\n").take 4 = sentinel) ∧
      ((cstr "9999\n").take 4 = sentinel → (B.load_exam env_two 2 SharedArea.zeroed []).1 = 0 ∧
        exam_loaded SharedArea.zeroed (B.load_exam env_two 2 SharedArea.zeroed []).2.1
          (cstr "9999\n"))) :=
  ⟨by decide, by decide,
    load_exam_sentinel env_two 2 SharedArea.zeroed [] (cstr "9999\n") (by decide) (by decide)⟩

/-- C5. When the exam file with the requested index does not exist, or
exists and is empty, `load_exam` (either variant) returns -1, sets `terminate`
to 1 and leaves `student_id`, every `question_state` slot, `exam_done`,
`rubric`, `rubric_dirty` and `log_counter` as they were. -/
theorem load_exam_not_found (env : Env) (idx : Int) (sh : SharedArea) (out : List LogLine)
    (h : env.exam_dir idx = none ∨ env.exam_dir idx = some []) :
    ((A.load_exam env idx sh out).1 = -1 ∧ (A.load_exam env idx sh out).2.1.terminate = 1 ∧
      same_but_terminate sh (A.load_exam env idx sh out).2.1) ∧
    ((B.load_exam env idx sh out).1 = -1 ∧ (B.load_exam env idx sh out).2.1.terminate = 1 ∧
      same_but_terminate sh (B.load_exam env idx sh out).2.1) := by
  rw [load_exam_missing_A env idx sh out h, load_exam_missing_B env idx sh out h]
  simp [same_but_terminate]

theorem load_exam_not_found_witness :
    (env_two.exam_dir 4 = none ∨ env_two.exam_dir 4 = some []) ∧
    ((A.load_exam env_two 4 SharedArea.zeroed []).1 = -1 ∧
      (A.load_exam env_two 4 SharedArea.zeroed []).2.1.terminate = 1 ∧
      same_but_terminate SharedArea.zeroed (A.load_exam env_two 4 SharedArea.zeroed []).2.1) ∧
    ((B.load_exam env_two 4 SharedArea.zeroed []).1 = -1 ∧
      (B.load_exam env_two 4 SharedArea.zeroed []).2.1.terminate = 1 ∧
      same_but_terminate SharedArea.zeroed (B.load_exam env_two 4 SharedArea.zeroed []).2.1) :=
  ⟨Or.inl (by decide), load_exam_not_found env_two 4 SharedArea.zeroed [] (Or.inl (by decide))⟩

/-! ## The latch `terminate` -/

theorem load_exam_terminate_A (env : Env) (idx : Int) (sh : SharedArea) (out : List LogLine) :
    (A.load_exam env idx sh out).2.1.terminate = 1 ∨
      (A.load_exam env idx sh out).2.1.terminate = sh.terminate := by
  cases hrec : env.exam_dir idx with
  | none => simp [load_exam_missing_A env idx sh out (Or.inl hrec)]
  | some rec =>
    by_cases hne : rec = []
    · subst hne; simp [load_exam_missing_A env idx sh out (Or.inr hrec)]
    · rw [(load_exam_found_A env idx sh out rec hrec hne).2.2.1]
      by_cases h9 : rec.take 4 = sentinel <;> simp [h9]

theorem load_exam_terminate_B (env : Env) (idx : Int) (sh : SharedArea) (out : List LogLine) :
    (B.load_exam env idx sh out).2.1.terminate = 1 ∨
      (B.load_exam env idx sh out).2.1.terminate = sh.terminate := by
  cases hrec : env.exam_dir idx with
  | none => simp [load_exam_missing_B env idx sh out (Or.inl hrec)]
  | some rec =>
    by_cases hne : rec = []
    · subst hne; simp [load_exam_missing_B env idx sh out (Or.inr hrec)]
    · rw [(load_exam_found_B env idx sh out rec hrec hne).2.2.1]
      by_cases h9 : rec.take 4 = sentinel <;> simp [h9]

theorem claim_section_frame (sh : SharedArea) :
    (claim_section sh).2.2.terminate = sh.terminate ∧
    (claim_section sh).2.2.rubric = sh.rubric ∧
    (claim_section sh).2.2.rubric_dirty = sh.rubric_dirty ∧
    (claim_section sh).2.2.log_counter = sh.log_counter ∧
    (claim_section sh).2.2.student_id = sh.student_id := by
  simp [claim_section]

theorem ta_step_terminate_B (i : Nat) (c : Bool) (s s1 : B.Sys)
    (h : B.ta_step i c s = some s1) : s1.sh.terminate = s.sh.terminate := by
  unfold B.ta_step at h
  split at h
  all_goals (try split at h)
  all_goals (try simp at h)
  all_goals
    subst h
    simp [B.Sys.log_ta, B.log_ta, B.Sys.goto, correct_rubric, claim_section_frame]

theorem parent_step_terminate_B (env : Env) (w : Bool) (s s1 : B.Sys)
    (h : B.parent_step env w s = some s1) (ht : s.sh.terminate ≠ 0) :
    s1.sh.terminate ≠ 0 := by
  have hl := load_exam_terminate_B env (s.exam_index + 1) s.sh s.stdio_parent
  unfold B.parent_step at h
  split at h
  all_goals (try split at h)
  all_goals (try simp at h)
  all_goals
    subst h
    simp [B.Sys.log_parent, B.log_parent, ht]
  all_goals
    rcases hl with hl | hl <;> simp [hl, ht]

theorem step_terminate_B (env : Env) (s s1 : B.Sys) (l : B.Label)
    (h : B.step env s l = some s1) (ht : s.sh.terminate ≠ 0) : s1.sh.terminate ≠ 0 := by
  cases l with
  | parent w => exact parent_step_terminate_B env w s s1 h ht
  | ta i c =>
    simp only [B.step] at h
    split at h
    · rw [ta_step_terminate_B i c s s1 h]; exact ht
    · simp at h

theorem ta_step_terminate_A (i : Nat) (c : Bool) (s s1 : A.Sys)
    (h : A.ta_step i c s = some s1) : s1.sh.terminate = s.sh.terminate := by
  unfold A.ta_step at h
  split at h
  all_goals (try split at h)
  all_goals (try simp at h)
  all_goals
    subst h
    simp [A.Sys.goto]

theorem parent_step_terminate_A (env : Env) (w : Bool) (s s1 : A.Sys)
    (h : A.parent_step env w s = some s1) (ht : s.sh.terminate ≠ 0) :
    s1.sh.terminate ≠ 0 := by
  have hl := load_exam_terminate_A env (s.exam_index + 1) s.sh s.out
  unfold A.parent_step at h
  split at h
  all_goals (try split at h)
  all_goals (try simp at h)
  all_goals
    subst h
    simp [ht]
  all_goals
    rcases hl with hl | hl <;> simp [hl, ht]

theorem step_terminate_A (env : Env) (s s1 : A.Sys) (l : A.Label)
    (h : A.step env s l = some s1) (ht : s.sh.terminate ≠ 0) : s1.sh.terminate ≠ 0 := by
  cases l with
  | parent w => exact parent_step_terminate_A env w s s1 h ht
  | ta i c =>
    simp only [A.step] at h
    split at h
    · rw [ta_step_terminate_A i c s s1 h]; exact ht
    · simp at h

theorem exec_terminate_A (env : Env) (ls : List A.Label) (s : A.Sys)
    (ht : s.sh.terminate ≠ 0) : (A.exec env s ls).sh.terminate ≠ 0 := by
  induction ls generalizing s with
  | nil => exact ht
  | cons l ls ih =>
    simp only [A.exec]
    apply ih
    cases hs : A.step env s l with
    | none => simpa using ht
    | some s1 => simpa using step_terminate_A env s s1 l hs ht

theorem exec_terminate_B (env : Env) (ls : List B.Label) (s : B.Sys)
    (ht : s.sh.terminate ≠ 0) : (B.exec env s ls).sh.terminate ≠ 0 := by
  induction ls generalizing s with
  | nil => exact ht
  | cons l ls ih =>
    simp only [B.exec]
    apply ih
    cases hs : B.step env s l with
    | none => simpa using ht
    | some s1 => simpa using step_terminate_B env s s1 l hs ht

/-- C2. The flag `terminate` is a latch in both variants: from a state in
which it is true, no step of the parent or of an assistant, no call of
`load_exam` and no run of any schedule leads to a state in which it is
false. -/
theorem terminate_latch (env : Env) (a : A.Sys) (b : B.Sys)
    (ha : a.sh.terminate ≠ 0) (hb : b.sh.terminate ≠ 0) :
    (∀ l a1, A.step env a l = some a1 → a1.sh.terminate ≠ 0) ∧
    (∀ l b1, B.step env b l = some b1 → b1.sh.terminate ≠ 0) ∧
    (∀ idx out, (A.load_exam env idx a.sh out).2.1.terminate ≠ 0) ∧
    (∀ idx out, (B.load_exam env idx b.sh out).2.1.terminate ≠ 0) ∧
    (∀ ls, (A.exec env a ls).sh.terminate ≠ 0) ∧
    (∀ ls, (B.exec env b ls).sh.terminate ≠ 0) := by
  refine ⟨fun l a1 h => step_terminate_A env a a1 l h ha,
    fun l b1 h => step_terminate_B env b b1 l h hb, ?_, ?_,
    fun ls => exec_terminate_A env ls a ha, fun ls => exec_terminate_B env ls b hb⟩
  · intro idx out
    rcases load_exam_terminate_A env idx a.sh out with h | h <;> simp [h, ha]
  · intro idx out
    rcases load_exam_terminate_B env idx b.sh out with h | h <;> simp [h, hb]

theorem terminate_latch_witness :
    (A.init env_last).sh.terminate ≠ 0 ∧ (B.init env_last).sh.terminate ≠ 0 ∧
    ((∀ l a1, A.step env_last (A.init env_last) l = some a1 → a1.sh.terminate ≠ 0) ∧
    (∀ l b1, B.step env_last (B.init env_last) l = some b1 → b1.sh.terminate ≠ 0) ∧
    (∀ idx out, (A.load_exam env_last idx (A.init env_last).sh out).2.1.terminate ≠ 0) ∧
    (∀ idx out, (B.load_exam env_last idx (B.init env_last).sh out).2.1.terminate ≠ 0) ∧
    (∀ ls, (A.exec env_last (A.init env_last) ls).sh.terminate ≠ 0) ∧
    (∀ ls, (B.exec env_last (B.init env_last) ls).sh.terminate ≠ 0)) :=
  ⟨by decide, by decide,
    terminate_latch env_last (A.init env_last) (B.init env_last) (by decide) (by decide)⟩

/-! ## The rubric correction -/

theorem next_letter_upper (old : Int) (h : 65 ≤ old ∧ old ≤ 90) :
    next_letter old = (if old = 90 then 65 else old + 1) := by
  unfold next_letter to_char
  split <;> split <;> omega

/-- C8. For a rubric entry that is an upper-case letter, the correction of an
assistant writes the next letter of the alphabet, `'Z'` giving `'A'`, so the
character written is again an upper-case letter.  This is the value stored by
the critical section of variant B and by the write of variant A. -/
theorem rubric_correction_wraps (old : Int) (h : 65 ≤ old ∧ old ≤ 90) :
    (old < 90 → next_letter old = old + 1) ∧ (old = 90 → next_letter old = 65) ∧
    (65 ≤ next_letter old ∧ next_letter old ≤ 90) ∧
    (∀ sh q, sh.rubric q = old → (correct_rubric q sh).rubric q = next_letter old) ∧
    (∀ (s : A.Sys) i c q, s.ta i = A.TaPc.edit_write q old →
      ∃ s1, A.ta_step i c s = some s1 ∧ s1.sh.rubric q = next_letter old) := by
  rw [next_letter_upper old h]
  refine ⟨fun h1 => by simp; omega, fun h1 => by simp [h1], by split <;> omega, ?_, ?_⟩
  · intro sh q hq
    simp [correct_rubric, hq, next_letter_upper old h]
  · intro s i c q hq
    simp [A.ta_step, hq, next_letter_upper old h]

theorem rubric_correction_wraps_witness :
    ((65 : Int) ≤ 90 ∧ (90 : Int) ≤ 90) ∧
    (((90 : Int) < 90 → next_letter 90 = 90 + 1) ∧ ((90 : Int) = 90 → next_letter 90 = 65) ∧
    (65 ≤ next_letter 90 ∧ next_letter 90 ≤ 90) ∧
    (∀ sh q, sh.rubric q = 90 → (correct_rubric q sh).rubric q = next_letter 90) ∧
    (∀ (s : A.Sys) i c q, s.ta i = A.TaPc.edit_write q 90 →
      ∃ s1, A.ta_step i c s = some s1 ∧ s1.sh.rubric q = next_letter 90)) :=
  ⟨by decide, rubric_correction_wraps 90 (by decide)⟩

/-! ## Persisting the rubric in variant A -/

/-- The parent of variant A, run alone from line 365 with `rubric_dirty` true
and a rubric file that cannot be opened for writing, reaches the sleep that
ends the iteration with `rubric_dirty` false and the file as it was. -/
theorem failed_save_iteration_A (env : Env) (s : A.Sys)
    (hpc : s.parent = A.ParentPc.check_dirty) (hd : s.sh.rubric_dirty ≠ 0) :
    (A.exec env s (List.replicate 7 (A.Label.parent false))).parent = A.ParentPc.sleep ∧
    (A.exec env s (List.replicate 7 (A.Label.parent false))).sh.rubric_dirty = 0 ∧
    (A.exec env s (List.replicate 7 (A.Label.parent false))).rubric_file = s.rubric_file ∧
    (A.exec env s (List.replicate 7 (A.Label.parent false))).sh.rubric = s.sh.rubric := by
  simp [List.replicate, A.exec, A.step, A.parent_step, hpc, hd]

/-- C10, evaluation at the failing input.  Variant A, two assistants: after
assistant 0 has corrected rubric entry 1 (`rubric_dirty` is 1), the parent runs
one loop iteration in which `save_rubric` fails; at the end of the iteration
`rubric_dirty` is 0 although the file still holds the old rubric. -/
theorem dirty_lost_on_failed_save_A :
    (A.exec env_two (A.init env_two) sched_edit).sh.rubric_dirty = 1 ∧
    (A.exec env_two (A.init env_two) sched_edit).parent = A.ParentPc.loop_top ∧
    (A.exec env_two (A.init env_two) (sched_edit ++ sched_failed_save)).parent
      = A.ParentPc.sleep ∧
    (A.exec env_two (A.init env_two) (sched_edit ++ sched_failed_save)).sh.rubric_dirty = 0 ∧
    (A.exec env_two (A.init env_two) (sched_edit ++ sched_failed_save)).rubric_file
      = some rubric_abcde ∧
    (A.exec env_two (A.init env_two) (sched_edit ++ sched_failed_save)).sh.rubric 0 = 66 := by
  decide

/-! ## Reading the rubric file -/

theorem skip_space_spec (s : List Int) :
    ∃ ws, s = ws ++ skip_space s ∧ ∀ x ∈ ws, isspace x = true := by
  induction s with
  | nil => exact ⟨[], by simp [skip_space]⟩
  | cons c cs ih =>
    by_cases hc : isspace c = true
    · obtain ⟨ws, h1, h2⟩ := ih
      refine ⟨c :: ws, ?_, ?_⟩
      · simp only [skip_space, hc, if_true, List.cons_append]
        rw [← h1]
      · intro x hx
        rcases List.mem_cons.mp hx with h | h
        · rw [h]; exact hc
        · exact h2 x h
    · exact ⟨[], by simp [skip_space, hc]⟩

theorem skip_space_head (s : List Int) (y : Int) (ys : List Int)
    (h : skip_space s = y :: ys) : isspace y = false := by
  induction s with
  | nil => simp [skip_space] at h
  | cons c cs ih =>
    by_cases hc : isspace c = true
    · simp only [skip_space, hc, if_true] at h
      exact ih h
    · simp only [skip_space, hc] at h
      simp at h
      rw [← h.1]
      simpa using hc

theorem skip_space_nil (s : List Int) (h : skip_space s = []) : ∀ x ∈ s, isspace x = true := by
  induction s with
  | nil => simp
  | cons c cs ih =>
    by_cases hc : isspace c = true
    · simp only [skip_space, hc, if_true] at h
      intro x hx
      rcases List.mem_cons.mp hx with e | e
      · rw [e]; exact hc
      · exact ih h x e
    · simp [skip_space, hc] at h

theorem skip_space_append (ws t : List Int) (h : ∀ x ∈ ws, isspace x = true) :
    skip_space (ws ++ t) = skip_space t := by
  induction ws with
  | nil => rfl
  | cons w ws ih =>
    have hw : isspace w = true := h w (by simp)
    simp only [List.cons_append, skip_space, hw, if_true]
    exact ih (fun x hx => h x (by simp [hx]))

theorem skip_space_all (ws : List Int) (h : ∀ x ∈ ws, isspace x = true) :
    skip_space ws = [] := by
  have := skip_space_append ws [] h
  simpa [skip_space] using this

theorem skip_space_cons (x : Int) (t : List Int) (h : isspace x = false) :
    skip_space (x :: t) = x :: t := by
  simp [skip_space, h]

theorem digit_not_space (x : Int) (h : isdigit x = true) :
    isspace x = false ∧ x ≠ 45 ∧ x ≠ 43 ∧ x ≠ 44 ∧ x ≠ 0 := by
  simp only [isdigit, Bool.and_eq_true, decide_eq_true_eq] at h
  refine ⟨?_, by omega, by omega, by omega, by omega⟩
  simp only [isspace, Bool.or_eq_false_iff, decide_eq_false_iff_not, Bool.and_eq_false_iff]
  omega

theorem scan_digits_spec (s : List Int) (acc : Int) :
    ∃ ds, s = ds ++ (scan_digits acc s).2 ∧ (∀ x ∈ ds, isdigit x = true) ∧
      (scan_digits acc s).1 = ds.foldl (fun a d => a * 10 + (d - 48)) acc ∧
      ∀ x ∈ (scan_digits acc s).2.head?, isdigit x = false := by
  induction s generalizing acc with
  | nil => exact ⟨[], by simp [scan_digits]⟩
  | cons c cs ih =>
    by_cases hc : isdigit c = true
    · obtain ⟨ds, h1, h2, h3, h4⟩ := ih (acc * 10 + (c - 48))
      refine ⟨c :: ds, ?_, ?_, ?_, ?_⟩
      · simp only [scan_digits, hc, if_true, List.cons_append]
        rw [← h1]
      · intro x hx
        rcases List.mem_cons.mp hx with h | h
        · rw [h]; exact hc
        · exact h2 x h
      · simp only [scan_digits, hc, if_true, List.foldl_cons]
        exact h3
      · simp only [scan_digits, hc, if_true]
        exact h4
    · refine ⟨[], by simp [scan_digits, hc], by simp, by simp [scan_digits, hc], ?_⟩
      simp only [scan_digits, hc]
      simpa using hc

theorem scan_digits_append (ds t : List Int) (acc : Int) (hd : ∀ x ∈ ds, isdigit x = true)
    (ht : ∀ x ∈ t.head?, isdigit x = false) :
    scan_digits acc (ds ++ t) = (ds.foldl (fun a d => a * 10 + (d - 48)) acc, t) := by
  induction ds generalizing acc with
  | nil =>
    cases t with
    | nil => rfl
    | cons x xs =>
      have hx : isdigit x = false := ht x (by simp)
      simp [scan_digits, hx]
  | cons d ds ih =>
    have h1 : isdigit d = true := hd d (by simp)
    simp only [List.cons_append, scan_digits, h1, if_true, List.foldl_cons]
    exact ih _ (fun x hx => hd x (by simp [hx]))

theorem scan_number_spec (s : List Int) (v : Int) (r : List Int)
    (h : scan_number s = some (v, r)) :
    ∃ ds, s = ds ++ r ∧ ds ≠ [] ∧ (∀ x ∈ ds, isdigit x = true) ∧ v = decimal_value ds ∧
      ∀ x ∈ r.head?, isdigit x = false := by
  cases s with
  | nil => simp [scan_number] at h
  | cons c cs =>
    by_cases hc : isdigit c = true
    · simp only [scan_number, hc, if_true, Option.some.injEq] at h
      obtain ⟨ds, h1, h2, h3, h4⟩ := scan_digits_spec (c :: cs) 0
      rw [h] at h1 h3 h4
      simp only at h1 h3 h4
      refine ⟨ds, h1, ?_, h2, h3, h4⟩
      intro hds
      subst hds
      simp only [List.nil_append] at h1
      rw [← h1] at h4
      have := h4 c (by simp)
      rw [hc] at this
      exact absurd this (by simp)
    · simp [scan_number, hc] at h

theorem scan_number_append (ds t : List Int) (hd : ∀ x ∈ ds, isdigit x = true) (hne : ds ≠ [])
    (ht : ∀ x ∈ t.head?, isdigit x = false) :
    scan_number (ds ++ t) = some (decimal_value ds, t) := by
  cases ds with
  | nil => exact absurd rfl hne
  | cons d ds =>
    have h1 : isdigit d = true := hd d (by simp)
    simp only [List.cons_append, scan_number, h1, if_true]
    rw [← List.cons_append, scan_digits_append (d :: ds) t 0 hd ht]
    rfl

theorem int_value_unsigned (ds : List Int) (hd : ∀ x ∈ ds, isdigit x = true) (hne : ds ≠ []) :
    int_value ds = to_int (strtol_clamp (decimal_value ds)) := by
  cases ds with
  | nil => exact absurd rfl hne
  | cons d ds =>
    obtain ⟨_, h45, h43, _, _⟩ := digit_not_space d (hd d (by simp))
    simp [int_value, h45, h43]

theorem to_int_small (x : Int) (h0 : -2147483648 ≤ x) (h1 : x ≤ 2147483647) :
    to_int (strtol_clamp x) = x := by
  unfold to_int strtol_clamp
  rw [if_neg (by omega), if_neg (by omega)]
  omega

theorem decimal_bound (ds : List Int) (acc : Int) (hd : ∀ x ∈ ds, isdigit x = true)
    (hacc : 0 ≤ acc) :
    0 ≤ ds.foldl (fun a d => a * 10 + (d - 48)) acc ∧
      ds.foldl (fun a d => a * 10 + (d - 48)) acc < (acc + 1) * 10 ^ ds.length := by
  induction ds generalizing acc with
  | nil => simp [hacc]
  | cons d ds ih =>
    have h1 : isdigit d = true := hd d (by simp)
    simp only [isdigit, Bool.and_eq_true, decide_eq_true_eq] at h1
    obtain ⟨i1, i2⟩ := ih (acc * 10 + (d - 48)) (fun x hx => hd x (by simp [hx])) (by omega)
    refine ⟨i1, lt_of_lt_of_le i2 ?_⟩
    have hp : (0 : Int) ≤ 10 ^ ds.length := by positivity
    have hle : acc * 10 + (d - 48) + 1 ≤ (acc + 1) * 10 := by omega
    calc (acc * 10 + (d - 48) + 1) * 10 ^ ds.length
        ≤ ((acc + 1) * 10) * 10 ^ ds.length := Int.mul_le_mul_of_nonneg_right hle hp
      _ = (acc + 1) * 10 ^ (d :: ds).length := by
        simp only [List.length_cons, pow_succ]
        ring

/-- For an unsigned integer text of at most nine digits the question number
is the decimal value. -/
theorem int_value_short (ds : List Int) (hd : ∀ x ∈ ds, isdigit x = true) (hne : ds ≠ [])
    (hlen : ds.length ≤ 9) : int_value ds = decimal_value ds := by
  rw [int_value_unsigned ds hd hne]
  obtain ⟨h0, h1⟩ := decimal_bound ds 0 hd (le_refl 0)
  have hp : (10 : Int) ^ ds.length ≤ 10 ^ 9 := pow_le_pow_right₀ (by norm_num) hlen
  have h2 : decimal_value ds < 10 ^ 9 := by
    unfold decimal_value
    calc _ < (0 + 1) * 10 ^ ds.length := h1
      _ ≤ 10 ^ 9 := by simpa using hp
  have h3 : (10 : Int) ^ 9 = 1000000000 := by norm_num
  exact to_int_small _ (by unfold decimal_value; omega) (by omega)
/-- What `%d` reads: white space, then the text of an integer which no digit
follows, and the value stored is the question number the text stands for. -/
theorem scan_d_spec (s : List Int) (v : Int) (r : List Int) (h : scan_d s = some (v, r)) :
    ∃ ws num, s = ws ++ num ++ r ∧ (∀ x ∈ ws, isspace x = true) ∧ is_integer_text num ∧
      v = int_value num ∧ ∀ x ∈ r.head?, isdigit x = false := by
  obtain ⟨ws, h1, h2⟩ := skip_space_spec s
  unfold scan_d at h
  cases hs : skip_space s with
  | nil => simp [hs] at h
  | cons c cs =>
    rw [hs] at h1
    simp only [hs] at h
    by_cases h45 : c = 45
    · cases hn : scan_number cs with
      | none => simp [h45, hn] at h
      | some p =>
        obtain ⟨v1, r1⟩ := p
        simp only [h45, if_true, hn, Option.map_some', Option.some.injEq, Prod.mk.injEq] at h
        obtain ⟨hv, hr⟩ := h
        subst hr
        obtain ⟨ds, hd1, hd2, hd3, hd4, hd5⟩ := scan_number_spec cs v1 r1 hn
        refine ⟨ws, 45 :: ds, ?_, h2, ⟨[45], ds, rfl, Or.inr (Or.inr rfl), hd2, hd3⟩, ?_, hd5⟩
        · rw [h1, h45, hd1]; simp
        · rw [← hv, hd4]; simp [int_value]
    · by_cases h43 : c = 43
      · cases hn : scan_number cs with
        | none => simp [h43, hn] at h
        | some p =>
          obtain ⟨v1, r1⟩ := p
          simp only [h43, hn, Option.map_some', Option.some.injEq, Prod.mk.injEq] at h
          simp at h
          obtain ⟨hv, hr⟩ := h
          subst hr
          obtain ⟨ds, hd1, hd2, hd3, hd4, hd5⟩ := scan_number_spec cs v1 r1 hn
          refine ⟨ws, 43 :: ds, ?_, h2, ⟨[43], ds, rfl, Or.inr (Or.inl rfl), hd2, hd3⟩, ?_, hd5⟩
          · rw [h1, h43, hd1]; simp
          · rw [← hv, hd4]; simp [int_value]
      · cases hn : scan_number (c :: cs) with
        | none => simp [h45, h43, hn] at h
        | some p =>
          obtain ⟨v1, r1⟩ := p
          simp only [h45, h43, if_false, hn, Option.map_some', Option.some.injEq,
            Prod.mk.injEq] at h
          obtain ⟨hv, hr⟩ := h
          subst hr
          obtain ⟨ds, hd1, hd2, hd3, hd4, hd5⟩ := scan_number_spec (c :: cs) v1 r1 hn
          refine ⟨ws, ds, ?_, h2, ⟨[], ds, rfl, Or.inl rfl, hd2, hd3⟩, ?_, hd5⟩
          · rw [h1, hd1]; simp
          · rw [← hv, hd4, int_value_unsigned ds hd3 hd2]

/-- Conversely, `%d` reads the text of an integer in full and stores the
question number it stands for. -/
theorem scan_d_complete (ws num r : List Int) (hws : ∀ x ∈ ws, isspace x = true)
    (hnum : is_integer_text num) (hr : ∀ x ∈ r.head?, isdigit x = false) :
    scan_d (ws ++ num ++ r) = some (int_value num, r) := by
  obtain ⟨sign, ds, hn, hsign, hne, hd⟩ := hnum
  subst hn
  unfold scan_d
  rw [List.append_assoc, skip_space_append ws _ hws]
  rcases hsign with hs | hs | hs
  · subst hs
    cases ds with
    | nil => exact absurd rfl hne
    | cons d ds =>
      obtain ⟨hsp, h45, h43, _, _⟩ := digit_not_space d (hd d (by simp))
      simp only [List.nil_append, List.cons_append]
      rw [skip_space_cons d _ hsp]
      simp only [h45, h43, if_false]
      rw [← List.cons_append, scan_number_append (d :: ds) r hd hne hr,
        int_value_unsigned (d :: ds) hd hne]
      rfl
  · subst hs
    have hsp : isspace 43 = false := by decide
    simp only [List.cons_append, List.nil_append, List.append_assoc]
    rw [skip_space_cons 43 _ hsp]
    simp only [show ¬ ((43 : Int) = 45) by decide, if_false, if_true]
    rw [scan_number_append ds r hd hne hr]
    simp [int_value]
  · subst hs
    have hsp : isspace 45 = false := by decide
    simp only [List.cons_append, List.nil_append, List.append_assoc]
    rw [skip_space_cons 45 _ hsp]
    simp only [if_true]
    rw [scan_number_append ds r hd hne hr]
    simp [int_value]

theorem sscanf_spaced_reads (s : List Int) (q c : Int) (h : sscanf fmt_spaced s = [q, c]) :
    line_reads s q c := by
  simp only [fmt_spaced, sscanf] at h
  cases hd : scan_d s with
  | none => simp [hd] at h
  | some p =>
    obtain ⟨v, r⟩ := p
    obtain ⟨ws1, num, h1, hws1, hnum, hv, _⟩ := scan_d_spec s v r hd
    obtain ⟨ws2, h2, hws2⟩ := skip_space_spec r
    simp only [hd] at h
    cases hr : skip_space r with
    | nil => simp [hr] at h
    | cons x xs =>
      obtain ⟨ws3, h3, hws3⟩ := skip_space_spec xs
      simp only [hr] at h
      by_cases hx : x = 44
      · simp only [hx, if_true] at h
        cases hxs : skip_space xs with
        | nil => simp [hxs] at h
        | cons y ys =>
          have hy : v = q ∧ y = c := by
            simp [hxs] at h
            exact h
          obtain ⟨hq, hy⟩ := hy
          subst hy
          subst hq
          refine ⟨ws1, num, ws2, ws3, ys, ?_, hws1, hnum, hv, hws2, hws3,
            Or.inl (skip_space_head xs y ys hxs)⟩
          rw [h1, h2, hr, hx, h3, hxs]; simp
      · simp [hx] at h

theorem sscanf_tight_reads (s : List Int) (q c : Int) (h : sscanf fmt_tight s = [q, c])
    (hn : ∀ q1 c1, sscanf fmt_spaced s = [q1, c1] → False) : line_reads s q c := by
  simp only [fmt_tight, sscanf] at h
  simp only [fmt_spaced, sscanf] at hn
  cases hd : scan_d s with
  | none => simp [hd] at h
  | some p =>
    obtain ⟨v, r⟩ := p
    obtain ⟨ws1, num, h1, hws1, hnum, hv, _⟩ := scan_d_spec s v r hd
    simp only [hd] at h hn
    cases r with
    | nil => simp at h
    | cons x xs =>
      by_cases hx : x = 44
      · cases xs with
        | nil => simp [hx] at h
        | cons y ys =>
          have hy : v = q ∧ y = c := by
            simp [hx] at h
            exact h
          obtain ⟨hq, hy⟩ := hy
          subst hy
          subst hq
          have hsp : skip_space (y :: ys) = [] := by
            cases hxs : skip_space (y :: ys) with
            | nil => rfl
            | cons z zs =>
              exfalso
              apply hn v z
              have h44 : skip_space (x :: y :: ys) = x :: y :: ys := by
                rw [hx]; rfl
              rw [h44]
              simp only [hx, if_true, hxs]
          have hall := skip_space_nil (y :: ys) hsp
          refine ⟨ws1, num, [], [], ys, ?_, hws1, hnum, hv, by simp, by simp,
            Or.inr ⟨rfl, rfl, hall y (by simp), fun z hz => hall z (by simp [hz])⟩⟩
          rw [h1, hx]; simp
      · simp [hx] at h

/-- A line accepted by the two `sscanf` calls reads as the number and the
letter they store. -/
theorem scan_rubric_line_reads (line : List Int) (q c : Int)
    (h : scan_rubric_line line = some (q, c)) : line_reads (c_str line) q c := by
  unfold scan_rubric_line at h
  split at h
  · next q1 c1 h1 =>
    simp at h
    rw [← h.1, ← h.2]
    exact sscanf_spaced_reads _ q1 c1 h1
  · next hn =>
    split at h
    · next q2 c2 h2 =>
      simp at h
      rw [← h.1, ← h.2]
      exact sscanf_tight_reads _ q2 c2 h2 hn
    · simp at h

theorem line_reads_parses (s : List Int) (q c : Int) (h : line_reads s q c) :
    parses_as_rubric_line s := by
  obtain ⟨ws1, num, ws2, ws3, rest, h1, hws1, hnum, _, hws2, hws3, _⟩ := h
  exact ⟨ws1, num, ws2, ws3, c, rest, h1, hws1, hnum, hws2, hws3⟩

/-- A line accepted by the two `sscanf` calls starts with an integer, a comma
and a character. -/
theorem scan_rubric_line_spec (line : List Int) (q c : Int)
    (h : scan_rubric_line line = some (q, c)) : parses_as_rubric_line (c_str line) :=
  line_reads_parses _ q c (scan_rubric_line_reads line q c h)

theorem head_not_digit (ws t : List Int) (x : Int) (hws : ∀ y ∈ ws, isspace y = true)
    (hx : isdigit x = false) : ∀ y ∈ (ws ++ x :: t).head?, isdigit y = false := by
  intro y hy
  cases ws with
  | nil =>
    simp at hy
    rw [← hy]; exact hx
  | cons w ws =>
    simp at hy
    have hw : isspace w = true := hws w (by simp)
    rw [← hy]
    cases hd : isdigit w with
    | false => rfl
    | true =>
      have := (digit_not_space w hd).1
      rw [hw] at this
      exact absurd this (by simp)

/-- Conversely, a string that reads as number `q` and letter `c` makes one of
the two `sscanf` calls store exactly these. -/
theorem line_reads_scans (line : List Int) (q c : Int) (h : line_reads (c_str line) q c) :
    scan_rubric_line line = some (q, c) := by
  obtain ⟨ws1, num, ws2, ws3, rest, h1, hws1, hnum, hq, hws2, hws3, hc⟩ := h
  have h44 : isdigit 44 = false := by decide
  have hs44 : isspace 44 = false := by decide
  have hr := head_not_digit ws2 (ws3 ++ c :: rest) 44 hws2 h44
  have hd : scan_d (c_str line) = some (q, ws2 ++ 44 :: (ws3 ++ c :: rest)) := by
    rw [h1, hq]
    have := scan_d_complete ws1 num (ws2 ++ 44 :: (ws3 ++ c :: rest)) hws1 hnum hr
    simpa using this
  unfold scan_rubric_line
  rcases hc with hc | ⟨e2, e3, hc, hrest⟩
  · have hsp : sscanf fmt_spaced (c_str line) = [q, c] := by
      simp only [fmt_spaced, sscanf, hd]
      rw [skip_space_append ws2 _ hws2, skip_space_cons 44 _ hs44]
      simp only [if_true]
      rw [skip_space_append ws3 _ hws3, skip_space_cons c _ hc]
    rw [hsp]
  · subst e2; subst e3
    simp only [List.nil_append] at hd
    have hall : ∀ x ∈ c :: rest, isspace x = true := by
      intro x hx
      rcases List.mem_cons.mp hx with e | e
      · rw [e]; exact hc
      · exact hrest x e
    have hsp : sscanf fmt_spaced (c_str line) = [q] := by
      simp only [fmt_spaced, sscanf, hd]
      rw [skip_space_cons 44 _ hs44]
      simp only [if_true]
      rw [skip_space_all _ hall]
    have ht : sscanf fmt_tight (c_str line) = [q, c] := by
      simp only [fmt_tight, sscanf, hd, if_true]
    rw [hsp, ht]

/-- The two `sscanf` calls store as number what `%d` reads at the start of
the line. -/
theorem scan_rubric_line_number (line : List Int) (q c : Int)
    (h : scan_rubric_line line = some (q, c)) : starts_with_number (c_str line) q := by
  obtain ⟨ws1, num, ws2, ws3, rest, h1, hws1, hnum, hq, hws2, hws3, _⟩ :=
    scan_rubric_line_reads line q c h
  refine ⟨ws1, num, ws2 ++ 44 :: (ws3 ++ c :: rest), ?_, hws1, hnum,
    head_not_digit ws2 _ 44 hws2 (by decide), hq⟩
  rw [h1]; simp

/-- The number at the start of a string is determined by the string. -/
theorem starts_with_number_unique (s : List Int) (q q1 : Int)
    (h : starts_with_number s q) (h1 : starts_with_number s q1) : q = q1 := by
  obtain ⟨ws, num, rest, e, hws, hnum, hrest, hq⟩ := h
  obtain ⟨ws1, num1, rest1, e1, hws1, hnum1, hrest1, hq1⟩ := h1
  have a := scan_d_complete ws num rest hws hnum hrest
  have b := scan_d_complete ws1 num1 rest1 hws1 hnum1 hrest1
  rw [← e] at a
  rw [← e1, a] at b
  simp only [Option.some.injEq, Prod.mk.injEq] at b
  rw [hq, hq1]
  exact b.1

theorem load_rubric_loop_ret (n : Nat) (f : List Int) (sh : SharedArea) :
    (load_rubric_loop n f sh).1 = 0 ∨ (load_rubric_loop n f sh).1 = -1 := by
  induction n generalizing f sh with
  | zero => simp [load_rubric_loop]
  | succ n ih =>
    unfold load_rubric_loop
    split
    · simp
    · split
      · simp
      · split
        · simp
        · exact ih _ _

/-- When the loop of `load_rubric` succeeds, each of its `n` calls of `fgets`
stored a line that the `sscanf` calls accepted with a question number in
range. -/
theorem load_rubric_loop_ok (n : Nat) (f : List Int) (sh : SharedArea)
    (h : (load_rubric_loop n f sh).1 = 0) :
    (chunks n f).length = n ∧
    ∀ l ∈ chunks n f, ∃ q c, scan_rubric_line l = some (q, c) ∧ 1 ≤ q ∧ q ≤ 5 := by
  induction n generalizing f sh with
  | zero => simp [chunks]
  | succ n ih =>
    unfold load_rubric_loop at h
    unfold chunks
    cases hf : fgets 256 f with
    | none => simp [hf] at h
    | some p =>
      obtain ⟨line, rest⟩ := p
      simp only [hf] at h ⊢
      cases hs : scan_rubric_line line with
      | none => simp [hs] at h
      | some qc =>
        obtain ⟨q, c⟩ := qc
        simp only [hs] at h
        by_cases hq : q < 1 ∨ (5 : Int) < q
        · simp [hq] at h
        · simp [hq] at h
          obtain ⟨ih1, ih2⟩ := ih _ _ h
          refine ⟨by simp [ih1], ?_⟩
          intro l hl
          rcases List.mem_cons.mp hl with hl | hl
          · subst hl
            exact ⟨q, c, hs, by omega, by omega⟩
          · exact ih2 l hl

theorem fgets_aux_line (n : Nat) (f : List Int) (h : (first_line f).length ≤ n) :
    fgets_aux n f = (first_line f, rest_after_line f) := by
  induction n generalizing f with
  | zero =>
    cases f with
    | nil => simp [fgets_aux, first_line, rest_after_line]
    | cons c cs =>
      have := first_line_ne_nil (f := c :: cs) (by simp)
      simp at h
      exact absurd h this
  | succ n ih =>
    cases f with
    | nil => simp [fgets_aux, first_line, rest_after_line]
    | cons c cs =>
      by_cases hc : c = 10
      · simp [fgets_aux, first_line, rest_after_line, hc]
      · have h' : (first_line cs).length ≤ n := by
          simp [first_line, hc] at h; exact h
        simp [fgets_aux, first_line, rest_after_line, hc, ih cs h']

/-- On a file whose lines fit the buffer, `fgets` reads line by line. -/
theorem chunks_eq_first_lines (n : Nat) (f : List Int)
    (h : ∀ l ∈ first_lines n f, l.length ≤ 255) : chunks n f = first_lines n f := by
  induction n generalizing f with
  | zero => simp [chunks, first_lines]
  | succ n ih =>
    cases f with
    | nil => simp [chunks, first_lines, fgets]
    | cons c cs =>
      have h1 : (first_line (c :: cs)).length ≤ 255 := h _ (by simp [first_lines])
      have h2 : ∀ l ∈ first_lines n (rest_after_line (c :: cs)), l.length ≤ 255 :=
        fun l hl => h l (by simp [first_lines, hl])
      simp only [chunks, fgets, first_lines]
      rw [show (256 : Nat) - 1 = 255 from rfl, fgets_aux_line 255 (c :: cs) h1]
      simp only
      rw [ih _ h2]

/-- Whatever the length of the lines: `load_rubric` fails when `fgets` cannot
store five lines, or one of the five is rejected by both `sscanf` calls or
starts with a question number out of range. -/
theorem load_rubric_rejects_chunks (f : List Int) (sh : SharedArea)
    (h : (chunks 5 f).length < 5 ∨
      (∃ l ∈ chunks 5 f, ¬ parses_as_rubric_line (c_str l)) ∨
      (∃ l ∈ chunks 5 f, ∃ q, starts_with_number (c_str l) q ∧ (q < 1 ∨ 5 < q))) :
    (load_rubric (some f) sh).1 = -1 := by
  rcases load_rubric_loop_ret 5 f sh with h0 | h1
  · exfalso
    obtain ⟨hlen, hall⟩ := load_rubric_loop_ok 5 f sh h0
    rcases h with h | ⟨l, hl, hp⟩ | ⟨l, hl, q, hs, hq⟩
    · omega
    · obtain ⟨q, c, hs, _, _⟩ := hall l hl
      exact hp (scan_rubric_line_spec l q c hs)
    · obtain ⟨q1, c1, hs1, h1, h5⟩ := hall l hl
      have e := starts_with_number_unique _ q q1 hs (scan_rubric_line_number l q1 c1 hs1)
      omega
  · exact h1

theorem parses_head (x : Int) (s : List Int) (h : parses_as_rubric_line (x :: s)) :
    isspace x = true ∨ isdigit x = true ∨ x = 43 ∨ x = 45 := by
  obtain ⟨ws1, num, ws2, ws3, c, rest, heq, hws1, ⟨sign, ds, hnum, hsign, hds, hdig⟩, _, _⟩ := h
  cases ws1 with
  | cons w ws =>
    simp at heq
    exact Or.inl (heq.1 ▸ hws1 w (by simp))
  | nil =>
    cases ds with
    | nil => exact absurd rfl hds
    | cons d ds =>
      rcases hsign with hs | hs | hs
      · subst hnum; subst hs
        simp at heq
        exact Or.inr (Or.inl (heq.1 ▸ hdig d (by simp)))
      · subst hnum; subst hs
        simp at heq
        exact Or.inr (Or.inr (Or.inl heq.1))
      · subst hnum; subst hs
        simp at heq
        exact Or.inr (Or.inr (Or.inr heq.1))

theorem c_str_prefix (l : List Int) : ∃ t, l = c_str l ++ t := by
  induction l with
  | nil => exact ⟨[], rfl⟩
  | cons c cs ih =>
    by_cases hc : c = 0
    · exact ⟨c :: cs, by simp [c_str, hc]⟩
    · obtain ⟨t, ht⟩ := ih
      refine ⟨t, ?_⟩
      simp only [c_str, hc, if_false, List.cons_append]
      rw [← ht]

theorem c_str_append (a b : List Int) (h : ∀ x ∈ a, x ≠ 0) : c_str (a ++ b) = a ++ c_str b := by
  induction a with
  | nil => rfl
  | cons x xs ih =>
    have hx : x ≠ 0 := h x (by simp)
    have e := ih (fun y hy => h y (by simp [hy]))
    simp only [List.cons_append, c_str, hx, if_false]
    exact congrArg (List.cons x) e

theorem space_ne_nul (x : Int) (h : isspace x = true) : x ≠ 0 := by
  intro e
  subst e
  exact absurd h (by decide)

theorem integer_text_ne_nul (num : List Int) (h : is_integer_text num) : ∀ x ∈ num, x ≠ 0 := by
  obtain ⟨sign, ds, hn, hsign, _, hd⟩ := h
  subst hn
  intro x hx
  rcases List.mem_append.mp hx with hx | hx
  · rcases hsign with e | e | e <;> subst e <;> simp at hx <;> omega
  · exact (digit_not_space x (hd x hx)).2.2.2.2

/-- A line that parses up to its first NUL character parses. -/
theorem parses_of_c_str (l : List Int) (h : parses_as_rubric_line (c_str l)) :
    parses_as_rubric_line l := by
  obtain ⟨t, ht⟩ := c_str_prefix l
  obtain ⟨ws1, num, ws2, ws3, c, rest, h1, hws1, hnum, hws2, hws3⟩ := h
  refine ⟨ws1, num, ws2, ws3, c, rest ++ t, ?_, hws1, hnum, hws2, hws3⟩
  rw [ht, h1]; simp

/-- The integer a line starts with is the one it starts with up to its first
NUL character. -/
theorem starts_c_str (l : List Int) (q : Int) (h : starts_with_number l q) :
    starts_with_number (c_str l) q := by
  obtain ⟨ws, num, rest, e, hws, hnum, hrest, hq⟩ := h
  have hne : ∀ x ∈ ws ++ num, x ≠ 0 := by
    intro x hx
    rcases List.mem_append.mp hx with hx | hx
    · exact space_ne_nul x (hws x hx)
    · exact integer_text_ne_nul num hnum x hx
  refine ⟨ws, num, c_str rest, ?_, hws, hnum, ?_, hq⟩
  · rw [e, c_str_append (ws ++ num) rest hne]
  · intro x hx
    cases rest with
    | nil => simp [c_str] at hx
    | cons r rs =>
      by_cases hr : r = 0
      · simp [c_str, hr] at hx
      · simp [c_str, hr] at hx
        exact hrest x (by simp [hx])

/-- C6, as amended.  For a rubric file whose first five lines (all of them
when there are fewer) are at most 255 characters long, newline included,
`load_rubric` returns -1 when the file has fewer than five lines, or one of
its first five lines does not start with an integer, a comma optionally
surrounded by white space and a character, or one of them starts with an
integer whose question number is outside 1..5.  The question number of an
integer text is the `int` it is stored as (`int_value`). -/
theorem load_rubric_rejects (f : List Int) (sh : SharedArea)
    (hlen : ∀ l ∈ first_lines 5 f, l.length ≤ 255)
    (h : (first_lines 5 f).length < 5 ∨
      (∃ l ∈ first_lines 5 f, ¬ parses_as_rubric_line l) ∨
      (∃ l ∈ first_lines 5 f, ∃ q, starts_with_number l q ∧ (q < 1 ∨ 5 < q))) :
    (load_rubric (some f) sh).1 = -1 := by
  apply load_rubric_rejects_chunks
  rw [chunks_eq_first_lines 5 f hlen]
  rcases h with h | ⟨l, hl, hp⟩ | ⟨l, hl, q, hs, hq⟩
  · exact Or.inl h
  · exact Or.inr (Or.inl ⟨l, hl, fun hc => hp (parses_of_c_str l hc)⟩)
  · exact Or.inr (Or.inr ⟨l, hl, q, starts_c_str l q hs, hq⟩)

theorem load_rubric_rejects_witness :
    ((load_rubric (some rubric_four_lines) SharedArea.zeroed).1 = -1) ∧
    ((load_rubric (some rubric_swapped_line) SharedArea.zeroed).1 = -1) ∧
    ((load_rubric (some rubric_sixth_question) SharedArea.zeroed).1 = -1) :=
  ⟨load_rubric_rejects rubric_four_lines SharedArea.zeroed (by decide) (Or.inl (by decide)),
   load_rubric_rejects rubric_swapped_line SharedArea.zeroed (by decide)
    (Or.inr (Or.inl ⟨cstr "C, 3\n", by decide, fun hp => by
      have := parses_head _ _ hp
      revert this
      decide⟩)),
   load_rubric_rejects rubric_sixth_question SharedArea.zeroed (by decide)
    (Or.inr (Or.inr ⟨cstr "6, E\n", by decide, 6,
      ⟨[], [54], [44, 32, 69, 10], by decide, by simp,
        ⟨[], [54], rfl, Or.inl rfl, by simp, by decide⟩, by simp; decide, by decide⟩,
      Or.inr (by decide)⟩))⟩

set_option maxRecDepth 100000 in
/-- C6, counterexample to the claim as stated.  A file of one line, 1275
characters without a newline, has fewer than five lines and `load_rubric`
returns 0 on it, `fgets` having cut the line in five.  And a file of five
lines whose first line starts with the integer 4294967297, a number outside
1..5, is accepted too: the `int` stored for it is 1. -/
theorem load_rubric_accepts_bad_files :
    ((first_lines 5 rubric_one_long_line).length = 1 ∧
      (load_rubric (some rubric_one_long_line) SharedArea.zeroed).1 = 0) ∧
    (first_lines 5 rubric_wide_number =
        [cstr "4294967297, A\n", cstr "2, B\n", cstr "3, C\n", cstr "4, D\n", cstr "5, E\n"] ∧
      decimal_value (cstr "4294967297") = 4294967297 ∧
      (load_rubric (some rubric_wide_number) SharedArea.zeroed).1 = 0 ∧
      (load_rubric (some rubric_wide_number) SharedArea.zeroed).2.rubric 0 = 65) := by
  decide

/-! ## Writing the rubric file and reading it back -/

theorem rubric_text_eq (r : Fin NUM_QUESTIONS → Int) :
    rubric_text r = [49, 44, 32, r 0, 10, 50, 44, 32, r 1, 10, 51, 44, 32, r 2, 10,
      52, 44, 32, r 3, 10, 53, 44, 32, r 4, 10] := by
  have h : List.finRange 5 = [0, 1, 2, 3, 4] := by decide
  have h1 : print_d 1 = [49] := by decide
  have h2 : print_d 2 = [50] := by decide
  have h3 : print_d 3 = [51] := by decide
  have h4 : print_d 4 = [52] := by decide
  have h5 : print_d 5 = [53] := by decide
  have e3 : ((3 : Fin 5) : Nat) = 3 := rfl
  have e4 : ((4 : Fin 5) : Nat) = 4 := rfl
  simp [rubric_text, h, rubric_line, h1, h2, h3, h4, h5, e3, e4]

/-- The two `sscanf` calls on a line written by `save_rubric`, for a letter
that is neither NUL nor white space. -/
theorem scan_written_line (d c : Int) (hd : 49 ≤ d ∧ d ≤ 57) (hc0 : c ≠ 0)
    (hcs : ¬ (c = 32 ∨ (9 ≤ c ∧ c ≤ 13))) :
    scan_rubric_line [d, 44, 32, c, 10] = some (d - 48, c) := by
  have hd0 : d ≠ 0 := by omega
  have hds : ¬ (d = 32 ∨ (9 ≤ d ∧ d ≤ 13)) := by omega
  have hd45 : d ≠ 45 := by omega
  have hd43 : d ≠ 43 := by omega
  have hdd : 48 ≤ d ∧ d ≤ 57 := by omega
  simp [scan_rubric_line, c_str, hc0, hd0, sscanf, fmt_spaced, scan_d, skip_space,
    scan_number, scan_digits, isspace, isdigit, hcs, hds, hd45, hd43, hdd]
  exact to_int_small (d - 48) (by omega) (by omega)

theorem fgets_written_line (d c : Int) (rest : List Int) (hd : d ≠ 10) (hc : c ≠ 10) :
    fgets 256 (d :: 44 :: 32 :: c :: 10 :: rest) = some ([d, 44, 32, c, 10], rest) := by
  simp [fgets, fgets_aux, hd, hc]

/-- Reading back the text of a rubric whose letters are neither NUL nor
white space stores that rubric. -/
theorem load_written_rubric (r : Fin NUM_QUESTIONS → Int) (sh1 : SharedArea)
    (h0 : ∀ i, r i ≠ 0) (hs : ∀ i, ¬ (r i = 32 ∨ (9 ≤ r i ∧ r i ≤ 13))) :
    load_rubric (some (rubric_text r)) sh1 = (0, { sh1 with rubric := r }) := by
  have h10 : ∀ i, r i ≠ 10 := fun i h => hs i (Or.inr (by omega))
  rw [rubric_text_eq]
  simp only [load_rubric, load_rubric_loop]
  rw [fgets_written_line 49 (r 0) _ (by decide) (h10 0)]
  simp only [scan_written_line 49 (r 0) (by decide) (h0 0) (hs 0)]
  rw [fgets_written_line 50 (r 1) _ (by decide) (h10 1)]
  simp only [scan_written_line 50 (r 1) (by decide) (h0 1) (hs 1)]
  rw [fgets_written_line 51 (r 2) _ (by decide) (h10 2)]
  simp only [scan_written_line 51 (r 2) (by decide) (h0 2) (hs 2)]
  rw [fgets_written_line 52 (r 3) _ (by decide) (h10 3)]
  simp only [scan_written_line 52 (r 3) (by decide) (h0 3) (hs 3)]
  rw [fgets_written_line 53 (r 4) _ (by decide) (h10 4)]
  simp only [scan_written_line 53 (r 4) (by decide) (h0 4) (hs 4)]
  simp
  funext j
  fin_cases j <;> simp [array_write] <;> rfl

theorem rubric_text_injective (r r1 : Fin NUM_QUESTIONS → Int)
    (h : rubric_text r = rubric_text r1) : r = r1 := by
  rw [rubric_text_eq, rubric_text_eq] at h
  simp at h
  obtain ⟨h0, h1, h2, h3, h4⟩ := h
  funext j
  fin_cases j
  · exact h0
  · exact h1
  · exact h2
  · exact h3
  · exact h4

/-- C7. Round trip: for every rubric of five upper-case letters, a successful
`save_rubric` writes exactly five lines, line `i` being the digit `i`, a
comma, a space, the letter `rubric[i-1]` and a newline, and `load_rubric` on
that file returns 0 and stores the rubric that was saved, whatever the area
held. -/
theorem rubric_round_trip (sh sh1 : SharedArea) (file : Option (List Int))
    (hup : ∀ i, 65 ≤ sh.rubric i ∧ sh.rubric i ≤ 90) :
    (save_rubric true file sh).1 = 0 ∧
    first_lines 6 ((save_rubric true file sh).2.getD []) =
      [[49, 44, 32, sh.rubric 0, 10], [50, 44, 32, sh.rubric 1, 10],
       [51, 44, 32, sh.rubric 2, 10], [52, 44, 32, sh.rubric 3, 10],
       [53, 44, 32, sh.rubric 4, 10]] ∧
    load_rubric (save_rubric true file sh).2 sh1 = (0, { sh1 with rubric := sh.rubric }) := by
  have h0 : ∀ i, sh.rubric i ≠ 0 := fun i => by have := hup i; omega
  have hs : ∀ i, ¬ (sh.rubric i = 32 ∨ (9 ≤ sh.rubric i ∧ sh.rubric i ≤ 13)) :=
    fun i => by have := hup i; omega
  have h10 : ∀ i, sh.rubric i ≠ 10 := fun i => by have := hup i; omega
  refine ⟨by simp [save_rubric], ?_, ?_⟩
  · simp only [save_rubric, if_true, Option.getD_some]
    rw [rubric_text_eq]
    simp [first_lines, first_line, rest_after_line, h10]
  · simp only [save_rubric, if_true]
    exact load_written_rubric sh.rubric sh1 h0 hs

theorem rubric_round_trip_witness :
    (∀ i, 65 ≤ area_abcdz.rubric i ∧ area_abcdz.rubric i ≤ 90) ∧
    ((save_rubric true none area_abcdz).1 = 0 ∧
    first_lines 6 ((save_rubric true none area_abcdz).2.getD []) =
      [[49, 44, 32, area_abcdz.rubric 0, 10], [50, 44, 32, area_abcdz.rubric 1, 10],
       [51, 44, 32, area_abcdz.rubric 2, 10], [52, 44, 32, area_abcdz.rubric 3, 10],
       [53, 44, 32, area_abcdz.rubric 4, 10]] ∧
    load_rubric (save_rubric true none area_abcdz).2 SharedArea.zeroed =
      (0, { SharedArea.zeroed with rubric := area_abcdz.rubric })) :=
  ⟨by decide, rubric_round_trip area_abcdz SharedArea.zeroed none (by decide)⟩

/-! ## Persisting the rubric in variant B -/

theorem load_exam_frame_B (env : Env) (idx : Int) (sh : SharedArea) (out : List LogLine) :
    (B.load_exam env idx sh out).2.1.rubric = sh.rubric ∧
    (B.load_exam env idx sh out).2.1.rubric_dirty = sh.rubric_dirty := by
  cases hrec : env.exam_dir idx with
  | none => simp [load_exam_missing_B env idx sh out (Or.inl hrec)]
  | some rec =>
    by_cases hne : rec = []
    · subst hne; simp [load_exam_missing_B env idx sh out (Or.inr hrec)]
    · obtain ⟨_, ⟨_, _, _, h1, h2⟩, _⟩ := load_exam_found_B env idx sh out rec hrec hne
      exact ⟨h1, h2⟩

/-- A step of an assistant leaves the rubric file alone, and either leaves
the rubric and `rubric_dirty` alone or raises `rubric_dirty`. -/
theorem ta_step_rubric_B (i : Nat) (c : Bool) (s s1 : B.Sys)
    (h : B.ta_step i c s = some s1) :
    s1.rubric_file = s.rubric_file ∧
    ((s1.sh.rubric = s.sh.rubric ∧ s1.sh.rubric_dirty = s.sh.rubric_dirty) ∨
      s1.sh.rubric_dirty = 1) := by
  unfold B.ta_step at h
  split at h
  all_goals (try split at h)
  all_goals (try simp at h)
  all_goals
    subst h
    simp [B.Sys.log_ta, B.log_ta, B.Sys.goto, correct_rubric, claim_section_frame]

/-- A step of the parent leaves the rubric alone, and either leaves
`rubric_dirty` and the file alone or is the successful save, which writes the
rubric and clears `rubric_dirty` in one critical section. -/
theorem parent_step_rubric_B (env : Env) (w : Bool) (s s1 : B.Sys)
    (h : B.parent_step env w s = some s1) :
    s1.sh.rubric = s.sh.rubric ∧
    ((s1.sh.rubric_dirty = s.sh.rubric_dirty ∧ s1.rubric_file = s.rubric_file) ∨
      (w = true ∧ s.parent = B.ParentPc.save ∧ s1.sh.rubric_dirty = 0 ∧
        s1.rubric_file = some (rubric_text s.sh.rubric))) := by
  have hl := load_exam_frame_B env (s.exam_index + 1) s.sh s.stdio_parent
  unfold B.parent_step at h
  split at h
  all_goals (try split at h)
  all_goals (try simp at h)
  all_goals
    subst h
    simp [B.Sys.log_parent, B.log_parent, hl]
  all_goals
    cases w <;> simp_all [save_rubric]

theorem step_file_current (env : Env) (s s1 : B.Sys) (l : B.Label)
    (h : B.step env s l = some s1) (hinv : B.file_current s) : B.file_current s1 := by
  unfold B.file_current at *
  cases l with
  | parent w =>
    obtain ⟨h1, h2⟩ := parent_step_rubric_B env w s s1 h
    rcases h2 with ⟨hd, hf⟩ | ⟨_, _, _, hf⟩
    · intro h0; rw [hf, h1]; exact hinv (hd ▸ h0)
    · intro _; rw [hf, h1]
  | ta i c =>
    simp only [B.step] at h
    split at h
    · obtain ⟨h1, h2⟩ := ta_step_rubric_B i c s s1 h
      rcases h2 with ⟨hr, hd⟩ | hd
      · intro h0; rw [h1, hr]; exact hinv (hd ▸ h0)
      · intro h0; rw [hd] at h0; exact absurd h0 (by decide)
    · simp at h

theorem exec_file_current (env : Env) (ls : List B.Label) (s : B.Sys)
    (hinv : B.file_current s) : B.file_current (B.exec env s ls) := by
  induction ls generalizing s with
  | nil => exact hinv
  | cons l ls ih =>
    simp only [B.exec]
    apply ih
    cases hs : B.step env s l with
    | none => simpa using hinv
    | some s1 => simpa using step_file_current env s s1 l hs hinv

/-! ## The claim protocol of variant B -/

theorem scan_questions_spec (qs : Fin NUM_QUESTIONS → Int) (l : List (Fin NUM_QUESTIONS))
    (b : Bool) :
    (∀ q, (scan_questions qs l b).1 = some q →
      q ∈ l ∧ qs q = 0 ∧ (scan_questions qs l b).2.2 = Function.update qs q 1) ∧
    ((scan_questions qs l b).1 = none →
      (scan_questions qs l b).2.2 = qs ∧ (∀ q ∈ l, qs q ≠ 0) ∧
      ((scan_questions qs l b).2.1 = true → b = true ∧ ∀ q ∈ l, qs q = 2)) := by
  induction l generalizing b with
  | nil => simp [scan_questions]
  | cons i rest ih =>
    by_cases h0 : qs i = 0
    · simp [scan_questions, h0]
    · obtain ⟨ih1, ih2⟩ := ih (if qs i ≠ 2 then false else b)
      simp only [scan_questions, h0, if_false]
      refine ⟨fun q hq => ?_, fun hn => ?_⟩
      · obtain ⟨a1, a2, a3⟩ := ih1 q hq
        exact ⟨List.mem_cons_of_mem _ a1, a2, a3⟩
      · obtain ⟨a1, a2, a3⟩ := ih2 hn
        refine ⟨a1, ?_, fun ht => ?_⟩
        · intro q hq
          rcases List.mem_cons.mp hq with hq | hq
          · rw [hq]; exact h0
          · exact a2 q hq
        · obtain ⟨b1, b2⟩ := a3 ht
          by_cases h2 : qs i = 2
          · simp [h2] at b1
            refine ⟨b1, fun q hq => ?_⟩
            rcases List.mem_cons.mp hq with hq | hq
            · rw [hq]; exact h2
            · exact b2 q hq
          · simp [h2] at b1

/-- The scan-and-claim critical section when it claims question `q`: the slot
was not started, it alone changes, to 1, and `exam_done` is left alone. -/
theorem claim_section_some (sh : SharedArea) (q : Fin NUM_QUESTIONS)
    (h : (claim_section sh).1 = some q) :
    sh.question_state q = 0 ∧
    (claim_section sh).2.2.question_state = Function.update sh.question_state q 1 ∧
    (claim_section sh).2.2.exam_done = sh.exam_done := by
  have hs := (scan_questions_spec sh.question_state (List.finRange NUM_QUESTIONS) true).1 q
  simp only [claim_section] at h ⊢
  obtain ⟨_, h2, h3⟩ := hs h
  exact ⟨h2, h3, by simp [h]⟩

/-- The scan-and-claim critical section when it claims nothing: no slot
changes and none was not started; `exam_done` is raised exactly when
`all_done` is returned, and then every slot is done. -/
theorem claim_section_none (sh : SharedArea) (h : (claim_section sh).1 = none) :
    (claim_section sh).2.2.question_state = sh.question_state ∧
    (∀ q, sh.question_state q ≠ 0) ∧
    ((claim_section sh).2.1 = true →
      (∀ q, sh.question_state q = 2) ∧ (claim_section sh).2.2.exam_done = 1) ∧
    ((claim_section sh).2.1 = false → (claim_section sh).2.2.exam_done = sh.exam_done) := by
  have hs := (scan_questions_spec sh.question_state (List.finRange NUM_QUESTIONS) true).2
  simp only [claim_section] at h ⊢
  obtain ⟨h1, h2, h3⟩ := hs h
  refine ⟨h1, fun q => h2 q (List.mem_finRange q), fun ht => ?_, fun hf => ?_⟩
  · exact ⟨fun q => (h3 ht).2 q (List.mem_finRange q), by simp [h, ht]⟩
  · simp [hf]

theorem load_exam_cases_B (env : Env) (idx : Int) (sh : SharedArea) (out : List LogLine) :
    ((B.load_exam env idx sh out).1 = -1 ∧
      (B.load_exam env idx sh out).2.1.question_state = sh.question_state ∧
      (B.load_exam env idx sh out).2.1.exam_done = sh.exam_done) ∨
    ((B.load_exam env idx sh out).1 = 0 ∧
      (∀ q, (B.load_exam env idx sh out).2.1.question_state q = 0) ∧
      (B.load_exam env idx sh out).2.1.exam_done = 0) := by
  cases hrec : env.exam_dir idx with
  | none => simp [load_exam_missing_B env idx sh out (Or.inl hrec)]
  | some rec =>
    by_cases hne : rec = []
    · subst hne; simp [load_exam_missing_B env idx sh out (Or.inr hrec)]
    · obtain ⟨h0, ⟨h1, h2, _⟩, _⟩ := load_exam_found_B env idx sh out rec hrec hne
      exact Or.inr ⟨h0, h1, h2⟩

theorem next_review_not_holding (a q : Fin NUM_QUESTIONS) :
    B.next_review a ≠ B.TaPc.read_rubric q ∧ B.next_review a ≠ B.TaPc.log_marking q ∧
    B.next_review a ≠ B.TaPc.set_done q := by
  unfold B.next_review
  split <;> simp

/-- The four kinds of step of an assistant of variant B, as far as the
question states, `exam_done` and the claims are concerned: a step that
touches none of them, a claim, the raising of `exam_done`, and the marking of
the claimed question as done. -/
theorem ta_step_cases_B (i : Nat) (c : Bool) (s s1 : B.Sys) (h : B.ta_step i c s = some s1) :
    s1.parent = s.parent ∧ (∀ j, j ≠ i → s1.ta j = s.ta j) ∧
    ((s1.sh.question_state = s.sh.question_state ∧ s1.sh.exam_done = s.sh.exam_done ∧
        (∀ q, B.holds s1 i q ↔ B.holds s i q) ∧
        (∀ q, (claim_section s.sh).1 = some q → s.ta i ≠ B.TaPc.scan)) ∨
      (∃ q, s.ta i = B.TaPc.scan ∧ (claim_section s.sh).1 = some q ∧
        s1.ta i = B.TaPc.read_rubric q ∧ s1.sh = (claim_section s.sh).2.2) ∨
      (s.ta i = B.TaPc.scan ∧ (claim_section s.sh).1 = none ∧
        (claim_section s.sh).2.1 = true ∧ s1.ta i = B.TaPc.log_all_done ∧
        s1.sh = (claim_section s.sh).2.2) ∨
      (∃ q, s.ta i = B.TaPc.set_done q ∧ s1.ta i = B.TaPc.log_finished q ∧
        s1.sh.question_state = Function.update s.sh.question_state q 2 ∧
        s1.sh.exam_done = s.sh.exam_done)) := by
  unfold B.ta_step at h
  split at h
  case h_14 hpc =>
    simp only [Option.some.injEq] at h
    subst h
    refine ⟨rfl, fun j hj => by simp [Function.update, hj], ?_⟩
    cases hq : (claim_section s.sh).1 with
    | some q =>
      right; left
      exact ⟨q, hpc, rfl, by simp [B.after_scan], rfl⟩
    | none =>
      cases hb : (claim_section s.sh).2.1 with
      | true =>
        right; right; left
        exact ⟨hpc, rfl, rfl, by simp [B.after_scan], rfl⟩
      | false =>
        left
        obtain ⟨h1, _, _, h4⟩ := claim_section_none s.sh hq
        refine ⟨h1, h4 hb, fun q => ?_, fun q hq' => by simp at hq'⟩
        simp [B.holds, hpc, B.after_scan]
  case h_18 q hpc =>
    simp only [Option.some.injEq] at h
    subst h
    refine ⟨rfl, fun j hj => by simp [Function.update, hj], ?_⟩
    right; right; right
    exact ⟨q, hpc, by simp, rfl, rfl⟩
  all_goals (try split at h)
  all_goals (try simp at h)
  all_goals
    subst h
    refine ⟨by simp [B.Sys.log_ta, B.Sys.goto], fun j hj => by simp [B.Sys.log_ta, B.Sys.goto, Function.update, hj], ?_⟩
    left
    simp_all [B.Sys.log_ta, B.log_ta, B.Sys.goto, correct_rubric, B.holds, next_review_not_holding]

/-- The two kinds of step of the parent of variant B, as far as the question
states and `exam_done` are concerned: a successful `load_exam`, which resets
them, and a step that leaves the question states alone and can only lower
`exam_done`. -/
theorem parent_step_cases_B (env : Env) (w : Bool) (s s1 : B.Sys)
    (h : B.parent_step env w s = some s1) :
    s1.ta = s.ta ∧
    ((s.parent = B.ParentPc.load ∧ s1.parent = B.ParentPc.reset_exam_done ∧
        (∀ q, s1.sh.question_state q = 0) ∧ s1.sh.exam_done = 0) ∨
      (s1.sh.question_state = s.sh.question_state ∧
        (s1.sh.exam_done = s.sh.exam_done ∨ s1.sh.exam_done = 0) ∧
        (s1.parent = B.ParentPc.check_advance true → s.sh.exam_done ≠ 0) ∧
        (s1.parent = B.ParentPc.load → s.parent = B.ParentPc.check_advance true))) := by
  have hl := load_exam_cases_B env (s.exam_index + 1) s.sh s.stdio_parent
  unfold B.parent_step at h
  split at h
  case h_4 hpc =>
    simp only [Option.some.injEq] at h
    subst h
    refine ⟨rfl, ?_⟩
    rcases hl with ⟨h1, h2, h3⟩ | ⟨h1, h2, h3⟩
    · right
      simp [h1, h2, h3]
    · left
      simp [h1, h2, h3, hpc]
  all_goals (try split at h)
  all_goals (try simp at h)
  all_goals
    subst h
    refine ⟨by simp [B.Sys.log_parent], ?_⟩
    right
    simp_all [B.Sys.log_parent, B.log_parent]

theorem step_claim_inv (env : Env) (s s1 : B.Sys) (l : B.Label)
    (h : B.step env s l = some s1) (hinv : B.claim_inv s) : B.claim_inv s1 := by
  obtain ⟨i1, i2, i3⟩ := hinv
  cases l with
  | parent w =>
    obtain ⟨hta, hc⟩ := parent_step_cases_B env w s s1 h
    have hh : ∀ j q, B.holds s1 j q ↔ B.holds s j q := fun j q => by simp [B.holds, hta]
    rcases hc with ⟨hpc, hpc1, hq, hd⟩ | ⟨hq, hd, ha, hb⟩
    · have hall := i3 (Or.inr (Or.inr hpc))
      refine ⟨fun j q hj => ?_, fun j k q hj hk => i2 j k q ((hh j q).1 hj) ((hh k q).1 hk), ?_⟩
      · have := i1 j q ((hh j q).1 hj)
        rw [hall q] at this
        exact absurd this (by decide)
      · intro hp
        rcases hp with hp | hp | hp
        · exact absurd hd hp
        · rw [hpc1] at hp; exact B.ParentPc.noConfusion hp
        · rw [hpc1] at hp; exact B.ParentPc.noConfusion hp
    · refine ⟨fun j q hj => by rw [hq]; exact i1 j q ((hh j q).1 hj),
        fun j k q hj hk => i2 j k q ((hh j q).1 hj) ((hh k q).1 hk), ?_⟩
      intro hp
      rw [hq]
      apply i3
      rcases hp with hp | hp | hp
      · rcases hd with hd | hd
        · exact Or.inl (hd ▸ hp)
        · exact absurd hd hp
      · exact Or.inl (ha hp)
      · exact Or.inr (Or.inl (hb hp))
  | ta i c =>
    simp only [B.step] at h
    split at h
    swap
    · simp at h
    obtain ⟨hpar, hoth, hc⟩ := ta_step_cases_B i c s s1 h
    have hho : ∀ j q, j ≠ i → (B.holds s1 j q ↔ B.holds s j q) :=
      fun j q hj => by simp [B.holds, hoth j hj]
    rcases hc with ⟨hq, hd, hhi, _⟩ | ⟨q, hpc, hcl, hpc1, hsh⟩ | ⟨hpc, hcl, hb, hpc1, hsh⟩ |
      ⟨q, hpc, hpc1, hq, hd⟩
    · -- a step that touches neither the question states nor the claims
      have hh : ∀ j q, B.holds s1 j q ↔ B.holds s j q := fun j q => by
        by_cases hj : j = i
        · subst hj; exact hhi q
        · exact hho j q hj
      refine ⟨fun j q hj => by rw [hq]; exact i1 j q ((hh j q).1 hj),
        fun j k q hj hk => i2 j k q ((hh j q).1 hj) ((hh k q).1 hk), ?_⟩
      intro hp
      rw [hq]
      apply i3
      rw [hd, hpar] at hp
      exact hp
    · -- a claim of question q
      obtain ⟨h0, hqs, hdone⟩ := claim_section_some s.sh q hcl
      have hnot : ∀ j, ¬ B.holds s j q := fun j hj => by
        have := i1 j q hj
        rw [h0] at this
        exact absurd this (by decide)
      have hi : ∀ q1, B.holds s1 i q1 ↔ q1 = q := fun q1 => by
        simp [B.holds, hpc1, eq_comm]
      refine ⟨fun j q1 hj => ?_, fun j k q1 hj hk => ?_, ?_⟩
      · rw [hsh, hqs]
        by_cases hji : j = i
        · subst hji
          rw [(hi q1).1 hj]; simp
        · have hjs := (hho j q1 hji).1 hj
          have hne : q1 ≠ q := fun e => hnot j (e ▸ hjs)
          simp [Function.update, hne]
          exact i1 j q1 hjs
      · by_cases hji : j = i
        · by_cases hki : k = i
          · rw [hji, hki]
          · exfalso
            subst hji
            have e := (hi q1).1 hj
            exact hnot k (e ▸ (hho k q1 hki).1 hk)
        · by_cases hki : k = i
          · exfalso
            subst hki
            have e := (hi q1).1 hk
            exact hnot j (e ▸ (hho j q1 hji).1 hj)
          · exact i2 j k q1 ((hho j q1 hji).1 hj) ((hho k q1 hki).1 hk)
      · intro hp
        rw [hsh, hdone, hpar] at hp
        have := i3 hp q
        rw [h0] at this
        exact absurd this (by decide)
    · -- the raising of exam_done
      obtain ⟨hqs, _, hall, _⟩ := claim_section_none s.sh hcl
      have hi : ∀ q1, ¬ B.holds s1 i q1 := fun q1 => by simp [B.holds, hpc1]
      refine ⟨fun j q1 hj => ?_, fun j k q1 hj hk => ?_, ?_⟩
      · rw [hsh, hqs]
        by_cases hji : j = i
        · subst hji; exact absurd hj (hi q1)
        · exact i1 j q1 ((hho j q1 hji).1 hj)
      · by_cases hji : j = i
        · subst hji; exact absurd hj (hi q1)
        · by_cases hki : k = i
          · subst hki; exact absurd hk (hi q1)
          · exact i2 j k q1 ((hho j q1 hji).1 hj) ((hho k q1 hki).1 hk)
      · intro _ q1
        rw [hsh, hqs]
        exact (hall hb).1 q1
    · -- the marking of question q as done
      have hiq : B.holds s i q := Or.inr (Or.inr hpc)
      have hi : ∀ q1, ¬ B.holds s1 i q1 := fun q1 => by simp [B.holds, hpc1]
      refine ⟨fun j q1 hj => ?_, fun j k q1 hj hk => ?_, ?_⟩
      · by_cases hji : j = i
        · subst hji; exact absurd hj (hi q1)
        · have hjs := (hho j q1 hji).1 hj
          have hne : q1 ≠ q := fun e => hji (i2 j i q (e ▸ hjs) hiq)
          rw [hq]
          simp [Function.update, hne]
          exact i1 j q1 hjs
      · by_cases hji : j = i
        · subst hji; exact absurd hj (hi q1)
        · by_cases hki : k = i
          · subst hki; exact absurd hk (hi q1)
          · exact i2 j k q1 ((hho j q1 hji).1 hj) ((hho k q1 hki).1 hk)
      · intro hp q1
        rw [hd, hpar] at hp
        rw [hq]
        by_cases hne : q1 = q
        · subst hne; simp
        · simp [Function.update, hne]
          exact i3 hp q1

theorem load_rubric_loop_frame (n : Nat) (f : List Int) (sh : SharedArea) :
    (load_rubric_loop n f sh).2.question_state = sh.question_state ∧
    (load_rubric_loop n f sh).2.exam_done = sh.exam_done ∧
    (load_rubric_loop n f sh).2.terminate = sh.terminate ∧
    (load_rubric_loop n f sh).2.rubric_dirty = sh.rubric_dirty ∧
    (load_rubric_loop n f sh).2.log_counter = sh.log_counter ∧
    (load_rubric_loop n f sh).2.student_id = sh.student_id := by
  induction n generalizing f sh with
  | zero => simp [load_rubric_loop]
  | succ n ih =>
    unfold load_rubric_loop
    split
    · simp
    · split
      · simp
      · split
        · simp
        · exact ih _ _

theorem load_rubric_frame (file : Option (List Int)) (sh : SharedArea) :
    (load_rubric file sh).2.exam_done = sh.exam_done := by
  cases file with
  | none => rfl
  | some f => exact (load_rubric_loop_frame NUM_QUESTIONS f sh).2.1

theorem init_claim_inv (env : Env) : B.claim_inv (B.init env) := by
  refine ⟨fun i q h => ?_, fun i j q h => ?_, fun h => ?_⟩
  · simp [B.holds, B.init] at h
  · simp [B.holds, B.init] at h
  · exfalso
    have hz : (load_rubric env.rubric_file SharedArea.zeroed).2.exam_done = 0 :=
      load_rubric_frame env.rubric_file SharedArea.zeroed
    have hd : (B.init env).sh.exam_done = 0 := by
      rcases load_exam_cases_B env 1 (load_rubric env.rubric_file SharedArea.zeroed).2 []
        with ⟨_, _, h3⟩ | ⟨_, _, h3⟩
      · simp only [B.init]; rw [h3, hz]
      · simp only [B.init]; exact h3
    rcases h with h | h | h
    · exact h hd
    · simp [B.init] at h
    · simp [B.init] at h

theorem exec_claim_inv (env : Env) (ls : List B.Label) (s : B.Sys)
    (hinv : B.claim_inv s) : B.claim_inv (B.exec env s ls) := by
  induction ls generalizing s with
  | nil => exact hinv
  | cons l ls ih =>
    simp only [B.exec]
    apply ih
    cases hs : B.step env s l with
    | none => simpa using hinv
    | some s1 => simpa using step_claim_inv env s s1 l hs hinv

theorem is_claim_spec (env : Env) (s : B.Sys) (l : B.Label) (q : Fin NUM_QUESTIONS) :
    B.is_claim env s l q = true ↔
      ∃ i c, l = B.Label.ta i c ∧ i < env.num_TAs ∧ s.ta i = B.TaPc.scan ∧
        (claim_section s.sh).1 = some q := by
  cases l with
  | parent w => simp [B.is_claim]
  | ta i c => simp [B.is_claim, and_assoc]

theorem is_load_spec (s : B.Sys) (l : B.Label) :
    B.is_load s l = true ↔ ∃ w, l = B.Label.parent w ∧ s.parent = B.ParentPc.load := by
  cases l with
  | parent w => simp [B.is_load]
  | ta i c => simp [B.is_load]

/-- Only `load_exam` brings a question back to not started. -/
theorem step_keeps_started (env : Env) (s s1 : B.Sys) (l : B.Label)
    (h : B.step env s l = some s1) (hnl : B.is_load s l = false) (q : Fin NUM_QUESTIONS)
    (hq : s.sh.question_state q ≠ 0) : s1.sh.question_state q ≠ 0 := by
  cases l with
  | parent w =>
    obtain ⟨_, hc⟩ := parent_step_cases_B env w s s1 h
    rcases hc with ⟨hpc, _⟩ | ⟨hqs, _⟩
    · simp [B.is_load, hpc] at hnl
    · rw [hqs]; exact hq
  | ta i c =>
    simp only [B.step] at h
    split at h
    swap
    · simp at h
    obtain ⟨_, _, hc⟩ := ta_step_cases_B i c s s1 h
    rcases hc with ⟨hqs, _⟩ | ⟨q1, _, hcl, _, hsh⟩ | ⟨_, hcl, _, _, hsh⟩ | ⟨q1, _, _, hqs, _⟩
    · rw [hqs]; exact hq
    · rw [hsh, (claim_section_some s.sh q1 hcl).2.1]
      by_cases e : q = q1
      · subst e; simp
      · simp [Function.update, e]; exact hq
    · rw [hsh, (claim_section_none s.sh hcl).1]; exact hq
    · rw [hqs]
      by_cases e : q = q1
      · subst e; simp
      · simp [Function.update, e]; exact hq

theorem claims_zero_of_started (env : Env) (q : Fin NUM_QUESTIONS) (ls : List B.Label)
    (s : B.Sys) (hq : s.sh.question_state q ≠ 0) : B.claims_before_load env q s ls = 0 := by
  induction ls generalizing s with
  | nil => rfl
  | cons l ls ih =>
    simp only [B.claims_before_load]
    cases hl : B.is_load s l with
    | true => simp
    | false =>
      have hnc : B.is_claim env s l q = false := by
        cases hc : B.is_claim env s l q with
        | false => rfl
        | true =>
          obtain ⟨i, c, _, _, _, hcl⟩ := (is_claim_spec env s l q).1 hc
          exact absurd (claim_section_some s.sh q hcl).1 hq
      have hnext : ((B.step env s l).getD s).sh.question_state q ≠ 0 := by
        cases hs : B.step env s l with
        | none => simpa using hq
        | some s1 => simpa using step_keeps_started env s s1 l hs hl q hq
      simp [hnc, ih _ hnext]

theorem claims_le_one (env : Env) (q : Fin NUM_QUESTIONS) (ls : List B.Label) (s : B.Sys) :
    B.claims_before_load env q s ls ≤ 1 := by
  induction ls generalizing s with
  | nil => simp [B.claims_before_load]
  | cons l ls ih =>
    simp only [B.claims_before_load]
    cases hl : B.is_load s l with
    | true => simp
    | false =>
      cases hc : B.is_claim env s l q with
      | false => simpa [hl, hc] using ih _
      | true =>
        obtain ⟨i, c, hlab, hi, hpc, hcl⟩ := (is_claim_spec env s l q).1 hc
        have hnext : ((B.step env s l).getD s).sh.question_state q ≠ 0 := by
          subst hlab
          simp [B.step, hi, B.ta_step, hpc, (claim_section_some s.sh q hcl).2.1]
        simp [hl, hc, claims_zero_of_started env q ls _ hnext]

/-- C1. Variant B, any number of assistants, every critical section and
every `load_exam` one atomic step.  In every state reachable from the start
of the parent loop: an assistant holds a question only while its slot is 1,
and no two assistants hold the same question; a step that takes a slot from 0
to another value is a scan-and-claim critical section of an assistant, it
leaves the slot at 1 and that assistant holding the question; an assistant
comes to hold a question only by its own scan-and-claim step; a step that
takes a slot from 1 to 2 is taken by the assistant that holds the question;
and in the run of any schedule from that state, up to the next `load_exam`,
each question is claimed at most once. -/
theorem claim_protocol (env : Env) (ls : List B.Label) (s : B.Sys)
    (hs : B.exec env (B.init env) ls = s) :
    (∀ i q, B.holds s i q → s.sh.question_state q = 1) ∧
    (∀ i j q, B.holds s i q → B.holds s j q → i = j) ∧
    (∀ l s1 q, B.step env s l = some s1 → s.sh.question_state q = 0 →
      s1.sh.question_state q ≠ 0 →
      B.is_claim env s l q = true ∧ s1.sh.question_state q = 1 ∧
        ∃ i c, l = B.Label.ta i c ∧ B.holds s1 i q) ∧
    (∀ l s1 i q, B.step env s l = some s1 → ¬ B.holds s i q → B.holds s1 i q →
      B.is_claim env s l q = true ∧ ∃ c, l = B.Label.ta i c) ∧
    (∀ l s1 q, B.step env s l = some s1 → s.sh.question_state q = 1 →
      s1.sh.question_state q = 2 → ∃ i c, l = B.Label.ta i c ∧ B.holds s i q) ∧
    (∀ q more, B.claims_before_load env q s more ≤ 1) := by
  have hinv : B.claim_inv s := hs ▸ exec_claim_inv env ls (B.init env) (init_claim_inv env)
  obtain ⟨i1, i2, i3⟩ := hinv
  refine ⟨i1, i2, ?_, ?_, ?_, fun q more => claims_le_one env q more s⟩
  · intro l s1 q h h0 h1
    cases l with
    | parent w =>
      exfalso
      obtain ⟨_, hc⟩ := parent_step_cases_B env w s s1 h
      rcases hc with ⟨_, _, hq, _⟩ | ⟨hqs, _⟩
      · exact h1 (hq q)
      · rw [hqs] at h1; exact h1 h0
    | ta i c =>
      simp only [B.step] at h
      split at h
      swap
      · simp at h
      next hi =>
      obtain ⟨_, _, hc⟩ := ta_step_cases_B i c s s1 h
      rcases hc with ⟨hqs, _⟩ | ⟨q1, hpc, hcl, hpc1, hsh⟩ | ⟨_, hcl, _, _, hsh⟩ |
        ⟨q1, hpc, _, hqs, _⟩
      · rw [hqs] at h1; exact absurd h0 h1
      · have hqs := (claim_section_some s.sh q1 hcl).2.1
        have e : q = q1 := by
          by_contra e
          rw [hsh, hqs] at h1
          simp [Function.update, e] at h1
          exact h1 h0
        subst e
        refine ⟨(is_claim_spec env s _ q).2 ⟨i, c, rfl, hi, hpc, hcl⟩, ?_, i, c, rfl, Or.inl hpc1⟩
        rw [hsh, hqs]; simp
      · rw [hsh, (claim_section_none s.sh hcl).1] at h1; exact absurd h0 h1
      · exfalso
        have e : q = q1 := by
          by_contra e
          rw [hqs] at h1
          simp [Function.update, e] at h1
          exact h1 h0
        subst e
        have := i1 i q (Or.inr (Or.inr hpc))
        rw [h0] at this
        exact absurd this (by decide)
  · intro l s1 i q h hn hy
    cases l with
    | parent w =>
      exfalso
      obtain ⟨hta, _⟩ := parent_step_cases_B env w s s1 h
      exact hn (by simpa [B.holds, hta] using hy)
    | ta j c =>
      simp only [B.step] at h
      split at h
      swap
      · simp at h
      next hj =>
      obtain ⟨_, hoth, hc⟩ := ta_step_cases_B j c s s1 h
      by_cases hij : i = j
      swap
      · exfalso
        exact hn (by simpa [B.holds, hoth i hij] using hy)
      subst hij
      rcases hc with ⟨_, _, hh, _⟩ | ⟨q1, hpc, hcl, hpc1, _⟩ | ⟨_, _, _, hpc1, _⟩ |
        ⟨q1, _, hpc1, _, _⟩
      · exact absurd ((hh q).1 hy) hn
      · have e : q1 = q := by simpa [B.holds, hpc1] using hy
        subst e
        exact ⟨(is_claim_spec env s _ q1).2 ⟨i, c, rfl, hj, hpc, hcl⟩, c, rfl⟩
      · simp [B.holds, hpc1] at hy
      · simp [B.holds, hpc1] at hy
  · intro l s1 q h h1 h2
    cases l with
    | parent w =>
      exfalso
      obtain ⟨_, hc⟩ := parent_step_cases_B env w s s1 h
      rcases hc with ⟨_, _, hq, _⟩ | ⟨hqs, _⟩
      · rw [hq q] at h2; exact absurd h2 (by decide)
      · rw [hqs, h1] at h2; exact absurd h2 (by decide)
    | ta i c =>
      simp only [B.step] at h
      split at h
      swap
      · simp at h
      obtain ⟨_, _, hc⟩ := ta_step_cases_B i c s s1 h
      rcases hc with ⟨hqs, _⟩ | ⟨q1, hpc, hcl, hpc1, hsh⟩ | ⟨_, hcl, _, _, hsh⟩ |
        ⟨q1, hpc, _, hqs, _⟩
      · rw [hqs, h1] at h2; exact absurd h2 (by decide)
      · exfalso
        rw [hsh, (claim_section_some s.sh q1 hcl).2.1] at h2
        by_cases e : q = q1
        · subst e; simp at h2
        · simp [Function.update, e, h1] at h2
      · rw [hsh, (claim_section_none s.sh hcl).1, h1] at h2; exact absurd h2 (by decide)
      · have e : q = q1 := by
          by_contra e
          rw [hqs] at h2
          simp [Function.update, e, h1] at h2
        subst e
        exact ⟨i, c, rfl, Or.inr (Or.inr hpc)⟩

theorem claim_protocol_witness :
    B.startup_ok env_two = true ∧
    B.holds (B.exec env_two (B.init env_two) sched_claim) 0 0 ∧
    ((∀ i q, B.holds (B.exec env_two (B.init env_two) sched_claim) i q →
      (B.exec env_two (B.init env_two) sched_claim).sh.question_state q = 1) ∧
    (∀ i j q, B.holds (B.exec env_two (B.init env_two) sched_claim) i q →
      B.holds (B.exec env_two (B.init env_two) sched_claim) j q → i = j)) :=
  ⟨by decide, by decide,
   (claim_protocol env_two sched_claim (B.exec env_two (B.init env_two) sched_claim) rfl).1,
   (claim_protocol env_two sched_claim (B.exec env_two (B.init env_two) sched_claim) rfl).2.1⟩

/-- C9. Variant B, every critical section on `mutex_rubric` one atomic step,
`save_rubric` free to fail, the rubric file holding at the start the text of
the rubric in memory.  In every reachable state in which `rubric_dirty` is
false the file holds the text of the rubric in memory, and the only rubric
whose text it holds is that one; a step that takes `rubric_dirty` from true
to false is the successful save of the parent, which leaves the rubric as it
is and the file holding its text; and a step that changes the rubric leaves
`rubric_dirty` true. -/
theorem rubric_file_follows_rubric (env : Env) (ls : List B.Label) (s : B.Sys)
    (hfile : env.rubric_file = some (rubric_text (B.init env).sh.rubric))
    (hs : B.exec env (B.init env) ls = s) :
    (s.sh.rubric_dirty = 0 → s.rubric_file = some (rubric_text s.sh.rubric)) ∧
    (∀ r, s.sh.rubric_dirty = 0 → s.rubric_file = some (rubric_text r) → r = s.sh.rubric) ∧
    (∀ l s1, B.step env s l = some s1 → s.sh.rubric_dirty ≠ 0 → s1.sh.rubric_dirty = 0 →
      l = B.Label.parent true ∧ s.parent = B.ParentPc.save ∧ s1.sh.rubric = s.sh.rubric ∧
        s1.rubric_file = some (rubric_text s1.sh.rubric)) ∧
    (∀ l s1, B.step env s l = some s1 → s1.sh.rubric ≠ s.sh.rubric →
      s1.sh.rubric_dirty ≠ 0) := by
  have h0 : B.file_current (B.init env) := fun _ => hfile
  have hinv : B.file_current s := hs ▸ exec_file_current env ls (B.init env) h0
  refine ⟨hinv, fun r hd hr => ?_, ?_, ?_⟩
  · have := hinv hd
    rw [hr] at this
    exact rubric_text_injective r s.sh.rubric (Option.some.inj this)
  · intro l s1 h hd hd1
    cases l with
    | parent w =>
      obtain ⟨h1, h2⟩ := parent_step_rubric_B env w s s1 h
      rcases h2 with ⟨hdd, _⟩ | ⟨hw, hpc, _, hf⟩
      · rw [hdd] at hd1; exact absurd hd1 hd
      · exact ⟨by rw [hw], hpc, h1, by rw [hf, h1]⟩
    | ta i c =>
      exfalso
      simp only [B.step] at h
      split at h
      swap
      · simp at h
      obtain ⟨_, h2⟩ := ta_step_rubric_B i c s s1 h
      rcases h2 with ⟨_, hdd⟩ | hdd
      · rw [hdd] at hd1; exact hd hd1
      · rw [hdd] at hd1; exact absurd hd1 (by decide)
  · intro l s1 h hr
    cases l with
    | parent w => exact absurd (parent_step_rubric_B env w s s1 h).1 hr
    | ta i c =>
      simp only [B.step] at h
      split at h
      swap
      · simp at h
      obtain ⟨_, h2⟩ := ta_step_rubric_B i c s s1 h
      rcases h2 with ⟨hrr, _⟩ | hdd
      · exact absurd hrr hr
      · rw [hdd]; decide

theorem rubric_file_follows_rubric_witness :
    B.startup_ok env_two = true ∧
    env_two.rubric_file = some (rubric_text (B.init env_two).sh.rubric) ∧
    (B.exec env_two (B.init env_two) sched_edit_save).sh.rubric_dirty = 0 ∧
    (B.exec env_two (B.init env_two) sched_edit_save).sh.rubric 0 = 66 ∧
    (B.exec env_two (B.init env_two) sched_edit_save).rubric_file =
      some (rubric_text (B.exec env_two (B.init env_two) sched_edit_save).sh.rubric) :=
  ⟨by decide, by decide, by decide, by decide,
   (rubric_file_follows_rubric env_two sched_edit_save
      (B.exec env_two (B.init env_two) sched_edit_save) (by decide) rfl).1 (by decide)⟩

/-! ## The log of variant B -/

theorem log_ok_append (sh : SharedArea) (out : List LogLine) (who : Option Int)
    (h : log_ok sh out) :
    log_ok { sh with log_counter := sh.log_counter + 1 } (out ++ [⟨sh.log_counter, who⟩]) := by
  obtain ⟨h1, h2⟩ := h
  refine ⟨?_, by simp [h2]⟩
  simp [List.range_succ, h1, h2]

theorem log_parent_ok (sh : SharedArea) (out : List LogLine) (h : log_ok sh out) :
    log_ok (B.log_parent sh out).1 (B.log_parent sh out).2 :=
  log_ok_append sh out none h

theorem log_ta_ok (i : Int) (sh : SharedArea) (out : List LogLine) (h : log_ok sh out) :
    log_ok (B.log_ta i sh out).1 (B.log_ta i sh out).2 :=
  log_ok_append sh out (some i) h

theorem log_ok_congr (sh sh1 : SharedArea) (out : List LogLine)
    (hc : sh1.log_counter = sh.log_counter) (h : log_ok sh out) : log_ok sh1 out :=
  ⟨h.1, hc ▸ h.2⟩

theorem load_exam_log_ok (env : Env) (idx : Int) (sh : SharedArea) (out : List LogLine)
    (h : log_ok sh out) :
    log_ok (B.load_exam env idx sh out).2.1 (B.load_exam env idx sh out).2.2 := by
  unfold B.load_exam
  split
  · exact log_ok_congr sh _ out rfl h
  · split
    · exact log_ok_congr sh _ out rfl h
    · simp only
      split
      · exact log_ok_congr _ _ _ rfl
          (log_parent_ok _ _ (log_ok_congr _ _ _ rfl
            (log_parent_ok _ out (log_ok_congr sh _ out rfl h))))
      · exact log_ok_congr _ _ _ rfl (log_parent_ok _ out (log_ok_congr sh _ out rfl h))

/-- The buffer handed to `load_exam` only receives lines at its end: the
return value, the area and the lines added do not depend on it. -/
theorem load_exam_buf_B (env : Env) (idx : Int) (sh : SharedArea) (buf : List LogLine) :
    (B.load_exam env idx sh buf).1 = (B.load_exam env idx sh []).1 ∧
    (B.load_exam env idx sh buf).2.1 = (B.load_exam env idx sh []).2.1 ∧
    (B.load_exam env idx sh buf).2.2 = buf ++ (B.load_exam env idx sh []).2.2 := by
  cases he : env.exam_dir idx with
  | none => simp [B.load_exam, he]
  | some f =>
    cases hf : fgets 256 f with
    | none => simp [B.load_exam, he, hf]
    | some p =>
      obtain ⟨line, rest⟩ := p
      by_cases hsent :
          is_sentinel (copy_student_id (line_buffer (env.line_garbage idx) line)) = true
      · simp [B.load_exam, he, hf, B.log_parent, hsent]
      · simp [B.load_exam, he, hf, B.log_parent, hsent]

/-- With line buffering and empty buffers, a step of an assistant of
variant B leaves the buffers empty, and either leaves counter and output
alone or is one call of `log_ta` that writes its line. -/
theorem ta_step_log_B (i : Nat) (c : Bool) (s s1 : B.Sys) (h : B.ta_step i c s = some s1)
    (htty : s.stdout_tty = true) (hb : ∀ j, s.stdio_ta j = []) :
    s1.stdout_tty = true ∧ s1.stdio_parent = s.stdio_parent ∧ (∀ j, s1.stdio_ta j = []) ∧
    ((s1.sh.log_counter = s.sh.log_counter ∧ s1.out = s.out) ∨
      (s1.sh = (B.log_ta i s.sh s.out).1 ∧ s1.out = (B.log_ta i s.sh s.out).2)) := by
  unfold B.ta_step at h
  split at h
  all_goals (try split at h)
  all_goals (try simp at h)
  all_goals
    subst h
    simp [B.Sys.log_ta, B.log_ta, B.Sys.goto, B.stdio_line, htty, hb, correct_rubric,
      claim_section_frame, Function.update_apply]

/-- With line buffering and empty buffers, a step of the parent of variant B
leaves the buffers empty, and either leaves counter and output alone, or is
one call of `log_parent` that writes its line, or is the call of `load_exam`
whose lines are written. -/
theorem parent_step_log_B (env : Env) (w : Bool) (s s1 : B.Sys)
    (h : B.parent_step env w s = some s1)
    (htty : s.stdout_tty = true) (hp : s.stdio_parent = []) :
    s1.stdout_tty = true ∧ s1.stdio_parent = [] ∧ s1.stdio_ta = s.stdio_ta ∧
    ((s1.sh.log_counter = s.sh.log_counter ∧ s1.out = s.out) ∨
      (s1.sh = (B.log_parent s.sh s.out).1 ∧ s1.out = (B.log_parent s.sh s.out).2) ∨
      (s1.sh = (B.load_exam env (s.exam_index + 1) s.sh s.out).2.1 ∧
        s1.out = (B.load_exam env (s.exam_index + 1) s.sh s.out).2.2)) := by
  have hl := load_exam_buf_B env (s.exam_index + 1) s.sh s.out
  unfold B.parent_step at h
  split at h
  all_goals (try split at h)
  all_goals (try simp at h)
  all_goals
    subst h
    simp [B.Sys.log_parent, B.log_parent, B.stdio_line, htty, hp, hl]

theorem step_log_inv (env : Env) (s s1 : B.Sys) (l : B.Label)
    (h : B.step env s l = some s1) (hinv : B.log_inv s) : B.log_inv s1 := by
  obtain ⟨htty, hp, hb, hok⟩ := hinv
  cases l with
  | parent w =>
    obtain ⟨h1, h2, h3, h4⟩ := parent_step_log_B env w s s1 h htty hp
    refine ⟨h1, h2, fun j => by rw [h3]; exact hb j, ?_⟩
    rcases h4 with ⟨e1, e2⟩ | ⟨e1, e2⟩ | ⟨e1, e2⟩
    · rw [e2]; exact log_ok_congr s.sh s1.sh s.out e1 hok
    · rw [e1, e2]; exact log_parent_ok s.sh s.out hok
    · rw [e1, e2]; exact load_exam_log_ok env _ s.sh s.out hok
  | ta i c =>
    simp only [B.step] at h
    split at h
    swap
    · simp at h
    obtain ⟨h1, h2, h3, h4⟩ := ta_step_log_B i c s s1 h htty hb
    refine ⟨h1, by rw [h2]; exact hp, h3, ?_⟩
    rcases h4 with ⟨e1, e2⟩ | ⟨e1, e2⟩
    · rw [e2]; exact log_ok_congr s.sh s1.sh s.out e1 hok
    · rw [e1, e2]; exact log_ta_ok i s.sh s.out hok

theorem exec_log_inv (env : Env) (ls : List B.Label) (s : B.Sys)
    (hinv : B.log_inv s) : B.log_inv (B.exec env s ls) := by
  induction ls generalizing s with
  | nil => exact hinv
  | cons l ls ih =>
    simp only [B.exec]
    apply ih
    cases hs : B.step env s l with
    | none => simpa using hinv
    | some s1 => simpa using step_log_inv env s s1 l hs hinv

theorem init_log_inv (env : Env) (htty : env.stdout_tty = true) : B.log_inv (B.init env) := by
  have h0 : log_ok (load_rubric env.rubric_file SharedArea.zeroed).2 [] := by
    refine ⟨by simp, ?_⟩
    cases hf : env.rubric_file with
    | none => simp [load_rubric, SharedArea.zeroed]
    | some f =>
      simp only [load_rubric]
      rw [(load_rubric_loop_frame NUM_QUESTIONS f SharedArea.zeroed).2.2.2.2.1]
      simp [SharedArea.zeroed]
  have h1 := load_exam_log_ok env 1 _ [] h0
  refine ⟨htty, by simp [B.init, B.stdio_line, htty], fun i => by simp [B.init, B.stdio_line, htty],
    ?_⟩
  simpa [B.init, B.stdio_line, htty] using h1

/-- C11, as amended.  Variant B, where every log line is printed by
`log_parent` or `log_ta` under `mutex_log`, with standard output line
buffered (a terminal).  In every state reachable from the start of the
parent loop, every line printed has been written to standard output (no
`stdio` buffer holds a line), `log_counter` is the number of lines written,
the sequence numbers written are 0, 1, ..., n-1 in output order, and a step
only adds lines at the end of the output.  The counter is an unbounded
integer here; the `int` of the program would overflow after 2^31 lines. -/
theorem log_sequence_gapless (env : Env) (ls : List B.Label) (s : B.Sys)
    (htty : env.stdout_tty = true) (hs : B.exec env (B.init env) ls = s) :
    (s.stdio_parent = [] ∧ ∀ i, s.stdio_ta i = []) ∧
    s.sh.log_counter = s.out.length ∧
    s.out.map LogLine.id = (List.range s.out.length).map (fun n => (n : Int)) ∧
    (∀ l s1, B.step env s l = some s1 → ∃ new, s1.out = s.out ++ new) := by
  have hinv : B.log_inv s := hs ▸ exec_log_inv env ls (B.init env) (init_log_inv env htty)
  obtain ⟨hty, hp, hb, hok⟩ := hinv
  refine ⟨⟨hp, hb⟩, hok.2, hok.1, ?_⟩
  intro l s1 h
  cases l with
  | parent w =>
    obtain ⟨_, _, _, h4⟩ := parent_step_log_B env w s s1 h hty hp
    rcases h4 with ⟨_, h2⟩ | ⟨_, h2⟩ | ⟨_, h2⟩
    · exact ⟨[], by simp [h2]⟩
    · exact ⟨_, by rw [h2]; rfl⟩
    · exact ⟨_, by rw [h2]; exact (load_exam_buf_B env _ s.sh s.out).2.2⟩
  | ta i c =>
    simp only [B.step] at h
    split at h
    swap
    · simp at h
    obtain ⟨_, _, _, h4⟩ := ta_step_log_B i c s s1 h hty hb
    rcases h4 with ⟨_, h2⟩ | ⟨_, h2⟩
    · exact ⟨[], by simp [h2]⟩
    · exact ⟨_, by rw [h2]; rfl⟩

theorem log_sequence_gapless_witness :
    env_two.stdout_tty = true ∧
    (B.exec env_two (B.init env_two) sched_log).out.map LogLine.id = [0, 1, 2, 3, 4, 5, 6, 7, 8] ∧
    (B.exec env_two (B.init env_two) sched_log).sh.log_counter =
      (B.exec env_two (B.init env_two) sched_log).out.length ∧
    (B.exec env_two (B.init env_two) sched_log).out.map LogLine.id =
      (List.range (B.exec env_two (B.init env_two) sched_log).out.length).map
        (fun n => (n : Int)) :=
  ⟨rfl, by decide,
   (log_sequence_gapless env_two sched_log (B.exec env_two (B.init env_two) sched_log)
      rfl rfl).2.1,
   (log_sequence_gapless env_two sched_log (B.exec env_two (B.init env_two) sched_log)
      rfl rfl).2.2.1⟩

/-- C11, counterexample to the claim as stated: variant B with two
assistants, a single exam, that of the sentinel student, and standard output
sent to a pipe or a file, run to the end.  Ten lines are written and
`log_counter` is 6; the two lines that the parent printed before the `fork`
calls are written three times, once by each process as it exits, and the
sequence numbers written are 0, 1, 2, 0, 1, 3, 0, 1, 4, 5. -/
theorem log_sequence_repeats_when_piped :
    B.startup_ok env_piped = true ∧
    (B.exec env_piped (B.init env_piped) sched_shutdown).parent = B.ParentPc.exited ∧
    (B.exec env_piped (B.init env_piped) sched_shutdown).ta 0 = B.TaPc.exited ∧
    (B.exec env_piped (B.init env_piped) sched_shutdown).ta 1 = B.TaPc.exited ∧
    (B.exec env_piped (B.init env_piped) sched_shutdown).out =
      [⟨0, none⟩, ⟨1, none⟩, ⟨2, some 0⟩, ⟨0, none⟩, ⟨1, none⟩, ⟨3, some 1⟩,
       ⟨0, none⟩, ⟨1, none⟩, ⟨4, none⟩, ⟨5, none⟩] ∧
    (B.exec env_piped (B.init env_piped) sched_shutdown).sh.log_counter = 6 ∧
    ¬ log_ok (B.exec env_piped (B.init env_piped) sched_shutdown).sh
      (B.exec env_piped (B.init env_piped) sched_shutdown).out := by
  refine ⟨by decide, by decide, by decide, by decide, by decide, by decide, ?_⟩
  intro h
  exact absurd h.2 (by decide)

/-! ## The race of variant A -/

set_option maxRecDepth 100000 in
/-- C12. Variant A with three assistants, one exam loaded and the parent
taking no step: there is a schedule of assistant steps in which assistants 0
and 1 both read slot 1 of `question_state` while it is 0, in the search loop
and again in the test before the claim, and both then store 1 in it.  After
the two stores both are marking the same question. -/
theorem duplicate_claim_possible :
    3 ≤ env_three.num_TAs ∧ A.startup_ok env_three = true ∧
    ((race_state []).ta 0 = A.TaPc.scan 0 ∧ (race_state []).ta 1 = A.TaPc.scan 0 ∧
      (race_state []).sh.question_state 0 = 0) ∧
    ((race_state [A.Label.ta 0 false, A.Label.ta 1 false]).ta 0 = A.TaPc.recheck 0 ∧
      (race_state [A.Label.ta 0 false, A.Label.ta 1 false]).ta 1 = A.TaPc.recheck 0 ∧
      (race_state [A.Label.ta 0 false, A.Label.ta 1 false]).sh.question_state 0 = 0) ∧
    ((race_state [A.Label.ta 0 false, A.Label.ta 1 false, A.Label.ta 0 false,
        A.Label.ta 1 false]).ta 0 = A.TaPc.claim 0 ∧
      (race_state [A.Label.ta 0 false, A.Label.ta 1 false, A.Label.ta 0 false,
        A.Label.ta 1 false]).ta 1 = A.TaPc.claim 0 ∧
      (race_state [A.Label.ta 0 false, A.Label.ta 1 false, A.Label.ta 0 false,
        A.Label.ta 1 false]).sh.question_state 0 = 0) ∧
    ((race_state [A.Label.ta 0 false, A.Label.ta 1 false, A.Label.ta 0 false,
        A.Label.ta 1 false, A.Label.ta 0 false]).ta 0 = A.TaPc.log none (A.TaPc.set_done 0) ∧
      (race_state [A.Label.ta 0 false, A.Label.ta 1 false, A.Label.ta 0 false,
        A.Label.ta 1 false, A.Label.ta 0 false]).ta 1 = A.TaPc.claim 0 ∧
      (race_state [A.Label.ta 0 false, A.Label.ta 1 false, A.Label.ta 0 false,
        A.Label.ta 1 false, A.Label.ta 0 false]).sh.question_state 0 = 1) ∧
    ((race_state [A.Label.ta 0 false, A.Label.ta 1 false, A.Label.ta 0 false,
        A.Label.ta 1 false, A.Label.ta 0 false, A.Label.ta 1 false]).ta 0
          = A.TaPc.log none (A.TaPc.set_done 0) ∧
      (race_state [A.Label.ta 0 false, A.Label.ta 1 false, A.Label.ta 0 false,
        A.Label.ta 1 false, A.Label.ta 0 false, A.Label.ta 1 false]).ta 1
          = A.TaPc.log none (A.TaPc.set_done 0) ∧
      (race_state [A.Label.ta 0 false, A.Label.ta 1 false, A.Label.ta 0 false,
        A.Label.ta 1 false, A.Label.ta 0 false, A.Label.ta 1 false]).sh.question_state 0
          = 1) := by
  decide

/-! ## The scan-and-claim critical section -/

theorem claim_section_first (sh : SharedArea) (k j : Fin NUM_QUESTIONS)
    (h : (claim_section sh).1 = some k) (hj : j < k) : sh.question_state j ≠ 0 := by
  have hfin : List.finRange 5 = [0, 1, 2, 3, 4] := by decide
  intro hj0
  simp only [claim_section, hfin, scan_questions] at h
  by_cases h0 : sh.question_state 0 = 0
  · simp [h0] at h
    subst h
    exact absurd hj (by simp)
  by_cases h1 : sh.question_state 1 = 0
  · simp [h0, h1] at h
    subst h
    fin_cases j <;> simp_all
  by_cases h2 : sh.question_state ⟨2, by decide⟩ = 0
  · simp [h0, h1, h2] at h
    subst h
    fin_cases j <;> simp_all
  by_cases h3 : sh.question_state ⟨3, by decide⟩ = 0
  · simp [h0, h1, h2, h3] at h
    subst h
    fin_cases j <;> simp_all
  by_cases h4 : sh.question_state ⟨4, by decide⟩ = 0
  · simp [h0, h1, h2, h3, h4] at h
    subst h
    fin_cases j <;> simp_all
  · fin_cases j <;> simp_all

/-- C13. The scan-and-claim critical section of variant B as a function of
the question states.  If some slot is 0 it returns the lowest index `k` whose
slot is 0, stores 1 in that slot alone and leaves `exam_done` as it was.  If
no slot is 0 it returns no index and changes no slot; it stores 1 in
`exam_done` when every slot is 2 and leaves `exam_done` as it was otherwise.
The other fields of the area are never touched. -/
theorem claim_section_spec (sh : SharedArea) :
    ((∃ q, sh.question_state q = 0) →
      ∃ k, (claim_section sh).1 = some k ∧ sh.question_state k = 0 ∧
        (∀ j, j < k → sh.question_state j ≠ 0) ∧
        (claim_section sh).2.2.question_state = Function.update sh.question_state k 1 ∧
        (claim_section sh).2.2.exam_done = sh.exam_done) ∧
    ((∀ q, sh.question_state q ≠ 0) →
      (claim_section sh).1 = none ∧
      (claim_section sh).2.2.question_state = sh.question_state ∧
      ((∀ q, sh.question_state q = 2) → (claim_section sh).2.2.exam_done = 1) ∧
      (¬ (∀ q, sh.question_state q = 2) → (claim_section sh).2.2.exam_done = sh.exam_done)) ∧
    ((claim_section sh).2.2.rubric = sh.rubric ∧
      (claim_section sh).2.2.rubric_dirty = sh.rubric_dirty ∧
      (claim_section sh).2.2.terminate = sh.terminate ∧
      (claim_section sh).2.2.log_counter = sh.log_counter ∧
      (claim_section sh).2.2.student_id = sh.student_id) := by
  refine ⟨fun ⟨q, hq⟩ => ?_, fun hall => ?_, ?_⟩
  · cases hk : (claim_section sh).1 with
    | none => exact absurd hq ((claim_section_none sh hk).2.1 q)
    | some k =>
      obtain ⟨a1, a2, a3⟩ := claim_section_some sh k hk
      exact ⟨k, rfl, a1, fun j hj => claim_section_first sh k j hk hj, a2, a3⟩
  · cases hk : (claim_section sh).1 with
    | some k => exact absurd (claim_section_some sh k hk).1 (hall k)
    | none =>
      obtain ⟨a1, _, a3, a4⟩ := claim_section_none sh hk
      refine ⟨rfl, a1, fun h2 => ?_, fun h2 => ?_⟩
      · cases hb : (claim_section sh).2.1 with
        | true => exact (a3 hb).2
        | false =>
          exfalso
          have hfin : List.finRange 5 = [0, 1, 2, 3, 4] := by decide
          simp [claim_section, hfin, scan_questions, h2] at hb
      · cases hb : (claim_section sh).2.1 with
        | true => exact absurd (a3 hb).1 h2
        | false => exact a4 hb
  · obtain ⟨b1, b2, b3, b4, b5⟩ := claim_section_frame sh
    exact ⟨b2, b3, b1, b4, b5⟩

theorem claim_section_spec_witness :
    (claim_section area_mixed).1 = some 2 ∧
    ∃ k, (claim_section area_mixed).1 = some k ∧ area_mixed.question_state k = 0 ∧
      (∀ j, j < k → area_mixed.question_state j ≠ 0) ∧
      (claim_section area_mixed).2.2.question_state =
        Function.update area_mixed.question_state k 1 ∧
      (claim_section area_mixed).2.2.exam_done = area_mixed.exam_done :=
  ⟨by decide, (claim_section_spec area_mixed).1 ⟨2, by decide⟩⟩

/-! ## The marking loop of variant A -/

theorem moved_self (s : A.Sys) (i : Nat) : s.moved i (s.ta i) s.sh s.out = s := by
  simp [A.Sys.moved]

theorem step_mark_top_A (env : Env) (s : A.Sys) (i : Nat) (c : Bool)
    (sh : SharedArea) (out : List LogLine) (hi : i < env.num_TAs) (ht : sh.terminate = 0) :
    (A.step env (s.moved i A.TaPc.mark_top sh out) (A.Label.ta i c)).getD
        (s.moved i A.TaPc.mark_top sh out) = s.moved i (A.TaPc.scan 0) sh out := by
  simp [A.step, hi, A.ta_step, A.Sys.moved, A.Sys.goto, ht]

theorem step_scan_done_A (env : Env) (s : A.Sys) (i : Nat) (c : Bool) (j : Fin NUM_QUESTIONS)
    (sh : SharedArea) (out : List LogLine) (hi : i < env.num_TAs)
    (hj : sh.question_state j = 2) :
    (A.step env (s.moved i (A.TaPc.scan j) sh out) (A.Label.ta i c)).getD
        (s.moved i (A.TaPc.scan j) sh out) = s.moved i (A.next_scan j) sh out := by
  simp [A.step, hi, A.ta_step, A.Sys.moved, A.Sys.goto, hj]

theorem step_scan_found_A (env : Env) (s : A.Sys) (i : Nat) (c : Bool)
    (j : Fin NUM_QUESTIONS) (sh : SharedArea) (out : List LogLine) (hi : i < env.num_TAs)
    (hj : sh.question_state j ≠ 2) :
    (A.step env (s.moved i (A.TaPc.scan j) sh out) (A.Label.ta i c)).getD
        (s.moved i (A.TaPc.scan j) sh out) = s.moved i (A.TaPc.recheck j) sh out := by
  simp [A.step, hi, A.ta_step, A.Sys.moved, A.Sys.goto, hj]

theorem step_recheck_A (env : Env) (s : A.Sys) (i : Nat) (c : Bool) (q : Fin NUM_QUESTIONS)
    (sh : SharedArea) (out : List LogLine) (hi : i < env.num_TAs)
    (hq : sh.question_state q ≠ 2) :
    (A.step env (s.moved i (A.TaPc.recheck q) sh out) (A.Label.ta i c)).getD
        (s.moved i (A.TaPc.recheck q) sh out) = s.moved i (A.TaPc.claim q) sh out := by
  simp [A.step, hi, A.ta_step, A.Sys.moved, A.Sys.goto, hq]

theorem step_claim_A (env : Env) (s : A.Sys) (i : Nat) (c : Bool) (q : Fin NUM_QUESTIONS)
    (sh : SharedArea) (out : List LogLine) (hi : i < env.num_TAs) :
    (A.step env (s.moved i (A.TaPc.claim q) sh out) (A.Label.ta i c)).getD
        (s.moved i (A.TaPc.claim q) sh out) =
      s.moved i (A.TaPc.log none (A.TaPc.set_done q))
        { sh with question_state := Function.update sh.question_state q 1 } out := by
  simp [A.step, hi, A.ta_step, A.Sys.moved]

theorem step_set_done_A (env : Env) (s : A.Sys) (i : Nat) (c : Bool) (q : Fin NUM_QUESTIONS)
    (sh : SharedArea) (out : List LogLine) (hi : i < env.num_TAs) :
    (A.step env (s.moved i (A.TaPc.set_done q) sh out) (A.Label.ta i c)).getD
        (s.moved i (A.TaPc.set_done q) sh out) =
      s.moved i (A.TaPc.log none A.TaPc.mark_top)
        { sh with question_state := Function.update sh.question_state q 2 } out := by
  simp [A.step, hi, A.ta_step, A.Sys.moved]

theorem step_log_read_A (env : Env) (s : A.Sys) (i : Nat) (c : Bool) (next : A.TaPc)
    (sh : SharedArea) (out : List LogLine) (hi : i < env.num_TAs) :
    (A.step env (s.moved i (A.TaPc.log none next) sh out) (A.Label.ta i c)).getD
        (s.moved i (A.TaPc.log none next) sh out) =
      s.moved i (A.TaPc.log (some sh.log_counter) next) sh out := by
  simp [A.step, hi, A.ta_step, A.Sys.moved, A.Sys.goto]

theorem step_log_write_A (env : Env) (s : A.Sys) (i : Nat) (c : Bool) (id : Int)
    (next : A.TaPc) (sh : SharedArea) (out : List LogLine) (hi : i < env.num_TAs) :
    (A.step env (s.moved i (A.TaPc.log (some id) next) sh out) (A.Label.ta i c)).getD
        (s.moved i (A.TaPc.log (some id) next) sh out) =
      s.moved i next { sh with log_counter := id + 1 } (out ++ [⟨id, some i⟩]) := by
  simp [A.step, hi, A.ta_step, A.Sys.moved]

/-- From the claim of question `q` to the head of the marking loop: the
assistant, running alone, logs, marks the question done and logs again. -/
theorem mark_claimed_A (env : Env) (s : A.Sys) (i : Nat) (c : Bool) (q : Fin NUM_QUESTIONS)
    (sh : SharedArea) (out : List LogLine) (hi : i < env.num_TAs) :
    A.exec env (s.moved i (A.TaPc.log none (A.TaPc.set_done q)) sh out)
        (List.replicate 5 (A.Label.ta i c)) =
      s.moved i A.TaPc.mark_top
        { sh with question_state := Function.update sh.question_state q 2,
                  log_counter := sh.log_counter + 1 + 1 }
        (out ++ [⟨sh.log_counter, some i⟩, ⟨sh.log_counter + 1, some i⟩]) := by
  simp only [List.replicate, A.exec, step_log_read_A env s i c _ _ _ hi,
    step_log_write_A env s i c _ _ _ _ hi, step_set_done_A env s i c _ _ _ hi]
  simp

theorem exec_append_A (env : Env) (s : A.Sys) (l1 l2 : List A.Label) :
    A.exec env s (l1 ++ l2) = A.exec env (A.exec env s l1) l2 := by
  induction l1 generalizing s with
  | nil => rfl
  | cons l ls ih => exact ih _

theorem exec_replicate_add_A (env : Env) (s : A.Sys) (l : A.Label) (m n : Nat) :
    A.exec env s (List.replicate (m + n) l) =
      A.exec env (A.exec env s (List.replicate m l)) (List.replicate n l) := by
  rw [List.replicate_add, exec_append_A]

/-- The search loop of an assistant running alone, from index `j`: it passes
the questions that are done and stops at `k`, the first that is not. -/
theorem scan_run_A (env : Env) (s : A.Sys) (i : Nat) (c : Bool) (k : Fin NUM_QUESTIONS)
    (sh : SharedArea) (out : List LogLine) (hi : i < env.num_TAs)
    (hk : sh.question_state k ≠ 2) (n : Nat) (j : Fin NUM_QUESTIONS) (hjk : j.val + n = k.val)
    (hb : ∀ m : Fin NUM_QUESTIONS, j ≤ m → m < k → sh.question_state m = 2) :
    A.exec env (s.moved i (A.TaPc.scan j) sh out) (List.replicate (n + 1) (A.Label.ta i c)) =
      s.moved i (A.TaPc.recheck k) sh out := by
  induction n generalizing j with
  | zero =>
    have e : j = k := Fin.ext (by simpa using hjk)
    subst e
    simp only [List.replicate, A.exec, step_scan_found_A env s i c _ _ _ hi hk]
  | succ n ih =>
    have hlt : j < k := by
      rw [Fin.lt_def]; omega
    have h5 : j.val + 1 < NUM_QUESTIONS := by
      have := k.isLt; omega
    have hj2 : sh.question_state j = 2 := hb j (le_refl j) hlt
    have hnext : A.next_scan j = A.TaPc.scan ⟨j.val + 1, h5⟩ := by
      simp [A.next_scan, h5]
    rw [List.replicate_succ]
    simp only [A.exec]
    rw [step_scan_done_A env s i c j sh out hi hj2, hnext]
    apply ih ⟨j.val + 1, h5⟩
    · simp; omega
    · intro m hm hmk
      apply hb m _ hmk
      rw [Fin.le_def] at hm ⊢
      simp at hm
      omega

/-- From the head of the marking loop to the claim: the assistant, running
alone, passes the questions that are done and claims the first that is not,
whether it is not started or in progress. -/
theorem claim_first_not_done_A (env : Env) (s : A.Sys) (i : Nat) (c : Bool)
    (k : Fin NUM_QUESTIONS) (sh : SharedArea) (out : List LogLine) (hi : i < env.num_TAs)
    (ht : sh.terminate = 0) (hk : sh.question_state k ≠ 2)
    (hb : ∀ j, j < k → sh.question_state j = 2) :
    A.exec env (s.moved i A.TaPc.mark_top sh out) (List.replicate (k.val + 4) (A.Label.ta i c)) =
      s.moved i (A.TaPc.log none (A.TaPc.set_done k))
        { sh with question_state := Function.update sh.question_state k 1 } out := by
  have e : k.val + 4 = 1 + ((k.val + 1) + 2) := by omega
  rw [e, exec_replicate_add_A, exec_replicate_add_A]
  have h1 : A.exec env (s.moved i A.TaPc.mark_top sh out) (List.replicate 1 (A.Label.ta i c)) =
      s.moved i (A.TaPc.scan 0) sh out := by
    simp only [List.replicate, A.exec, step_mark_top_A env s i c _ _ hi ht]
  rw [h1, scan_run_A env s i c k sh out hi hk k.val 0 (by simp) (fun m _ hm => hb m hm)]
  simp only [List.replicate, A.exec, step_recheck_A env s i c _ _ _ hi hk,
    step_claim_A env s i c _ _ _ hi]

/-- C14, as amended.  Variant A, an assistant at the head of its marking loop
with `terminate` false, running alone, `k` being the first slot that is not
done (2), whether it is not started (0) or in progress (1).  The iteration
does not back off: after `k + 4` steps the assistant has stored 1 in slot `k`
and nothing else has changed; after `k + 9` steps it is back at the head of
the loop, slot `k` is 2, no other slot has changed and the two lines for the
question have been printed.  When slot `k` is not started it is the first
slot not started. -/
theorem marking_iteration_takes_first_not_done (env : Env) (s : A.Sys) (i : Nat) (c : Bool)
    (k : Fin NUM_QUESTIONS) (hi : i < env.num_TAs) (hpc : s.ta i = A.TaPc.mark_top)
    (ht : s.sh.terminate = 0) (hk : s.sh.question_state k ≠ 2)
    (hb : ∀ j, j < k → s.sh.question_state j = 2) :
    A.exec env s (List.replicate (k.val + 4) (A.Label.ta i c)) =
      s.moved i (A.TaPc.log none (A.TaPc.set_done k))
        { s.sh with question_state := Function.update s.sh.question_state k 1 } s.out ∧
    A.exec env s (List.replicate (k.val + 9) (A.Label.ta i c)) =
      s.moved i A.TaPc.mark_top
        { s.sh with question_state := Function.update s.sh.question_state k 2,
                    log_counter := s.sh.log_counter + 1 + 1 }
        (s.out ++ [⟨s.sh.log_counter, some i⟩, ⟨s.sh.log_counter + 1, some i⟩]) ∧
    (s.sh.question_state k = 0 → ∀ j, j < k → s.sh.question_state j ≠ 0) := by
  have hs : s.moved i A.TaPc.mark_top s.sh s.out = s := by rw [← hpc, moved_self]
  have h4 := claim_first_not_done_A env s i c k s.sh s.out hi ht hk hb
  rw [hs] at h4
  refine ⟨h4, ?_, fun _ j hj h0 => ?_⟩
  · have e : k.val + 9 = (k.val + 4) + 5 := by omega
    rw [e, exec_replicate_add_A, h4, mark_claimed_A env s i c k _ s.out hi]
    simp
  · rw [hb j hj] at h0
    exact absurd h0 (by decide)

set_option maxRecDepth 100000 in
theorem marking_iteration_takes_first_not_done_witness :
    (hold_state sched_hold_last []).sh.question_state 4 = 1 ∧
    A.exec env_two (hold_state sched_hold_last [])
        (List.replicate ((4 : Fin NUM_QUESTIONS).val + 9) (A.Label.ta 0 false)) =
      (hold_state sched_hold_last []).moved 0 A.TaPc.mark_top
        { (hold_state sched_hold_last []).sh with
            question_state :=
              Function.update (hold_state sched_hold_last []).sh.question_state 4 2,
            log_counter := (hold_state sched_hold_last []).sh.log_counter + 1 + 1 }
        ((hold_state sched_hold_last []).out ++
          [⟨(hold_state sched_hold_last []).sh.log_counter, some ((0 : Nat) : Int)⟩,
           ⟨(hold_state sched_hold_last []).sh.log_counter + 1, some ((0 : Nat) : Int)⟩]) :=
  ⟨by decide,
   (marking_iteration_takes_first_not_done env_two (hold_state sched_hold_last []) 0 false 4
      (by decide) (by decide) (by decide) (by decide) (by decide)).2.1⟩

set_option maxRecDepth 100000 in
/-- C14, counterexample to the claim as stated.  Variant A, two assistants.
First state: slots 1 to 4 done, slot 5 in progress (held by assistant 1), no
slot not started, assistant 0 at the head of its marking loop; running alone
for one iteration (13 steps) assistant 0 is back at the head of the loop,
slot 5 is done and two more lines are printed: it has not backed off.  Second
state: slot 1 in progress (held by assistant 1), slots 2 to 5 not started;
after 4 steps assistant 0 has claimed slot 1, which is not the first slot not
started. -/
theorem marking_iteration_no_back_off :
    ((∀ q, (hold_state sched_hold_last []).sh.question_state q ≠ 0) ∧
      (hold_state sched_hold_last []).sh.question_state 4 = 1 ∧
      (hold_state sched_hold_last []).ta 0 = A.TaPc.mark_top ∧
      (hold_state sched_hold_last []).ta 1 = A.TaPc.log none (A.TaPc.set_done 4) ∧
      (hold_state sched_hold_last (List.replicate 13 (A.Label.ta 0 false))).ta 0
        = A.TaPc.mark_top ∧
      (hold_state sched_hold_last
        (List.replicate 13 (A.Label.ta 0 false))).sh.question_state 4 = 2 ∧
      (hold_state sched_hold_last (List.replicate 13 (A.Label.ta 0 false))).out.length
        = (hold_state sched_hold_last []).out.length + 2) ∧
    ((hold_state sched_hold_first []).sh.question_state 0 = 1 ∧
      (hold_state sched_hold_first []).sh.question_state 1 = 0 ∧
      (hold_state sched_hold_first []).ta 0 = A.TaPc.mark_top ∧
      (hold_state sched_hold_first (List.replicate 4 (A.Label.ta 0 false))).ta 0
        = A.TaPc.log none (A.TaPc.set_done 0)) := by
  decide

/-! ## What `load_rubric` stores -/

/-- When the loop of `load_rubric` succeeds, each rubric slot holds the letter
of the last line read that carries its number, or its old value when no line
read carries it. -/
theorem load_rubric_loop_stores (n : Nat) (f : List Int) (sh : SharedArea)
    (h : (load_rubric_loop n f sh).1 = 0) (j : Fin NUM_QUESTIONS) :
    (load_rubric_loop n f sh).2.rubric j =
      (last_letter (j.val + 1) ((chunks n f).filterMap scan_rubric_line)).getD (sh.rubric j) := by
  induction n generalizing f sh with
  | zero => simp [load_rubric_loop, chunks, last_letter]
  | succ n ih =>
    unfold load_rubric_loop at h ⊢
    unfold chunks
    cases hf : fgets 256 f with
    | none => simp [hf] at h
    | some p =>
      obtain ⟨line, rest⟩ := p
      simp only [hf] at h ⊢
      cases hs : scan_rubric_line line with
      | none => simp [hs] at h
      | some qc =>
        obtain ⟨q, c⟩ := qc
        simp only [hs] at h ⊢
        by_cases hq : q < 1 ∨ (5 : Int) < q
        · simp [hq] at h
        · simp [hq] at h
          have hq' : ¬ (q < 1 ∨ q > (NUM_QUESTIONS : Int)) := by simpa using hq
          simp only [hq', if_false, List.filterMap_cons, hs]
          rw [ih _ _ h, last_letter]
          cases hl : last_letter (j.val + 1) ((chunks n rest).filterMap scan_rubric_line) with
          | some x => simp
          | none =>
            by_cases e : q = (j.val : Int) + 1
            · have e' : (j.val : Int) = q - 1 := by omega
              simp only [array_write, if_pos e', if_pos e, Option.getD_some, Option.getD_none]
            · have e' : ¬ (j.val : Int) = q - 1 := by omega
              simp only [array_write, if_neg e', if_neg e, Option.getD_some, Option.getD_none]

/-- The loop of `load_rubric` depends on the file only through what its
calls of `fgets` store. -/
theorem load_rubric_loop_chunks (n : Nat) (f g : List Int) (sh : SharedArea)
    (h : chunks n g = chunks n f) : load_rubric_loop n g sh = load_rubric_loop n f sh := by
  induction n generalizing f g sh with
  | zero => simp [load_rubric_loop]
  | succ n ih =>
    unfold load_rubric_loop
    unfold chunks at h
    cases hf : fgets 256 f with
    | none =>
      cases hg : fgets 256 g with
      | none => rfl
      | some p => simp [hf, hg] at h
    | some p =>
      cases hg : fgets 256 g with
      | none => simp [hf, hg] at h
      | some p1 =>
        obtain ⟨l, r⟩ := p
        obtain ⟨l1, r1⟩ := p1
        simp only [hf, hg, List.cons.injEq] at h
        obtain ⟨hl, hr⟩ := h
        subst hl
        simp only
        split
        · rfl
        · split
          · rfl
          · exact ih _ _ _ hr

theorem lines_read_of_scans (ls : List (List Int))
    (h : ∀ l ∈ ls, ∃ q c, scan_rubric_line l = some (q, c) ∧ 1 ≤ q ∧ q ≤ 5) :
    lines_read ls (ls.filterMap scan_rubric_line) := by
  induction ls with
  | nil => exact List.Forall₂.nil
  | cons l ls ih =>
    obtain ⟨q, c, hs, h1, h5⟩ := h l (by simp)
    simp only [List.filterMap_cons, hs]
    exact List.Forall₂.cons ⟨scan_rubric_line_reads l q c hs, h1, h5⟩
      (ih (fun l1 hl1 => h l1 (by simp [hl1])))

theorem scans_of_lines_read (ls : List (List Int)) (parsed : List (Int × Int))
    (h : lines_read ls parsed) : ls.filterMap scan_rubric_line = parsed := by
  induction h with
  | nil => rfl
  | @cons l p ls ps hp _ ih =>
    have hs : scan_rubric_line l = some p := line_reads_scans l p.1 p.2 hp.1
    simp only [List.filterMap_cons, hs, ih]

/-- C15, as amended.  For a rubric file whose first five lines (all of them
when there are fewer) are at most 255 characters long, newline included:
whenever `load_rubric` returns 0, each of the first five lines, taken up to
its first NUL character when it has one, reads as a question number in 1..5
and a letter; whatever number and letter the lines read as, every slot
`rubric[n-1]` holds the letter of the last of the five lines whose question
number is `n`, or its old value when none of them has that number; and the
result depends on the file only through its first five lines.  The question
number of an integer text is the `int` it is stored as (`int_value`), and the
letter is the first character after the comma that is not white space or,
when the comma comes right after the number and only white space follows it,
the character right after the comma (`line_reads`). -/
theorem load_rubric_stores (f : List Int) (sh : SharedArea)
    (hlen : ∀ l ∈ first_lines 5 f, l.length ≤ 255)
    (hok : (load_rubric (some f) sh).1 = 0) :
    (∃ parsed, lines_read (first_lines 5 f) parsed) ∧
    (∀ parsed, lines_read (first_lines 5 f) parsed →
      ∀ j : Fin NUM_QUESTIONS, (load_rubric (some f) sh).2.rubric j =
        (last_letter (j.val + 1) parsed).getD (sh.rubric j)) ∧
    (∀ g, first_lines 5 g = first_lines 5 f →
      load_rubric (some g) sh = load_rubric (some f) sh) := by
  have hc := chunks_eq_first_lines 5 f hlen
  refine ⟨⟨_, lines_read_of_scans _ ?_⟩, fun parsed hp j => ?_, fun g hg => ?_⟩
  · rw [← hc]
    exact (load_rubric_loop_ok 5 f sh hok).2
  · rw [← scans_of_lines_read _ parsed hp, ← hc]
    exact load_rubric_loop_stores 5 f sh hok j
  · have hcg : chunks 5 g = first_lines 5 g :=
      chunks_eq_first_lines 5 g (fun l hl => hlen l (hg ▸ hl))
    exact load_rubric_loop_chunks 5 f g sh (by rw [hcg, hc, hg])

theorem load_rubric_stores_witness :
    (load_rubric (some rubric_twice_first) SharedArea.zeroed).2.rubric 0 = 67 ∧
    (load_rubric (some rubric_twice_first) SharedArea.zeroed).2.rubric 2 = 0 ∧
    ((∃ parsed, lines_read (first_lines 5 rubric_twice_first) parsed) ∧
    (∀ parsed, lines_read (first_lines 5 rubric_twice_first) parsed →
      ∀ j : Fin NUM_QUESTIONS,
        (load_rubric (some rubric_twice_first) SharedArea.zeroed).2.rubric j =
          (last_letter (j.val + 1) parsed).getD (SharedArea.zeroed.rubric j)) ∧
    (∀ g, first_lines 5 g = first_lines 5 rubric_twice_first →
      load_rubric (some g) SharedArea.zeroed =
        load_rubric (some rubric_twice_first) SharedArea.zeroed)) :=
  ⟨by decide, by decide,
   load_rubric_stores rubric_twice_first SharedArea.zeroed (by decide) (by decide)⟩

set_option maxRecDepth 100000 in
/-- C15, counterexample to the claim as stated, in four files on which
`load_rubric` returns 0, each read into a zeroed area.  The first line of
the first file is `1, ` and a newline, with no character after the comma
that is not white space: the space is stored in `rubric[0]`.  The second
file has four lines, numbered 1, 3, 4 and 5, the first of them 260
characters long: `rubric[1]` does not keep its value, `B` is stored there.
The first line of the third file has a NUL after `1, `, the first character
after the comma that is not white space: the space is stored in `rubric[0]`.
The first line of the fourth file is numbered 4294967297 and no line of it
is numbered 1: `rubric[0]` does not keep its value, `A` is stored there. -/
theorem load_rubric_stores_unexpected :
    (first_lines 5 rubric_blank_letter =
        [cstr "1, \n", cstr "2, B\n", cstr "3, C\n", cstr "4, D\n", cstr "5, E\n"] ∧
      (load_rubric (some rubric_blank_letter) SharedArea.zeroed).1 = 0 ∧
      (load_rubric (some rubric_blank_letter) SharedArea.zeroed).2.rubric 0 = 32 ∧
      isspace 32 = true) ∧
    (first_lines 5 rubric_long_first_line =
        [cstr "1,A" ++ List.replicate 252 32 ++ cstr "2,B\n", cstr "3,C\n", cstr "4,D\n",
          cstr "5,E\n"] ∧
      (load_rubric (some rubric_long_first_line) SharedArea.zeroed).1 = 0 ∧
      (load_rubric (some rubric_long_first_line) SharedArea.zeroed).2.rubric 1 = 66 ∧
      SharedArea.zeroed.rubric 1 = 0) ∧
    (first_lines 5 rubric_nul_line =
        [[49, 44, 32, 0, 65, 10], cstr "2, B\n", cstr "3, C\n", cstr "4, D\n", cstr "5, E\n"] ∧
      (load_rubric (some rubric_nul_line) SharedArea.zeroed).1 = 0 ∧
      (load_rubric (some rubric_nul_line) SharedArea.zeroed).2.rubric 0 = 32 ∧
      isspace 0 = false) ∧
    (first_lines 5 rubric_wide_number =
        [cstr "4294967297, A\n", cstr "2, B\n", cstr "3, C\n", cstr "4, D\n", cstr "5, E\n"] ∧
      decimal_value (cstr "4294967297") = 4294967297 ∧
      (load_rubric (some rubric_wide_number) SharedArea.zeroed).1 = 0 ∧
      (load_rubric (some rubric_wide_number) SharedArea.zeroed).2.rubric 0 = 65 ∧
      SharedArea.zeroed.rubric 0 = 0) := by
  decide

end Marker
